import Mathlib

/-!
StaticMeshComponent: vertex/index packing and progressive-mesh buffers.

A shallow embedding of `Engine/Source/Runtime/ECWorld/StaticMeshComponent.cpp`
(built with `EDITOR_MODE`).

* Byte buffers (`std::vector<std::byte>`) are lists of naturals, one per byte.
* `uint32_t` / `uint16_t` values are naturals; arithmetic that can wrap is
  reduced modulo `2 ^ 32` / `2 ^ 16` explicitly.
* Typed views of a byte buffer (`reinterpret_cast<IndexType*>`) are little-endian.
* A function returns `none` where the C++ aborts on an assertion or leaves
  defined behaviour (a copy or a lookup outside a buffer).
-/

namespace CatDog

/-! ## Machine constants -/

def UINT16_MAX : Nat := 65535

def UINT32_MAX : Nat := 4294967295

/-- The number of `uint32_t` values, `2 ^ 32`. -/
def U32 : Nat := 4294967296

/-- A block of exactly `n` bytes (the object representation of a value). -/
abbrev Bytes (n : Nat) := { l : List Nat // l.length = n }

/-! ## External collaborators: vertex format and source mesh -/

inductive VertexAttributeType where
  | Position
  | Normal
  | Tangent
  | Bitangent
  | UV
  | Color
  | BoneIndex
  | BoneWeight
  deriving DecidableEq, Repr

/-- Modelled from the spec: `cd::VertexFormat` is declared outside `src/`; the spec
describes it as a set of attribute flags with containment and compatibility queries. -/
structure VertexFormat where
  position : Bool
  normal : Bool
  tangent : Bool
  bitangent : Bool
  uv : Bool
  color : Bool
  boneIndex : Bool
  boneWeight : Bool
  deriving DecidableEq, Repr

namespace VertexFormat

def Contains (f : VertexFormat) : VertexAttributeType → Bool
  | .Position => f.position
  | .Normal => f.normal
  | .Tangent => f.tangent
  | .Bitangent => f.bitangent
  | .UV => f.uv
  | .Color => f.color
  | .BoneIndex => f.boneIndex
  | .BoneWeight => f.boneWeight

/-- Modelled from the spec: the byte size of one attribute. Position, normal, tangent
and bitangent are three floats (the spec's cube has 12 + 12 bytes for position and
normal), a UV is two floats, a color four floats; the bone attributes are the four
`uint16_t` IDs and the four `float` weights that `Build` writes. -/
def attributeSize : VertexAttributeType → Nat
  | .Position => 12
  | .Normal => 12
  | .Tangent => 12
  | .Bitangent => 12
  | .UV => 8
  | .Color => 16
  | .BoneIndex => 8
  | .BoneWeight => 16

def allAttributes : List VertexAttributeType :=
  [.Position, .Normal, .Tangent, .Bitangent, .UV, .Color, .BoneIndex, .BoneWeight]

/-- Modelled from the spec: `GetStride` is the sum of the byte sizes of the
requested attributes. -/
def GetStride (f : VertexFormat) : Nat :=
  (allAttributes.map (fun t => if f.Contains t then attributeSize t else 0)).sum

/-- Modelled from the spec: the receiver is compatible to `other` when it is a
superset of it, attribute by attribute. -/
def IsCompatiableTo (f other : VertexFormat) : Bool :=
  allAttributes.all (fun t => !other.Contains t || f.Contains t)

end VertexFormat

/-- The accessors of `cd::Mesh` that `Build` reads. Attribute values are kept as
their object representation, since `Build` only copies them. A `cd::BoneID` is
`none` when `IsValid()` is false and `some d` when it is valid with `Data() = d`. -/
structure Mesh where
  vertexFormat : VertexFormat
  vertexCount : Nat
  polygonCount : Nat
  polygons : List (List Nat)
  vertexInfluenceCount : Nat
  vertexPosition : Nat → Bytes 12
  vertexNormal : Nat → Bytes 12
  vertexTangent : Nat → Bytes 12
  vertexBiTangent : Nat → Bytes 12
  vertexUV0 : Nat → Bytes 8
  vertexColor0 : Nat → Bytes 16
  vertexBoneID : Nat → Nat → Option Nat
  vertexWeight : Nat → Nat → Bytes 4

/-- A well-formed source mesh: counts and IDs are `uint32_t` values, the polygon count
is the number of stored polygons and, as in the spec's data model, every polygon is an
ordered triple of vertex IDs. -/
structure Mesh.WellFormed (m : Mesh) : Prop where
  vertexCount_lt : m.vertexCount < U32
  polygonCount_eq : m.polygonCount = m.polygons.length
  polygonCount_lt : m.polygonCount < U32
  triangles : ∀ p ∈ m.polygons, p.length = 3
  vertexID_lt : ∀ p ∈ m.polygons, ∀ v ∈ p, v < U32
  boneID_lt : ∀ k i d, m.vertexBoneID k i = some d → d < U32

/-! ## Component state -/

structure StaticMeshComponent where
  m_pMeshData : Option Mesh
  m_pRequiredVertexFormat : Option VertexFormat
  m_currentVertexCount : Nat
  m_currentPolygonCount : Nat
  m_vertexBuffer : List Nat
  m_vertexBufferHandle : Nat
  m_indexBuffer : List Nat
  m_indexBufferHandle : Nat
  m_wireframeIndexBuffer : List Nat
  m_wireframeIndexBufferHandle : Nat
  m_originVertexCount : Nat
  m_originPolygonCount : Nat
  m_progressiveMeshTargetVertexCount : Nat
  m_progressiveMeshReductionPercent : ℚ
  m_progressiveMeshVertexBuffer : List Nat
  m_progressiveMeshVertexBufferHandle : Nat
  m_progressiveMeshIndexBuffer : List Nat
  m_progressiveMeshIndexBufferHandle : Nat
  m_permutation : List Nat
  m_map : List Nat

/-! ## Byte-buffer primitives -/

/-- The call `std::vector<std::byte>::resize(n)`: the leading elements are kept, new
elements are zero. -/
def resize (buf : List Nat) (n : Nat) : List Nat :=
  buf.take n ++ List.replicate (n - buf.length) 0

/-- The call `std::memcpy(buf + off, data, data.length)`; `none` when the
destination range leaves the buffer. -/
def memcpyAt (buf : List Nat) (off : Nat) (data : List Nat) : Option (List Nat) :=
  if off + data.length ≤ buf.length then
    some (buf.take off ++ data ++ buf.drop (off + data.length))
  else none

/-- The captured state of the `FillVertexBuffer` / `FillIndexBuffer` lambdas: the
buffer behind the data pointer and the `uint32_t` running size. -/
structure Cursor where
  buf : List Nat
  dataSize : Nat

/-- One call of `FillVertexBuffer` / `FillIndexBuffer`. -/
def FillBuffer (c : Cursor) (data : List Nat) : Option Cursor :=
  (memcpyAt c.buf c.dataSize data).map
    (fun b => { buf := b, dataSize := (c.dataSize + data.length) % U32 })

/-- The call `FillBuffer` under an `if (contains...)`. -/
def FillBufferIf (cond : Bool) (c : Cursor) (data : List Nat) : Option Cursor :=
  if cond then FillBuffer c data else some c

/-- Little-endian object representation of a `uint16_t`. -/
def le16 (v : Nat) : List Nat := [v % 256, v / 256 % 256]

/-- Little-endian object representation of a `uint32_t`. -/
def le32 (v : Nat) : List Nat :=
  [v % 256, v / 256 % 256, v / 65536 % 256, v / 16777216 % 256]

/-- The value of a little-endian byte sequence. -/
def leValue : List Nat → Nat
  | [] => 0
  | b :: bs => b + 256 * leValue bs

/-- The test `count <= uint16_t max + 1` that `Build`, `Submit`, `BuildWireframeData`,
`BuildProgressiveMeshData` and `UpdateProgressiveMeshData` all repeat. -/
def useU16Index (vertexCount : Nat) : Bool :=
  decide (vertexCount ≤ (UINT16_MAX + 1) % U32)

def indexTypeSize (u16 : Bool) : Nat := if u16 then 2 else 4

/-- Storing a value through an `IndexType` lvalue (`static_cast<IndexType>` included). -/
def encodeIndex (u16 : Bool) (v : Nat) : List Nat :=
  if u16 then le16 (v % 65536) else le32 (v % U32)

/-- The `w` bytes of element `j` of a buffer of `w`-byte elements. -/
def slot (buf : List Nat) (j w : Nat) : List Nat := (buf.drop (j * w)).take w

/-- Reading element `k` of a buffer viewed as `IndexType*`; `none` outside the buffer. -/
def readIndex (u16 : Bool) (buf : List Nat) (k : Nat) : Option Nat :=
  if (k + 1) * indexTypeSize u16 ≤ buf.length then
    some (leValue (slot buf k (indexTypeSize u16)))
  else none

/-! ## Build: the vertex/index packer -/

/-- The `cd::BoneID boneID` of one round of the bone loop of `Build`: default
constructed (invalid), assigned from the mesh only below the influence count. -/
def slotBoneID (mesh : Mesh) (vertexIndex vertexBoneIndex : Nat) : Option Nat :=
  if vertexBoneIndex < mesh.vertexInfluenceCount then
    mesh.vertexBoneID vertexBoneIndex vertexIndex
  else none

/-- The object representation of `0.0f`. -/
def zeroWeight : Bytes 4 := ⟨[0, 0, 0, 0], rfl⟩

/-- What one round of the bone loop pushes to `vertexBoneIDs`. -/
def slotID (mesh : Mesh) (vertexIndex vertexBoneIndex : Nat) : Nat :=
  match slotBoneID mesh vertexIndex vertexBoneIndex with
  | some d => d % 65536
  | none => 127

/-- What one round of the bone loop pushes to `vertexBoneWeights`. -/
def slotWeight (mesh : Mesh) (vertexIndex vertexBoneIndex : Nat) : Bytes 4 :=
  match slotBoneID mesh vertexIndex vertexBoneIndex with
  | some _ => mesh.vertexWeight vertexBoneIndex vertexIndex
  | none => zeroWeight

/-- The vector `vertexBoneIDs` after the loop `vertexBoneIndex < 4`. -/
def vertexBoneIDs (mesh : Mesh) (vertexIndex : Nat) : List Nat :=
  (List.range 4).map (slotID mesh vertexIndex)

/-- The vector `vertexBoneWeights` after the loop `vertexBoneIndex < 4`. -/
def vertexBoneWeights (mesh : Mesh) (vertexIndex : Nat) : List (Bytes 4) :=
  (List.range 4).map (slotWeight mesh vertexIndex)

/-- The bytes of a `std::vector<uint16_t>`. -/
def u16Bytes (l : List Nat) : List Nat := (l.map le16).flatten

/-- The bytes of a `std::vector<cd::VertexWeight>`. -/
def weightBytes (l : List (Bytes 4)) : List Nat := (l.map Subtype.val).flatten

/-- The body of the vertex loop of `Build` for one `vertexIndex`. -/
def fillVertex (mesh : Mesh) (fmt : VertexFormat) (vertexIndex : Nat) (c : Cursor) :
    Option Cursor :=
  (FillBufferIf (fmt.Contains .Position) c (mesh.vertexPosition vertexIndex).val).bind fun c =>
  (FillBufferIf (fmt.Contains .Normal) c (mesh.vertexNormal vertexIndex).val).bind fun c =>
  (FillBufferIf (fmt.Contains .Tangent) c (mesh.vertexTangent vertexIndex).val).bind fun c =>
  (FillBufferIf (fmt.Contains .Bitangent) c (mesh.vertexBiTangent vertexIndex).val).bind fun c =>
  (FillBufferIf (fmt.Contains .UV) c (mesh.vertexUV0 vertexIndex).val).bind fun c =>
  (FillBufferIf (fmt.Contains .Color) c (mesh.vertexColor0 vertexIndex).val).bind fun c =>
  if fmt.Contains .BoneIndex && fmt.Contains .BoneWeight then
    (FillBuffer c (u16Bytes (vertexBoneIDs mesh vertexIndex))).bind fun c =>
    FillBuffer c (weightBytes (vertexBoneWeights mesh vertexIndex))
  else some c

/-- The loop `for (vertexIndex = i; vertexIndex < i + n; ++vertexIndex)`. -/
def fillVertices (mesh : Mesh) (fmt : VertexFormat) : Nat → Nat → Cursor → Option Cursor
  | 0, _, c => some c
  | n + 1, i, c => (fillVertex mesh fmt i c).bind (fillVertices mesh fmt n (i + 1))

/-- The inner loop `for (auto vertexID : polygon)` of the 16-bit branch. -/
def fillPolygonU16 : List Nat → Cursor → Option Cursor
  | [], c => some c
  | vertexID :: rest, c => (FillBuffer c (le16 (vertexID % 65536))).bind (fillPolygonU16 rest)

/-- The bytes of the `uint32_t` storage behind `polygon.data()`. -/
def u32Bytes (l : List Nat) : List Nat := (l.map le32).flatten

/-- The body of the polygon loop of `Build`. -/
def fillPolygon (u16 : Bool) (polygon : List Nat) (c : Cursor) : Option Cursor :=
  if u16 then fillPolygonU16 polygon c else FillBuffer c (u32Bytes polygon)

/-- The loop `for (const auto& polygon : GetPolygons())`. -/
def fillPolygons (u16 : Bool) : List (List Nat) → Cursor → Option Cursor
  | [], c => some c
  | polygon :: rest, c => (fillPolygon u16 polygon c).bind (fillPolygons u16 rest)

/-! ## Wireframe derivation -/

/-- The loop of `readIndices`: elements `k .. k + n - 1`. -/
def readIndicesFrom (u16 : Bool) (buf : List Nat) : Nat → Nat → Option (List Nat)
  | 0, _ => some []
  | n + 1, k => (readIndex u16 buf k).bind fun v =>
      (readIndicesFrom u16 buf n (k + 1)).map (fun vs => v :: vs)

/-- The first `n` elements of a buffer viewed as `IndexType*`. -/
def readIndices (u16 : Bool) (buf : List Nat) (n : Nat) : Option (List Nat) :=
  readIndicesFrom u16 buf n 0

/-- Modelled from the spec: the line list of a triangle list, each triangle
`(a, b, c)` giving the edges `(a, b)`, `(b, c)`, `(c, a)`; trailing indices that do
not form a triangle give nothing. -/
def triListToLineList : List Nat → List Nat
  | a :: b :: c :: rest => a :: b :: b :: c :: c :: a :: triListToLineList rest
  | _ => []

/-- Modelled from the spec: `bgfx::topologyConvert(TriListToLineList, ...)` is code of
the rendering backend, outside `src/`. The result is the number of line indices
together with the destination after the call (`dst = none` is the `nullptr` call that
only counts). -/
def topologyConvert (dst : Option (List Nat)) (indices : List Nat) (numIndices : Nat)
    (index32 : Bool) : Option (Nat × Option (List Nat)) :=
  (readIndices (!index32) indices numIndices).bind fun tris =>
    let lines := triListToLineList tris
    match dst with
    | none => some (lines.length % U32, none)
    | some d =>
      (memcpyAt d 0 ((lines.map (encodeIndex (!index32))).flatten)).map
        (fun d => (lines.length % U32, some d))

/-- The method `StaticMeshComponent::BuildWireframeData`. -/
def BuildWireframeData (s : StaticMeshComponent) : Option StaticMeshComponent :=
  let indicesCount := (s.m_currentPolygonCount * 3) % U32
  let u16 := useU16Index s.m_currentVertexCount
  (topologyConvert none s.m_indexBuffer indicesCount (!u16)).bind fun r =>
    let wireframeIndicesCount := r.1
    let wireframe :=
      resize s.m_wireframeIndexBuffer ((wireframeIndicesCount * indexTypeSize u16) % U32)
    (topologyConvert (some wireframe) s.m_indexBuffer indicesCount (!u16)).bind fun r =>
      r.2.map fun w => { s with m_wireframeIndexBuffer := w }

/-- The method `StaticMeshComponent::Build`. `none` is a failed `CD_ASSERT` or a copy
outside a buffer; an incompatible format logs an error and returns. -/
def Build (s : StaticMeshComponent) : Option StaticMeshComponent :=
  match s.m_pMeshData, s.m_pRequiredVertexFormat with
  | some mesh, some fmt =>
    if !mesh.vertexFormat.IsCompatiableTo fmt then some s
    else
      let vertexCount := mesh.vertexCount
      let polygonCount := mesh.polygonCount
      let vertexFormatStride := fmt.GetStride
      let vb := resize s.m_vertexBuffer ((vertexCount * vertexFormatStride) % U32)
      (fillVertices mesh fmt vertexCount 0 { buf := vb, dataSize := 0 }).bind fun vc =>
        let u16 := useU16Index vertexCount
        let indicesCount := (polygonCount * 3) % U32
        let ib := resize s.m_indexBuffer ((indicesCount * indexTypeSize u16) % U32)
        (fillPolygons u16 mesh.polygons { buf := ib, dataSize := 0 }).bind fun ic =>
          BuildWireframeData
            { s with
              m_currentVertexCount := vertexCount
              m_currentPolygonCount := polygonCount
              m_vertexBuffer := vc.buf
              m_indexBuffer := ic.buf }
  | _, _ => none

/-! ## Packed layout, as the spec words it -/

/-- The bone data of one vertex: the four bone IDs followed by the four weights. -/
def boneData (mesh : Mesh) (vertexIndex : Nat) : List Nat :=
  u16Bytes (vertexBoneIDs mesh vertexIndex) ++ weightBytes (vertexBoneWeights mesh vertexIndex)

/-- The record of one vertex as the spec words it: the requested attributes in the
order position, normal, tangent, bitangent, UV, color, bone data, the latter only
when both bone attributes are requested. -/
def vertexRecord (mesh : Mesh) (fmt : VertexFormat) (vertexIndex : Nat) : List Nat :=
  List.flatten
    [ if fmt.Contains .Position then (mesh.vertexPosition vertexIndex).val else [],
      if fmt.Contains .Normal then (mesh.vertexNormal vertexIndex).val else [],
      if fmt.Contains .Tangent then (mesh.vertexTangent vertexIndex).val else [],
      if fmt.Contains .Bitangent then (mesh.vertexBiTangent vertexIndex).val else [],
      if fmt.Contains .UV then (mesh.vertexUV0 vertexIndex).val else [],
      if fmt.Contains .Color then (mesh.vertexColor0 vertexIndex).val else [],
      if fmt.Contains .BoneIndex && fmt.Contains .BoneWeight then boneData mesh vertexIndex
      else [] ]

/-- The number of bytes `Build` writes for one vertex. -/
def recordSize (fmt : VertexFormat) : Nat :=
  (if fmt.Contains .Position then 12 else 0) + (if fmt.Contains .Normal then 12 else 0)
    + (if fmt.Contains .Tangent then 12 else 0) + (if fmt.Contains .Bitangent then 12 else 0)
    + (if fmt.Contains .UV then 8 else 0) + (if fmt.Contains .Color then 16 else 0)
    + (if fmt.Contains .BoneIndex && fmt.Contains .BoneWeight then 24 else 0)

/-- The records of vertices `0 .. vertexCount - 1`, one after the other. -/
def packedVertices (mesh : Mesh) (fmt : VertexFormat) : List Nat :=
  ((List.range mesh.vertexCount).map (vertexRecord mesh fmt)).flatten

/-- The index elements of one polygon at the chosen width. -/
def polygonBytes (u16 : Bool) (polygon : List Nat) : List Nat :=
  (polygon.map (encodeIndex u16)).flatten

/-- The index elements of all polygons, in polygon order. -/
def packedIndices (u16 : Bool) (polygons : List (List Nat)) : List Nat :=
  (polygons.map (polygonBytes u16)).flatten

/-- The invariant of a fill cursor: the running size is inside the buffer, and the
buffer came from a `resize` with a `uint32_t` argument. -/
def Cursor.Ok (c : Cursor) : Prop := c.dataSize ≤ c.buf.length ∧ c.buf.length < U32

/-- The state `Build` hands to `BuildWireframeData`. -/
def builtState (s : StaticMeshComponent) (mesh : Mesh) (fmt : VertexFormat) :
    StaticMeshComponent :=
  { s with
    m_currentVertexCount := mesh.vertexCount
    m_currentPolygonCount := mesh.polygonCount
    m_vertexBuffer := packedVertices mesh fmt
      ++ (resize s.m_vertexBuffer ((mesh.vertexCount * fmt.GetStride) % U32)).drop
          (mesh.vertexCount * recordSize fmt)
    m_indexBuffer := packedIndices (useU16Index mesh.vertexCount) mesh.polygons }

/-! ## Worked inputs -/

/-- A component that holds a mesh and a required format and nothing else yet:
counts at `UINT32_MAX`, handles invalid, buffers empty. -/
def freshComponent (mesh : Mesh) (fmt : VertexFormat) : StaticMeshComponent where
  m_pMeshData := some mesh
  m_pRequiredVertexFormat := some fmt
  m_currentVertexCount := UINT32_MAX
  m_currentPolygonCount := UINT32_MAX
  m_vertexBuffer := []
  m_vertexBufferHandle := UINT16_MAX
  m_indexBuffer := []
  m_indexBufferHandle := UINT16_MAX
  m_wireframeIndexBuffer := []
  m_wireframeIndexBufferHandle := UINT16_MAX
  m_originVertexCount := UINT32_MAX
  m_originPolygonCount := UINT32_MAX
  m_progressiveMeshTargetVertexCount := UINT32_MAX
  m_progressiveMeshReductionPercent := 1
  m_progressiveMeshVertexBuffer := []
  m_progressiveMeshVertexBufferHandle := UINT16_MAX
  m_progressiveMeshIndexBuffer := []
  m_progressiveMeshIndexBufferHandle := UINT16_MAX
  m_permutation := []
  m_map := []

/-- A mesh whose attribute bytes spell out the vertex they belong to: every byte of
vertex `i` is `i` plus a tag per attribute. -/
def taggedMesh (fmt : VertexFormat) (vertexCount : Nat) (polygons : List (List Nat))
    (influenceCount : Nat) (boneID : Nat → Nat → Option Nat) : Mesh where
  vertexFormat := fmt
  vertexCount := vertexCount
  polygonCount := polygons.length
  polygons := polygons
  vertexInfluenceCount := influenceCount
  vertexPosition := fun i => ⟨List.replicate 12 (10 + i), List.length_replicate _ _⟩
  vertexNormal := fun i => ⟨List.replicate 12 (20 + i), List.length_replicate _ _⟩
  vertexTangent := fun i => ⟨List.replicate 12 (30 + i), List.length_replicate _ _⟩
  vertexBiTangent := fun i => ⟨List.replicate 12 (40 + i), List.length_replicate _ _⟩
  vertexUV0 := fun i => ⟨List.replicate 8 (50 + i), List.length_replicate _ _⟩
  vertexColor0 := fun i => ⟨List.replicate 16 (60 + i), List.length_replicate _ _⟩
  vertexBoneID := boneID
  vertexWeight := fun k i => ⟨List.replicate 4 (70 + 4 * i + k), List.length_replicate _ _⟩

/-- The format `{position, normal}`. -/
def formatPN : VertexFormat :=
  { position := true, normal := true, tangent := false, bitangent := false, uv := false,
    color := false, boneIndex := false, boneWeight := false }

/-- The format `{position}`. -/
def formatP : VertexFormat :=
  { position := true, normal := false, tangent := false, bitangent := false, uv := false,
    color := false, boneIndex := false, boneWeight := false }

/-- The format `{bone-index}`: one bone attribute without the other. -/
def formatBoneIndexOnly : VertexFormat :=
  { position := false, normal := false, tangent := false, bitangent := false, uv := false,
    color := false, boneIndex := true, boneWeight := false }

/-- The format `{bone-index, bone-weight}`. -/
def formatBones : VertexFormat :=
  { position := false, normal := false, tangent := false, bitangent := false, uv := false,
    color := false, boneIndex := true, boneWeight := true }

/-- One triangle on three vertices. -/
def triangleMesh : Mesh := taggedMesh formatPN 3 [[0, 1, 2]] 0 (fun _ _ => none)

/-- One triangle on 65536 vertices. -/
def mesh65536 : Mesh := taggedMesh formatP 65536 [[0, 1, 65535]] 0 (fun _ _ => none)

/-- One vertex, no polygon. -/
def pointMesh (fmt : VertexFormat) : Mesh := taggedMesh fmt 1 [] 0 (fun _ _ => none)

/-- One vertex with two influences: bone 65537 and bone 3. -/
def wideBoneMesh : Mesh :=
  taggedMesh formatBones 1 [] 2 (fun k _ => if k = 0 then some 65537 else some 3)

/-- The component after `Build` on `freshComponent triangleMesh formatPN`. -/
def triangleBuilt : StaticMeshComponent :=
  { freshComponent triangleMesh formatPN with
    m_currentVertexCount := 3
    m_currentPolygonCount := 1
    m_vertexBuffer := packedVertices triangleMesh formatPN
    m_indexBuffer := [0, 0, 1, 0, 2, 0]
    m_wireframeIndexBuffer := [0, 0, 1, 0, 1, 0, 2, 0, 2, 0, 0, 0] }

/-- The component `triangleBuilt` after the required format was changed to one the
mesh does not satisfy. -/
def triangleRetargeted : StaticMeshComponent :=
  { triangleBuilt with m_pRequiredVertexFormat := some formatBones }

/-- The running size `vbDataSize` when the vertex loop of `Build` has ended. -/
def writtenVertexBytes (s : StaticMeshComponent) (mesh : Mesh) (fmt : VertexFormat) :
    Option Nat :=
  (fillVertices mesh fmt mesh.vertexCount 0
    { buf := resize s.m_vertexBuffer ((mesh.vertexCount * fmt.GetStride) % U32),
      dataSize := 0 }).map Cursor.dataSize

/-! ## BuildProgressiveMeshData: the LOD buffer rebuilder -/

/-- Modelled from the spec: `IsProgressiveMeshValid` is declared in
`StaticMeshComponent.h`, outside `src/`; the spec calls it a validity predicate on the
stored handles. Here: both progressive-mesh handles are valid. -/
def IsProgressiveMeshValid (s : StaticMeshComponent) : Bool :=
  s.m_progressiveMeshVertexBufferHandle != UINT16_MAX
    && s.m_progressiveMeshIndexBufferHandle != UINT16_MAX

/-- What the collaborators called by `BuildProgressiveMeshData` return: the pair of
`BuildCollapseOperations` and the handles created by the rendering backend. -/
structure CollapseBackend where
  permutation : List Nat
  map : List Nat
  vertexBufferHandle : Nat
  indexBufferHandle : Nat

/-- The functions `SubmitVertexBuffer` / `SubmitIndexBuffer`, given the handle the
backend creates: `assert(bgfx::isValid(handle))`, then the handle's `idx`. -/
def SubmitBuffer (createdHandle : Nat) : Option Nat :=
  if createdHandle = UINT16_MAX then none else some createdHandle

/-- Reading `n` bytes at `buf + off`; `none` when the range leaves the buffer. -/
def readBytes (buf : List Nat) (off n : Nat) : Option (List Nat) :=
  if off + n ≤ buf.length then some ((buf.drop off).take n) else none

/-- The loop `for (vertexIndex = i; vertexIndex < i + n; ++vertexIndex)` that copies
each record of `src` to the slot `m_permutation[vertexIndex]` of `dst`. -/
def scatterVertices (permutation : List Nat) (vertexStride currentVertexCount : Nat)
    (src : List Nat) : Nat → Nat → List Nat → Option (List Nat)
  | 0, _, dst => some dst
  | n + 1, vertexIndex, dst =>
    match permutation[vertexIndex]? with
    | none => none
    | some newVertexIndex =>
      if newVertexIndex < currentVertexCount then
        (readBytes src ((vertexIndex * vertexStride) % U32) vertexStride).bind fun record =>
          (memcpyAt dst ((newVertexIndex * vertexStride) % U32) record).bind
            (scatterVertices permutation vertexStride currentVertexCount src n (vertexIndex + 1))
      else none

/-- The block "Create a vertex buffer sorted by collapse order": the resize of the
progressive-mesh vertex buffer and the scatter loop. -/
def reorderVertexBuffer (permutation : List Nat) (vertexStride currentVertexCount : Nat)
    (vertexBuffer progressiveMeshVertexBuffer : List Nat) : Option (List Nat) :=
  scatterVertices permutation vertexStride currentVertexCount vertexBuffer
    currentVertexCount 0 (resize progressiveMeshVertexBuffer vertexBuffer.length)

/-- The loop of the lambda `BuildIndexBuffer<IndexType>`, from `indexIndex` on. -/
def rewriteIndices (u16 : Bool) (permutation : List Nat) (currentVertexCount : Nat)
    (src : List Nat) : Nat → Nat → List Nat → Option (List Nat)
  | 0, _, dst => some dst
  | n + 1, indexIndex, dst =>
    (readIndex u16 src indexIndex).bind fun index =>
      match permutation[index]? with
      | none => none
      | some newIndex =>
        if newIndex < currentVertexCount then
          (memcpyAt dst (indexIndex * indexTypeSize u16) (encodeIndex u16 newIndex)).bind
            (rewriteIndices u16 permutation currentVertexCount src n (indexIndex + 1))
        else none

/-- The lambda `BuildIndexBuffer<IndexType>`. -/
def BuildIndexBuffer (u16 : Bool) (s : StaticMeshComponent) : Option (List Nat) :=
  rewriteIndices u16 s.m_permutation s.m_currentVertexCount s.m_indexBuffer
    ((s.m_currentPolygonCount * 3) % U32) 0
    (resize s.m_progressiveMeshIndexBuffer s.m_indexBuffer.length)

/-- The method `StaticMeshComponent::BuildProgressiveMeshData`; `none` is a failed
assertion or an access outside a buffer. -/
def BuildProgressiveMeshData (backend : CollapseBackend) (s : StaticMeshComponent) :
    Option StaticMeshComponent :=
  if IsProgressiveMeshValid s then some s
  else
    match s.m_pMeshData, s.m_pRequiredVertexFormat with
    | some _, some fmt =>
      let s1 : StaticMeshComponent :=
        { s with
          m_permutation := backend.permutation
          m_map := backend.map
          m_originVertexCount := s.m_currentVertexCount
          m_progressiveMeshTargetVertexCount := s.m_currentVertexCount
          m_originPolygonCount := s.m_currentPolygonCount }
      if s1.m_vertexBuffer.isEmpty then none
      else
        let vertexStride := fmt.GetStride
        if (vertexStride * s1.m_currentVertexCount) % U32 ≠ s1.m_vertexBuffer.length then none
        else
          (reorderVertexBuffer s1.m_permutation vertexStride s1.m_currentVertexCount
            s1.m_vertexBuffer s1.m_progressiveMeshVertexBuffer).bind fun pvb =>
          (BuildIndexBuffer (useU16Index s1.m_originVertexCount) s1).bind fun pib =>
          (SubmitBuffer backend.vertexBufferHandle).bind fun vh =>
          (SubmitBuffer backend.indexBufferHandle).bind fun ih =>
            some { s1 with
              m_progressiveMeshVertexBuffer := pvb
              m_progressiveMeshIndexBuffer := pib
              m_progressiveMeshVertexBufferHandle := vh
              m_progressiveMeshIndexBufferHandle := ih }
    | _, _ => none

/-- A bijection on `[0, n)`, as a list: `n` entries below `n`, no entry twice. -/
def IsPermutation (permutation : List Nat) (n : Nat) : Prop :=
  permutation.length = n ∧ (∀ v ∈ permutation, v < n) ∧ permutation.Nodup

/-- The list `inverse` undoes `permutation` on `[0, n)`. -/
def IsInverseOf (inverse permutation : List Nat) (n : Nat) : Prop :=
  inverse.length = n ∧
    ∀ i, i < n → ∃ p, permutation[i]? = some p ∧ inverse[p]? = some i

/-- The collapse operations and handles used in the worked inputs: vertex 0 goes to
rank 2, vertex 1 to rank 0, vertex 2 to rank 1. -/
def triangleBackend : CollapseBackend :=
  { permutation := [2, 0, 1], map := [0, 0, 1], vertexBufferHandle := 5,
    indexBufferHandle := 6 }

/-- The component after `BuildProgressiveMeshData triangleBackend` on `triangleBuilt`. -/
def triangleProgressive : StaticMeshComponent :=
  { triangleBuilt with
    m_permutation := [2, 0, 1]
    m_map := [0, 0, 1]
    m_originVertexCount := 3
    m_progressiveMeshTargetVertexCount := 3
    m_originPolygonCount := 1
    m_progressiveMeshVertexBuffer :=
      vertexRecord triangleMesh formatPN 1 ++ vertexRecord triangleMesh formatPN 2
        ++ vertexRecord triangleMesh formatPN 0
    m_progressiveMeshIndexBuffer := [2, 0, 0, 0, 1, 0]
    m_progressiveMeshVertexBufferHandle := 5
    m_progressiveMeshIndexBufferHandle := 6 }

/-! ## UpdateProgressiveMeshData: the incremental refinement engine -/

/-- The conversion to `IndexType` when a `uint32_t` is assigned to an index variable. -/
def toIndexType (u16 : Bool) (v : Nat) : Nat := if u16 then v % 65536 else v % U32

/-- The loop `while (index > m_currentVertexCount) index = m_map[index];`. The loop has
no bound of its own: `fuel` is the number of rounds the model may run, and `none` is
either a lookup outside `m_map` or fuel spent with the index still above the count. -/
def collapseIndex (u16 : Bool) (map : List Nat) (vertexCount : Nat) : Nat → Nat → Option Nat
  | 0, index => if index > vertexCount then none else some index
  | fuel + 1, index =>
    if index > vertexCount then
      (map[index]?).bind fun m => collapseIndex u16 map vertexCount fuel (toIndexType u16 m)
    else some index

/-- The loop `for (ii = 0; ii < 3; ++ii)` of one polygon: the array `polygon[3]`. -/
def collapsePolygon (u16 : Bool) (map : List Nat) (vertexCount fuel : Nat) (buf : List Nat)
    (startIndex : Nat) : Option (Nat × Nat × Nat) :=
  (readIndex u16 buf ((startIndex + 0) % U32)).bind fun i0 =>
  (collapseIndex u16 map vertexCount fuel i0).bind fun p0 =>
  (readIndex u16 buf ((startIndex + 1) % U32)).bind fun i1 =>
  (collapseIndex u16 map vertexCount fuel i1).bind fun p1 =>
  (readIndex u16 buf ((startIndex + 2) % U32)).bind fun i2 =>
  (collapseIndex u16 map vertexCount fuel i2).bind fun p2 =>
  some (p0, p1, p2)

/-- The test `isPolygonValid`: the three indices are pairwise distinct. -/
def isPolygonValid (polygon : Nat × Nat × Nat) : Bool :=
  polygon.1 != polygon.2.1 && polygon.1 != polygon.2.2 && polygon.2.1 != polygon.2.2

/-- The object representation of the array `polygon[3]`. -/
def polygonArrayBytes (u16 : Bool) (polygon : Nat × Nat × Nat) : List Nat :=
  encodeIndex u16 polygon.1 ++ encodeIndex u16 polygon.2.1 ++ encodeIndex u16 polygon.2.2

/-- One round of the polygon loop of the lambda `UpdateIndexBuffer<IndexType>`, on the
pair of the index buffer and `validPolygonCount`. -/
def updatePolygon (u16 : Bool) (map : List Nat) (vertexCount fuel : Nat) (polygonIndex : Nat)
    (st : List Nat × Nat) : Option (List Nat × Nat) :=
  let startIndex := (polygonIndex * 3) % U32
  (collapsePolygon u16 map vertexCount fuel st.1 startIndex).bind fun polygon =>
    if isPolygonValid polygon then
      (memcpyAt st.1 (startIndex * indexTypeSize u16) (polygonArrayBytes u16 polygon)).map
        fun buf => (buf, (st.2 + 1) % U32)
    else some st

/-- The loop `for (polygonIndex = i; polygonIndex < i + n; ++polygonIndex)`. -/
def updatePolygons (u16 : Bool) (map : List Nat) (vertexCount fuel : Nat) :
    Nat → Nat → List Nat × Nat → Option (List Nat × Nat)
  | 0, _, st => some st
  | n + 1, polygonIndex, st =>
    (updatePolygon u16 map vertexCount fuel polygonIndex st).bind
      (updatePolygons u16 map vertexCount fuel n (polygonIndex + 1))

/-- The lambda `UpdateIndexBuffer<IndexType>`: the index buffer after the loop and the
returned `validPolygonCount`. -/
def UpdateIndexBuffer (fuel : Nat) (u16 : Bool) (s : StaticMeshComponent) :
    Option (List Nat × Nat) :=
  updatePolygons u16 s.m_map s.m_currentVertexCount fuel s.m_originPolygonCount 0
    (s.m_progressiveMeshIndexBuffer, 0)

/-- The method `StaticMeshComponent::UpdateProgressiveMeshData(uint32_t vertexCount)`,
one refinement pass. The closing `bgfx::update` hands the buffer to the backend and
changes no member. -/
def UpdateProgressiveMeshData (fuel : Nat) (vertexCount : Nat) (s : StaticMeshComponent) :
    Option StaticMeshComponent :=
  let s1 : StaticMeshComponent := { s with m_currentVertexCount := vertexCount }
  (UpdateIndexBuffer fuel (useU16Index s1.m_originVertexCount) s1).map fun r =>
    { s1 with m_progressiveMeshIndexBuffer := r.1, m_currentPolygonCount := r.2 }

/-! ## Accessors, Submit and Reset -/

/-- The method `StaticMeshComponent::GetStartIndex`. -/
def GetStartIndex (_ : StaticMeshComponent) : Nat := 0

/-- The method `StaticMeshComponent::GetVertexCount`. -/
def GetVertexCount (s : StaticMeshComponent) : Nat := s.m_currentVertexCount

/-- The method `StaticMeshComponent::GetPolygonCount`. -/
def GetPolygonCount (s : StaticMeshComponent) : Nat := s.m_currentPolygonCount

/-- The method `StaticMeshComponent::GetIndexCount`. -/
def GetIndexCount (s : StaticMeshComponent) : Nat :=
  if IsProgressiveMeshValid s then (GetPolygonCount s * 3) % U32 else UINT32_MAX

/-- The handles the rendering backend creates during `Submit`. -/
structure SubmitBackend where
  vertexBufferHandle : Nat
  indexBufferHandle : Nat
  wireframeIndexBufferHandle : Nat

/-- The `useU16Index` that `Submit` passes to both `SubmitIndexBuffer` calls. -/
def submitUseU16Index (s : StaticMeshComponent) : Bool :=
  useU16Index s.m_currentVertexCount

/-- The method `StaticMeshComponent::Submit`: the new state and the index width flag
handed to the backend. -/
def Submit (b : SubmitBackend) (s : StaticMeshComponent) :
    Option (StaticMeshComponent × Bool) :=
  match s.m_pRequiredVertexFormat with
  | none => none
  | some _ =>
    (SubmitBuffer b.vertexBufferHandle).bind fun vh =>
    (SubmitBuffer b.indexBufferHandle).bind fun ih =>
    (SubmitBuffer b.wireframeIndexBufferHandle).bind fun wh =>
      some ({ s with
              m_vertexBufferHandle := vh
              m_indexBufferHandle := ih
              m_wireframeIndexBufferHandle := wh }, submitUseU16Index s)

/-- The method `StaticMeshComponent::Reset`. -/
def Reset (s : StaticMeshComponent) : StaticMeshComponent :=
  { s with
    m_pMeshData := none
    m_pRequiredVertexFormat := none
    m_currentVertexCount := UINT32_MAX
    m_currentPolygonCount := UINT32_MAX
    m_vertexBuffer := []
    m_vertexBufferHandle := UINT16_MAX
    m_indexBuffer := []
    m_indexBufferHandle := UINT16_MAX
    m_wireframeIndexBuffer := []
    m_wireframeIndexBufferHandle := UINT16_MAX
    m_originVertexCount := UINT32_MAX
    m_originPolygonCount := UINT32_MAX
    m_progressiveMeshReductionPercent := 1
    m_progressiveMeshVertexBuffer := []
    m_progressiveMeshVertexBufferHandle := UINT16_MAX
    m_progressiveMeshIndexBuffer := []
    m_progressiveMeshIndexBufferHandle := UINT16_MAX }

/-! ## Refinement, as the spec words it -/

/-- The chain `i, map[i], map[map[i]], ...`: its element number `k`, `none` once a
lookup leaves the map. -/
def mapChain (map : List Nat) : Nat → Nat → Option Nat
  | 0, i => some i
  | k + 1, i => (map[i]?).bind (mapChain map k)

/-- The three indices of triangle `j` of a buffer viewed as `IndexType*`. -/
def readPolygon (u16 : Bool) (buf : List Nat) (j : Nat) : Option (Nat × Nat × Nat) :=
  (readIndex u16 buf (3 * j)).bind fun a =>
  (readIndex u16 buf (3 * j + 1)).bind fun b =>
  (readIndex u16 buf (3 * j + 2)).bind fun c => some (a, b, c)

/-- The collapsed indices of triangle `j` of a buffer for a target vertex count. -/
def collapsedPolygon (u16 : Bool) (map : List Nat) (vertexCount fuel : Nat) (buf : List Nat)
    (j : Nat) : Option (Nat × Nat × Nat) :=
  collapsePolygon u16 map vertexCount fuel buf (3 * j)

/-- Triangle `j` of a buffer is valid for a target vertex count: its collapsed indices
exist and are pairwise distinct. -/
def validAt (u16 : Bool) (map : List Nat) (vertexCount fuel : Nat) (buf : List Nat)
    (j : Nat) : Bool :=
  match collapsedPolygon u16 map vertexCount fuel buf j with
  | some polygon => isPolygonValid polygon
  | none => false

/-- A component on which refinement passes are defined, for `fuel` rounds of the collapse
loop: the progressive-LOD index buffer holds `3 x originPolygonCount` indices below
`originVertexCount`, the collapse map has `originVertexCount` entries below
`originVertexCount`, and the chain of every index reaches 0 within `fuel` steps. -/
structure Refinable (fuel : Nat) (s : StaticMeshComponent) : Prop where
  polygons_lt : s.m_originPolygonCount * 3 < U32
  vertices_lt : s.m_originVertexCount < U32
  buffer_holds : s.m_originPolygonCount * 3 * indexTypeSize (useU16Index s.m_originVertexCount)
    ≤ s.m_progressiveMeshIndexBuffer.length
  indices_lt : ∀ k v : Nat, k < s.m_originPolygonCount * 3 →
    readIndex (useU16Index s.m_originVertexCount) s.m_progressiveMeshIndexBuffer k = some v →
    v < s.m_originVertexCount
  map_length : s.m_map.length = s.m_originVertexCount
  map_lt : ∀ m ∈ s.m_map, m < s.m_originVertexCount
  reaches_zero : ∀ i : Nat, i < s.m_originVertexCount →
    ∃ k, k ≤ fuel ∧ mapChain s.m_map k i = some 0

/-- The entries of the map are `IndexType` values. -/
def MapFits (u16 : Bool) (map : List Nat) : Prop := ∀ m ∈ map, toIndexType u16 m = m

/-- Five vertices, three triangles. -/
def fanMesh : Mesh := taggedMesh formatP 5 [[0, 1, 3], [0, 1, 2], [1, 2, 4]] 0 (fun _ _ => none)

/-- Collapse operations for `fanMesh`: the vertices keep their order; vertex 4 collapses
into 3, 3 and 2 into 1, 1 into 0. -/
def fanBackend : CollapseBackend :=
  { permutation := [0, 1, 2, 3, 4], map := [0, 0, 1, 1, 3], vertexBufferHandle := 5,
    indexBufferHandle := 6 }

/-- The component after `Build` on `freshComponent fanMesh formatP`. -/
def fanBuilt : StaticMeshComponent :=
  { freshComponent fanMesh formatP with
    m_currentVertexCount := 5
    m_currentPolygonCount := 3
    m_vertexBuffer := packedVertices fanMesh formatP
    m_indexBuffer := [0, 0, 1, 0, 3, 0, 0, 0, 1, 0, 2, 0, 1, 0, 2, 0, 4, 0]
    m_wireframeIndexBuffer :=
      [0, 0, 1, 0, 1, 0, 3, 0, 3, 0, 0, 0, 0, 0, 1, 0, 1, 0, 2, 0, 2, 0, 0, 0,
       1, 0, 2, 0, 2, 0, 4, 0, 4, 0, 1, 0] }

/-- The component after `BuildProgressiveMeshData fanBackend` on `fanBuilt`. -/
def fanProgressive : StaticMeshComponent :=
  { fanBuilt with
    m_permutation := [0, 1, 2, 3, 4]
    m_map := [0, 0, 1, 1, 3]
    m_originVertexCount := 5
    m_progressiveMeshTargetVertexCount := 5
    m_originPolygonCount := 3
    m_progressiveMeshVertexBuffer := packedVertices fanMesh formatP
    m_progressiveMeshIndexBuffer := [0, 0, 1, 0, 3, 0, 0, 0, 1, 0, 2, 0, 1, 0, 2, 0, 4, 0]
    m_progressiveMeshVertexBufferHandle := 5
    m_progressiveMeshIndexBufferHandle := 6 }

/-- The component `fanProgressive` after a pass with target 3: triangle 2 is rewritten
from `(1, 2, 4)` to `(1, 2, 3)`. -/
def fanAtThree : StaticMeshComponent :=
  { fanProgressive with
    m_currentVertexCount := 3
    m_currentPolygonCount := 3
    m_progressiveMeshIndexBuffer := [0, 0, 1, 0, 3, 0, 0, 0, 1, 0, 2, 0, 1, 0, 2, 0, 3, 0] }

/-- The component `fanProgressive` after a pass with target 2: only triangle 1 is valid,
and the buffer is as before. -/
def fanAtTwo : StaticMeshComponent :=
  { fanProgressive with
    m_currentVertexCount := 2
    m_currentPolygonCount := 1 }

/-- Successive calls of `UpdateProgressiveMeshData(vertexCount)`, one for each target of
the list, each on the state the call before it left. -/
def refinePasses (fuel : Nat) : List Nat → StaticMeshComponent → Option StaticMeshComponent
  | [], s => some s
  | vertexCount :: rest, s =>
    (UpdateProgressiveMeshData fuel vertexCount s).bind (refinePasses fuel rest)

/-- The component `c` is `s` after some refinement passes: same collapse map and origin
counts, and each triangle of its progressive index buffer is either the triangle `s`
holds there or the collapsed form that triangle has for some target at which it is
valid. -/
structure RefinedFrom (fuel : Nat) (s c : StaticMeshComponent) : Prop where
  map_eq : c.m_map = s.m_map
  vertices_eq : c.m_originVertexCount = s.m_originVertexCount
  polygons_eq : c.m_originPolygonCount = s.m_originPolygonCount
  length_eq : c.m_progressiveMeshIndexBuffer.length = s.m_progressiveMeshIndexBuffer.length
  triangles : ∀ j : Nat, j < s.m_originPolygonCount →
    slot c.m_progressiveMeshIndexBuffer j
        (3 * indexTypeSize (useU16Index s.m_originVertexCount))
      = slot s.m_progressiveMeshIndexBuffer j
        (3 * indexTypeSize (useU16Index s.m_originVertexCount)) ∨
    ∃ T p, collapsedPolygon (useU16Index s.m_originVertexCount) s.m_map T fuel
        s.m_progressiveMeshIndexBuffer j = some p ∧ isPolygonValid p = true ∧
      slot c.m_progressiveMeshIndexBuffer j
          (3 * indexTypeSize (useU16Index s.m_originVertexCount))
        = polygonArrayBytes (useU16Index s.m_originVertexCount) p

/-- A mesh of 65537 vertices, one more than 16-bit indices are chosen for, with one
triangle. -/
def wideMesh : Mesh := taggedMesh formatP 65537 [[0, 1, 2]] 0 (fun _ _ => none)

/-- Collapse operations for `wideMesh`: the identity permutation and a map that sends
every vertex to vertex 0. -/
def wideBackend : CollapseBackend :=
  { permutation := List.range 65537, map := List.replicate 65537 0, vertexBufferHandle := 5,
    indexBufferHandle := 6 }

/-- Handles created by the backend in the worked `Submit` calls. -/
def workedSubmitBackend : SubmitBackend :=
  { vertexBufferHandle := 1, indexBufferHandle := 2, wireframeIndexBufferHandle := 3 }

/-- The method `StaticMeshComponent::UpdateProgressiveMeshData()` without argument.
`percentVertexCount` stands for the value of
`static_cast<uint32_t>(m_progressiveMeshReductionPercent * m_originVertexCount)`, a
floating-point product that is supplied from outside; `none` is the failed assertion on
the percent, or a pass that does not complete. -/
def UpdateProgressiveMeshDataPercent (fuel : Nat) (percentVertexCount : Nat)
    (s : StaticMeshComponent) : Option StaticMeshComponent :=
  if 0 ≤ s.m_progressiveMeshReductionPercent ∧ s.m_progressiveMeshReductionPercent ≤ 1 then
    let finalVertexCount := min s.m_progressiveMeshTargetVertexCount percentVertexCount
    if finalVertexCount ≠ s.m_currentVertexCount then
      UpdateProgressiveMeshData fuel finalVertexCount s
    else some s
  else none

/-! ## The float product of the percent-driven entry point -/

/-- The nearest integer to `y`, a tie going to the even neighbour. -/
def roundHalfEven (y : ℚ) : Int :=
  let f := ⌊y⌋
  let r := y - f
  if r < 1 / 2 then f else if 1 / 2 < r then f + 1 else if f % 2 = 0 then f else f + 1

/-- The exponent of the spacing of `float` values around a positive `x`: 24 significant
bits, and never below the spacing `2 ^ (-149)` of the subnormal values. -/
def float32Ulp (x : ℚ) : Int := max (Int.log 2 x - 23) (-149)

/-- The `float` nearest to a nonnegative `x` below the overflow threshold: IEEE-754
binary32, round to nearest, ties to even. This is the value of a `float` operation whose
exact result is `x`, and of the conversion of an integer `x` to `float`. -/
def float32Round (x : ℚ) : ℚ :=
  (roundHalfEven (x / (2 : ℚ) ^ float32Ulp x) : ℚ) * (2 : ℚ) ^ float32Ulp x

/-- The value `x` is a `float`: rounding leaves it as it is. -/
def IsFloat32 (x : ℚ) : Prop := float32Round x = x

/-- The local `percentVertexCount` of `UpdateProgressiveMeshData()`:
`static_cast<uint32_t>(m_progressiveMeshReductionPercent * m_originVertexCount)`. The
count is converted to `float`, the product is a `float` product, and the cast drops the
fraction; `none` is a product that no `uint32_t` holds. -/
def percentVertexCount (s : StaticMeshComponent) : Option Nat :=
  let product :=
    float32Round (s.m_progressiveMeshReductionPercent
      * float32Round (s.m_originVertexCount : ℚ))
  if product < (U32 : ℚ) then some ⌊product⌋₊ else none

/-- The local `finalVertexCount` of `UpdateProgressiveMeshData()`:
`std::min(m_progressiveMeshTargetVertexCount, percentVertexCount)`. -/
def finalVertexCount (s : StaticMeshComponent) : Option Nat :=
  (percentVertexCount s).map (min s.m_progressiveMeshTargetVertexCount)

/-- The method `StaticMeshComponent::UpdateProgressiveMeshData()` with its float
product: `UpdateProgressiveMeshDataPercent` at the computed `percentVertexCount`. -/
def UpdateProgressiveMeshDataFloat (fuel : Nat) (s : StaticMeshComponent) :
    Option StaticMeshComponent :=
  (percentVertexCount s).bind fun percentVertexCount =>
    UpdateProgressiveMeshDataPercent fuel percentVertexCount s

/-- Ten vertices, one triangle. -/
def tenMesh : Mesh := taggedMesh formatP 10 [[0, 1, 2]] 0 (fun _ _ => none)

/-- Collapse operations for `tenMesh`: the vertices keep their order and every vertex
collapses into the one before it. -/
def tenBackend : CollapseBackend :=
  { permutation := [0, 1, 2, 3, 4, 5, 6, 7, 8, 9], map := [0, 0, 1, 2, 3, 4, 5, 6, 7, 8],
    vertexBufferHandle := 5, indexBufferHandle := 6 }

/-- The component after `Build` on `freshComponent tenMesh formatP`. -/
def tenBuilt : StaticMeshComponent :=
  { freshComponent tenMesh formatP with
    m_currentVertexCount := 10
    m_currentPolygonCount := 1
    m_vertexBuffer := packedVertices tenMesh formatP
    m_indexBuffer := [0, 0, 1, 0, 2, 0]
    m_wireframeIndexBuffer := [0, 0, 1, 0, 1, 0, 2, 0, 2, 0, 0, 0] }

/-- The component after `BuildProgressiveMeshData tenBackend` on `tenBuilt`. -/
def tenProgressive : StaticMeshComponent :=
  { tenBuilt with
    m_permutation := [0, 1, 2, 3, 4, 5, 6, 7, 8, 9]
    m_map := [0, 0, 1, 2, 3, 4, 5, 6, 7, 8]
    m_originVertexCount := 10
    m_progressiveMeshTargetVertexCount := 10
    m_originPolygonCount := 1
    m_progressiveMeshVertexBuffer := packedVertices tenMesh formatP
    m_progressiveMeshIndexBuffer := [0, 0, 1, 0, 2, 0]
    m_progressiveMeshVertexBufferHandle := 5
    m_progressiveMeshIndexBufferHandle := 6 }

/-- The component `tenProgressive` with its reduction percent set to the `float` nearest
to 0.7, which is `11744051 / 2 ^ 24`. -/
def tenSeventyPercent : StaticMeshComponent :=
  { tenProgressive with m_progressiveMeshReductionPercent := 11744051 / 16777216 }

/-- A component whose LOD state holds the given origin vertex count, target vertex count
and reduction percent. -/
def lodState (originVertexCount targetVertexCount : Nat) (percent : ℚ) :
    StaticMeshComponent :=
  { freshComponent triangleMesh formatPN with
    m_originVertexCount := originVertexCount
    m_progressiveMeshTargetVertexCount := targetVertexCount
    m_progressiveMeshReductionPercent := percent }

/-! # Theorems -/

/-! ## Lemmas: buffer primitives -/

theorem U32_eq : U32 = 4294967296 := rfl

@[simp] theorem Bytes.length_val {n : Nat} (b : Bytes n) : b.val.length = n := b.property

@[simp] theorem length_resize (buf : List Nat) (n : Nat) : (resize buf n).length = n := by
  simp only [resize, List.length_append, List.length_take, List.length_replicate]
  omega

theorem memcpyAt_eq_some {buf : List Nat} {off : Nat} {data out : List Nat} :
    memcpyAt buf off data = some out ↔
      off + data.length ≤ buf.length ∧
        out = buf.take off ++ data ++ buf.drop (off + data.length) := by
  unfold memcpyAt
  split
  · simp [*, eq_comm]
  · simp [*]

theorem length_memcpyAt {buf : List Nat} {off : Nat} {data out : List Nat}
    (h : memcpyAt buf off data = some out) : out.length = buf.length := by
  obtain ⟨hle, rfl⟩ := memcpyAt_eq_some.1 h
  simp only [List.length_append, List.length_take, List.length_drop]
  omega

theorem FillBuffer_eq_some {c c' : Cursor} {data : List Nat} (hc : c.Ok) :
    FillBuffer c data = some c' ↔
      c.dataSize + data.length ≤ c.buf.length ∧
        c'.buf = c.buf.take c.dataSize ++ data ++ c.buf.drop (c.dataSize + data.length) ∧
        c'.dataSize = c.dataSize + data.length := by
  obtain ⟨_, h2⟩ := hc
  unfold FillBuffer memcpyAt
  split
  · rename_i hle
    have hmod : (c.dataSize + data.length) % U32 = c.dataSize + data.length :=
      Nat.mod_eq_of_lt (by omega)
    simp only [Option.map_some', Option.some.injEq, hmod, hle, true_and]
    constructor
    · rintro rfl; exact ⟨rfl, rfl⟩
    · rintro ⟨h1, h2⟩
      cases c'
      simp_all
  · simp [*]

theorem FillBuffer_ok {c c' : Cursor} {data : List Nat} (hc : c.Ok)
    (h : FillBuffer c data = some c') : c'.Ok ∧ c'.buf.length = c.buf.length := by
  obtain ⟨hle, hb, hs⟩ := (FillBuffer_eq_some hc).1 h
  have hlen : c'.buf.length = c.buf.length := by
    rw [hb]
    simp only [List.length_append, List.length_take, List.length_drop]
    omega
  exact ⟨⟨by omega, by rw [hlen]; exact hc.2⟩, hlen⟩

theorem FillBuffer_nil {c : Cursor} (hc : c.Ok) : FillBuffer c [] = some c := by
  rw [FillBuffer_eq_some hc]
  simp [hc.1]

theorem FillBuffer_append {c : Cursor} (hc : c.Ok) (a b : List Nat) :
    (FillBuffer c a).bind (fun c1 => FillBuffer c1 b) = FillBuffer c (a ++ b) := by
  cases h1 : FillBuffer c a with
  | none =>
    simp only [Option.none_bind]
    cases h2 : FillBuffer c (a ++ b) with
    | none => rfl
    | some c2 =>
      exfalso
      obtain ⟨hle, -, -⟩ := (FillBuffer_eq_some hc).1 h2
      have : ¬ (c.dataSize + a.length ≤ c.buf.length) := by
        intro hle1
        have : FillBuffer c a
            = some ⟨c.buf.take c.dataSize ++ a ++ c.buf.drop (c.dataSize + a.length),
              c.dataSize + a.length⟩ := (FillBuffer_eq_some hc).2 ⟨hle1, rfl, rfl⟩
        rw [h1] at this
        cases this
      simp only [List.length_append] at hle
      omega
  | some c1 =>
    simp only [Option.some_bind]
    obtain ⟨hle1, hb1, hs1⟩ := (FillBuffer_eq_some hc).1 h1
    obtain ⟨hc1, hlen1⟩ := FillBuffer_ok hc h1
    cases h2 : FillBuffer c1 b with
    | none =>
      cases h3 : FillBuffer c (a ++ b) with
      | none => rfl
      | some c3 =>
        exfalso
        obtain ⟨hle3, -, -⟩ := (FillBuffer_eq_some hc).1 h3
        have : ¬ (c1.dataSize + b.length ≤ c1.buf.length) := by
          intro hle2
          have : FillBuffer c1 b
              = some ⟨c1.buf.take c1.dataSize ++ b
                  ++ c1.buf.drop (c1.dataSize + b.length), c1.dataSize + b.length⟩ :=
            (FillBuffer_eq_some hc1).2 ⟨hle2, rfl, rfl⟩
          rw [h2] at this
          cases this
        simp only [List.length_append] at hle3
        omega
    | some c2 =>
      obtain ⟨hle2, hb2, hs2⟩ := (FillBuffer_eq_some hc1).1 h2
      symm
      rw [FillBuffer_eq_some hc]
      refine ⟨by simp only [List.length_append]; omega, ?_,
        by simp only [List.length_append]; omega⟩
      rw [hb2, hs1, hb1]
      have e1 : (List.take c.dataSize c.buf ++ a ++ List.drop (c.dataSize + a.length) c.buf).take
          (c.dataSize + a.length) = List.take c.dataSize c.buf ++ a := by
        rw [List.take_append_of_le_length (by simp; omega)]
        apply List.take_of_length_le
        simp
      have e2 : (List.take c.dataSize c.buf ++ a ++ List.drop (c.dataSize + a.length) c.buf).drop
          (c.dataSize + a.length + b.length) = List.drop (c.dataSize + (a ++ b).length) c.buf := by
        have hl : (List.take c.dataSize c.buf ++ a).length = c.dataSize + a.length := by
          simp; omega
        rw [show c.dataSize + a.length + b.length
            = (List.take c.dataSize c.buf ++ a).length + b.length by rw [hl]]
        rw [List.drop_append, List.drop_drop]
        simp only [List.length_append]
        congr 1
        omega
      rw [e1, e2]
      simp [List.append_assoc]

theorem FillBuffer_bind {c : Cursor} (hc : c.Ok) (a b : List Nat)
    (f : Cursor → Option Cursor) (hf : ∀ c1 : Cursor, c1.Ok → f c1 = FillBuffer c1 b) :
    (FillBuffer c a).bind f = FillBuffer c (a ++ b) := by
  rw [← FillBuffer_append hc]
  cases h1 : FillBuffer c a with
  | none => rfl
  | some c1 =>
    simp only [Option.some_bind]
    exact hf c1 (FillBuffer_ok hc h1).1

theorem FillBufferIf_eq {c : Cursor} (hc : c.Ok) (cond : Bool) (data : List Nat) :
    FillBufferIf cond c data = FillBuffer c (if cond then data else []) := by
  cases cond
  · simp [FillBufferIf, FillBuffer_nil hc]
  · simp [FillBufferIf]

theorem FillBufferIf_bind {c : Cursor} (hc : c.Ok) (cond : Bool) (a b : List Nat)
    (f : Cursor → Option Cursor) (hf : ∀ c1 : Cursor, c1.Ok → f c1 = FillBuffer c1 b) :
    (FillBufferIf cond c a).bind f = FillBuffer c ((if cond then a else []) ++ b) := by
  rw [FillBufferIf_eq hc]
  exact FillBuffer_bind hc _ _ f hf

/-! ## Lemmas: the vertex loop -/

theorem fillVertex_eq (mesh : Mesh) (fmt : VertexFormat) (i : Nat) {c : Cursor} (hc : c.Ok) :
    fillVertex mesh fmt i c = FillBuffer c (vertexRecord mesh fmt i) := by
  unfold fillVertex vertexRecord
  simp only [List.flatten_cons, List.flatten_nil]
  refine FillBufferIf_bind hc _ _ _ _ (fun c1 h1 => ?_)
  refine FillBufferIf_bind h1 _ _ _ _ (fun c2 h2 => ?_)
  refine FillBufferIf_bind h2 _ _ _ _ (fun c3 h3 => ?_)
  refine FillBufferIf_bind h3 _ _ _ _ (fun c4 h4 => ?_)
  refine FillBufferIf_bind h4 _ _ _ _ (fun c5 h5 => ?_)
  refine FillBufferIf_bind h5 _ _ _ _ (fun c6 h6 => ?_)
  cases hb : (fmt.Contains .BoneIndex && fmt.Contains .BoneWeight)
  · simp [FillBuffer_nil h6]
  · simp only [if_true, List.append_nil, boneData]
    exact FillBuffer_append h6 _ _

theorem fillVertices_eq (mesh : Mesh) (fmt : VertexFormat) (n i : Nat) {c : Cursor}
    (hc : c.Ok) :
    fillVertices mesh fmt n i c
      = FillBuffer c (((List.range' i n).map (vertexRecord mesh fmt)).flatten) := by
  induction n generalizing i c with
  | zero => simp [fillVertices, FillBuffer_nil hc]
  | succ n ih =>
    simp only [fillVertices, List.range'_succ, List.map_cons, List.flatten_cons]
    rw [fillVertex_eq mesh fmt i hc]
    exact FillBuffer_bind hc _ _ _ (fun c1 h1 => ih (i + 1) h1)

theorem length_boneData (mesh : Mesh) (i : Nat) : (boneData mesh i).length = 24 := by
  simp [boneData, u16Bytes, weightBytes, vertexBoneIDs, vertexBoneWeights, List.range_succ, le16]

theorem length_vertexRecord (mesh : Mesh) (fmt : VertexFormat) (i : Nat) :
    (vertexRecord mesh fmt i).length = recordSize fmt := by
  unfold vertexRecord recordSize
  simp only [List.flatten_cons, List.flatten_nil, List.length_append, List.length_nil,
    Nat.add_zero]
  cases fmt.Contains .Position <;> cases fmt.Contains .Normal <;> cases fmt.Contains .Tangent <;>
    cases fmt.Contains .Bitangent <;> cases fmt.Contains .UV <;> cases fmt.Contains .Color <;>
    cases (fmt.Contains .BoneIndex && fmt.Contains .BoneWeight) <;>
    simp [length_boneData]

theorem length_flatten_records (mesh : Mesh) (fmt : VertexFormat) (l : List Nat) :
    ((l.map (vertexRecord mesh fmt)).flatten).length = l.length * recordSize fmt := by
  induction l with
  | nil => simp
  | cons a l ih =>
    simp only [List.map_cons, List.flatten_cons, List.length_append, ih, length_vertexRecord,
      List.length_cons]
    ring

theorem length_packedVertices (mesh : Mesh) (fmt : VertexFormat) :
    (packedVertices mesh fmt).length = mesh.vertexCount * recordSize fmt := by
  unfold packedVertices
  rw [length_flatten_records, List.length_range]

/-! ## Lemmas: the polygon loop -/

theorem length_encodeIndex (u16 : Bool) (v : Nat) :
    (encodeIndex u16 v).length = indexTypeSize u16 := by
  cases u16 <;> simp [encodeIndex, indexTypeSize, le16, le32]

theorem length_polygonBytes (u16 : Bool) (polygon : List Nat) :
    (polygonBytes u16 polygon).length = polygon.length * indexTypeSize u16 := by
  induction polygon with
  | nil => simp [polygonBytes]
  | cons v rest ih =>
    simp only [polygonBytes, List.map_cons, List.flatten_cons, List.length_append,
      length_encodeIndex, List.length_cons] at ih ⊢
    rw [ih]
    ring

theorem length_packedIndices (u16 : Bool) (polygons : List (List Nat))
    (h : ∀ p ∈ polygons, p.length = 3) :
    (packedIndices u16 polygons).length = polygons.length * 3 * indexTypeSize u16 := by
  induction polygons with
  | nil => simp [packedIndices]
  | cons p rest ih =>
    have hp : p.length = 3 := h p (List.mem_cons_self _ _)
    have hr := ih (fun q hq => h q (List.mem_cons_of_mem _ hq))
    simp only [packedIndices, List.map_cons, List.flatten_cons, List.length_append,
      length_polygonBytes, List.length_cons, hp] at hr ⊢
    rw [hr]
    ring

theorem fillPolygonU16_eq (polygon : List Nat) {c : Cursor} (hc : c.Ok) :
    fillPolygonU16 polygon c = FillBuffer c (polygonBytes true polygon) := by
  induction polygon generalizing c with
  | nil => simp [fillPolygonU16, polygonBytes, FillBuffer_nil hc]
  | cons v rest ih =>
    simp only [fillPolygonU16, polygonBytes, List.map_cons, List.flatten_cons]
    have : encodeIndex true v = le16 (v % 65536) := by simp [encodeIndex]
    rw [this]
    exact FillBuffer_bind hc _ _ _ (fun c1 h1 => ih h1)

theorem u32Bytes_eq (polygon : List Nat) (h : ∀ v ∈ polygon, v < U32) :
    u32Bytes polygon = polygonBytes false polygon := by
  induction polygon with
  | nil => rfl
  | cons v rest ih =>
    have hv : v % U32 = v := Nat.mod_eq_of_lt (h v (List.mem_cons_self _ _))
    have hr := ih (fun w hw => h w (List.mem_cons_of_mem _ hw))
    simp only [u32Bytes, polygonBytes, List.map_cons, List.flatten_cons] at hr ⊢
    rw [hr]
    simp [encodeIndex, hv]

theorem fillPolygon_eq (u16 : Bool) (polygon : List Nat) (h : ∀ v ∈ polygon, v < U32)
    {c : Cursor} (hc : c.Ok) :
    fillPolygon u16 polygon c = FillBuffer c (polygonBytes u16 polygon) := by
  cases u16
  · simp [fillPolygon, u32Bytes_eq polygon h]
  · simp [fillPolygon, fillPolygonU16_eq polygon hc]

theorem fillPolygons_eq (u16 : Bool) (polygons : List (List Nat))
    (h : ∀ p ∈ polygons, ∀ v ∈ p, v < U32) {c : Cursor} (hc : c.Ok) :
    fillPolygons u16 polygons c = FillBuffer c (packedIndices u16 polygons) := by
  induction polygons generalizing c with
  | nil => simp [fillPolygons, packedIndices, FillBuffer_nil hc]
  | cons p rest ih =>
    simp only [fillPolygons, packedIndices, List.map_cons, List.flatten_cons]
    rw [fillPolygon_eq u16 p (h p (List.mem_cons_self _ _)) hc]
    exact FillBuffer_bind hc _ _ _
      (fun c1 h1 => ih (fun q hq => h q (List.mem_cons_of_mem _ hq)) h1)

/-- Filling a fresh cursor: the data lands at the front of the buffer. -/
theorem FillBuffer_fresh {buf data : List Nat} {c : Cursor} (hb : buf.length < U32)
    (h : FillBuffer { buf := buf, dataSize := 0 } data = some c) :
    data.length ≤ buf.length ∧ c.buf = data ++ buf.drop data.length := by
  have hc : Cursor.Ok { buf := buf, dataSize := 0 } := ⟨Nat.zero_le _, hb⟩
  obtain ⟨hle, hbuf, -⟩ := (FillBuffer_eq_some hc).1 h
  simp only [Nat.zero_add, List.take_zero, List.nil_append] at hle hbuf
  exact ⟨hle, hbuf⟩

theorem FillBuffer_fresh_some {buf data : List Nat} (hb : buf.length < U32)
    (h : data.length ≤ buf.length) :
    FillBuffer { buf := buf, dataSize := 0 } data
      = some { buf := data ++ buf.drop data.length, dataSize := data.length } := by
  have hc : Cursor.Ok { buf := buf, dataSize := 0 } := ⟨Nat.zero_le _, hb⟩
  rw [FillBuffer_eq_some hc]
  simp [h]

/-! ## Lemmas: wireframe derivation -/

theorem indexTypeSize_pos (u16 : Bool) : 0 < indexTypeSize u16 := by
  cases u16 <;> simp [indexTypeSize]

theorem readIndicesFrom_some (u16 : Bool) (buf : List Nat) (n k : Nat)
    (h : (k + n) * indexTypeSize u16 ≤ buf.length) :
    ∃ vs, readIndicesFrom u16 buf n k = some vs ∧ vs.length = n := by
  induction n generalizing k with
  | zero => exact ⟨[], rfl, rfl⟩
  | succ n ih =>
    have hk : (k + 1) * indexTypeSize u16 ≤ buf.length := by
      have : (k + 1) * indexTypeSize u16 ≤ (k + (n + 1)) * indexTypeSize u16 :=
        Nat.mul_le_mul_right _ (by omega)
      omega
    obtain ⟨vs, hvs, hlen⟩ :=
      ih (k + 1) (by rw [show k + 1 + n = k + (n + 1) by omega]; exact h)
    refine ⟨leValue (slot buf k (indexTypeSize u16)) :: vs,
      ?_, by simp [hlen]⟩
    simp [readIndicesFrom, readIndex, hk, hvs]

theorem length_triListToLineList (m : Nat) (l : List Nat) (h : l.length = m * 3) :
    (triListToLineList l).length = m * 6 := by
  induction m generalizing l with
  | zero =>
    have : l = [] := List.length_eq_zero.1 (by omega)
    subst this
    rfl
  | succ m ih =>
    match l, h with
    | [], h => simp at h
    | [_], h => simp only [List.length_cons, List.length_nil] at h; omega
    | [_, _], h => simp only [List.length_cons, List.length_nil] at h; omega
    | a :: b :: c :: rest, h =>
      simp only [List.length_cons] at h
      simp only [triListToLineList, List.length_cons, ih rest (by omega)]
      omega

theorem length_flatten_encodeIndex (u16 : Bool) (l : List Nat) :
    ((l.map (encodeIndex u16)).flatten).length = l.length * indexTypeSize u16 :=
  length_polygonBytes u16 l

theorem topologyConvert_count (u16 : Bool) (ib : List Nat) (p : Nat)
    (h2 : p * 3 * indexTypeSize u16 ≤ ib.length) (h3 : p * 6 < U32) :
    topologyConvert none ib (p * 3) (!u16) = some (p * 6, none) := by
  obtain ⟨vs, hvs, hlen⟩ := readIndicesFrom_some u16 ib (p * 3) 0 (by simpa using h2)
  have hl := length_triListToLineList p vs (by omega)
  simp only [topologyConvert, readIndices, Bool.not_not, hvs, Option.some_bind, hl]
  rw [Nat.mod_eq_of_lt (by omega)]

theorem topologyConvert_fill (u16 : Bool) (ib dst : List Nat) (p : Nat)
    (h2 : p * 3 * indexTypeSize u16 ≤ ib.length) (h3 : p * 6 < U32)
    (hd : dst.length = p * 6 * indexTypeSize u16) :
    ∃ w, topologyConvert (some dst) ib (p * 3) (!u16) = some (p * 6, some w)
      ∧ w.length = p * 6 * indexTypeSize u16 := by
  obtain ⟨vs, hvs, hlen⟩ := readIndicesFrom_some u16 ib (p * 3) 0 (by simpa using h2)
  have hl := length_triListToLineList p vs (by omega)
  have hfit : 0 + ((List.map (encodeIndex u16) (triListToLineList vs)).flatten).length
      ≤ dst.length := by
    rw [length_flatten_encodeIndex, hl, hd]
    omega
  cases hm : memcpyAt dst 0 ((List.map (encodeIndex u16) (triListToLineList vs)).flatten) with
  | none =>
    exfalso
    unfold memcpyAt at hm
    rw [if_pos hfit] at hm
    cases hm
  | some w =>
    refine ⟨w, ?_, by rw [length_memcpyAt hm, hd]⟩
    simp only [topologyConvert, readIndices, Bool.not_not, hvs, Option.some_bind, hl, hm,
      Option.map_some']
    rw [Nat.mod_eq_of_lt (by omega)]

theorem BuildWireframeData_eq (s : StaticMeshComponent)
    (h2 : s.m_currentPolygonCount * 3 * indexTypeSize (useU16Index s.m_currentVertexCount)
      ≤ s.m_indexBuffer.length)
    (h3 : s.m_currentPolygonCount * 6 * indexTypeSize (useU16Index s.m_currentVertexCount)
      < U32) :
    ∃ w, BuildWireframeData s = some { s with m_wireframeIndexBuffer := w } := by
  have hpos := indexTypeSize_pos (useU16Index s.m_currentVertexCount)
  have h6 : s.m_currentPolygonCount * 6 < U32 :=
    lt_of_le_of_lt (Nat.le_mul_of_pos_right _ hpos) h3
  have h3m : s.m_currentPolygonCount * 3 % U32 = s.m_currentPolygonCount * 3 :=
    Nat.mod_eq_of_lt (by omega)
  obtain ⟨w, hw, -⟩ := topologyConvert_fill (useU16Index s.m_currentVertexCount)
    s.m_indexBuffer
    (resize s.m_wireframeIndexBuffer
      (s.m_currentPolygonCount * 6 * indexTypeSize (useU16Index s.m_currentVertexCount)))
    s.m_currentPolygonCount h2 h6 (by simp)
  refine ⟨w, ?_⟩
  simp only [BuildWireframeData, h3m,
    topologyConvert_count (useU16Index s.m_currentVertexCount) s.m_indexBuffer
      s.m_currentPolygonCount h2 h6, Option.some_bind, Nat.mod_eq_of_lt h3, hw, Option.map_some']

theorem BuildWireframeData_frame {s s' : StaticMeshComponent}
    (h : BuildWireframeData s = some s') :
    s' = { s with m_wireframeIndexBuffer := s'.m_wireframeIndexBuffer } := by
  simp only [BuildWireframeData, Option.bind_eq_some, Option.map_eq_some'] at h
  obtain ⟨_, _, _, _, w, _, rfl⟩ := h
  rfl

/-! ## Lemmas: Build -/

theorem GetStride_eq (fmt : VertexFormat) :
    fmt.GetStride = recordSize fmt
      + (if fmt.boneIndex && !fmt.boneWeight then 8 else 0)
      + (if !fmt.boneIndex && fmt.boneWeight then 16 else 0) := by
  rcases fmt with ⟨p, n, t, b, u, c, bi, bw⟩
  cases p <;> cases n <;> cases t <;> cases b <;> cases u <;> cases c <;> cases bi <;>
    cases bw <;> rfl

theorem GetStride_eq_recordSize (fmt : VertexFormat) (h : fmt.boneIndex = fmt.boneWeight) :
    fmt.GetStride = recordSize fmt := by
  rw [GetStride_eq, h]
  cases fmt.boneWeight <;> simp

theorem length_packedIndices_mesh (mesh : Mesh) (hwf : mesh.WellFormed) (u16 : Bool) :
    (packedIndices u16 mesh.polygons).length = mesh.polygonCount * 3 * indexTypeSize u16 := by
  rw [length_packedIndices u16 _ hwf.triangles, hwf.polygonCount_eq]

theorem Build_unfold {s : StaticMeshComponent} {mesh : Mesh} {fmt : VertexFormat}
    (hm : s.m_pMeshData = some mesh) (hf : s.m_pRequiredVertexFormat = some fmt)
    (hcompat : mesh.vertexFormat.IsCompatiableTo fmt = true) (hwf : mesh.WellFormed) :
    Build s =
      (FillBuffer
        { buf := resize s.m_vertexBuffer ((mesh.vertexCount * fmt.GetStride) % U32),
          dataSize := 0 } (packedVertices mesh fmt)).bind fun vc =>
      (FillBuffer
        { buf := resize s.m_indexBuffer
            (((mesh.polygonCount * 3) % U32 * indexTypeSize (useU16Index mesh.vertexCount)) % U32),
          dataSize := 0 } (packedIndices (useU16Index mesh.vertexCount) mesh.polygons)).bind
        fun ic =>
          BuildWireframeData
            { s with
              m_currentVertexCount := mesh.vertexCount
              m_currentPolygonCount := mesh.polygonCount
              m_vertexBuffer := vc.buf
              m_indexBuffer := ic.buf } := by
  have hU : 0 < U32 := by decide
  have ok1 : Cursor.Ok
      ⟨resize s.m_vertexBuffer ((mesh.vertexCount * fmt.GetStride) % U32), 0⟩ :=
    ⟨Nat.zero_le _, by simpa using Nat.mod_lt _ hU⟩
  have ok2 : Cursor.Ok
      ⟨resize s.m_indexBuffer
        (((mesh.polygonCount * 3) % U32 * indexTypeSize (useU16Index mesh.vertexCount)) % U32),
        0⟩ :=
    ⟨Nat.zero_le _, by simpa using Nat.mod_lt _ hU⟩
  simp only [Build, hm, hf, hcompat, Bool.not_true, Bool.false_eq_true, if_false]
  rw [fillVertices_eq mesh fmt _ 0 ok1, ← List.range_eq_range',
    fillPolygons_eq _ _ hwf.vertexID_lt ok2]
  rfl

theorem Build_some {s s' : StaticMeshComponent} {mesh : Mesh} {fmt : VertexFormat}
    (hm : s.m_pMeshData = some mesh) (hf : s.m_pRequiredVertexFormat = some fmt)
    (hcompat : mesh.vertexFormat.IsCompatiableTo fmt = true) (hwf : mesh.WellFormed)
    (h : Build s = some s') :
    mesh.vertexCount * recordSize fmt ≤ (mesh.vertexCount * fmt.GetStride) % U32 ∧
      mesh.polygonCount * 3 * indexTypeSize (useU16Index mesh.vertexCount) < U32 ∧
      s' = { builtState s mesh fmt with m_wireframeIndexBuffer := s'.m_wireframeIndexBuffer } := by
  have hU : 0 < U32 := by decide
  rw [Build_unfold hm hf hcompat hwf] at h
  simp only [Option.bind_eq_some] at h
  obtain ⟨vc, hvc, ic, hic, hw⟩ := h
  obtain ⟨hv1, hv2⟩ := FillBuffer_fresh (by simpa using Nat.mod_lt _ hU) hvc
  obtain ⟨hi1, hi2⟩ := FillBuffer_fresh (by simpa using Nat.mod_lt _ hU) hic
  rw [length_packedVertices, length_resize] at hv1
  rw [length_packedVertices] at hv2
  rw [length_packedIndices_mesh mesh hwf, length_resize] at hi1
  have hpos := indexTypeSize_pos (useU16Index mesh.vertexCount)
  have hlt : mesh.polygonCount * 3 * indexTypeSize (useU16Index mesh.vertexCount) < U32 :=
    lt_of_le_of_lt hi1 (Nat.mod_lt _ hU)
  have h3 : mesh.polygonCount * 3 < U32 :=
    lt_of_le_of_lt (Nat.le_mul_of_pos_right _ hpos) hlt
  have hdrop : ic.buf = packedIndices (useU16Index mesh.vertexCount) mesh.polygons := by
    rw [hi2, List.drop_of_length_le, List.append_nil]
    rw [length_resize, length_packedIndices_mesh mesh hwf, Nat.mod_eq_of_lt h3,
      Nat.mod_eq_of_lt hlt]
  refine ⟨hv1, hlt, ?_⟩
  rw [BuildWireframeData_frame hw, hv2, hdrop]
  rfl

theorem Build_eq {s : StaticMeshComponent} {mesh : Mesh} {fmt : VertexFormat}
    (hm : s.m_pMeshData = some mesh) (hf : s.m_pRequiredVertexFormat = some fmt)
    (hcompat : mesh.vertexFormat.IsCompatiableTo fmt = true) (hwf : mesh.WellFormed)
    (hv : mesh.vertexCount * recordSize fmt ≤ (mesh.vertexCount * fmt.GetStride) % U32)
    (hi : mesh.polygonCount * 6 * indexTypeSize (useU16Index mesh.vertexCount) < U32) :
    ∃ w, Build s = some { builtState s mesh fmt with m_wireframeIndexBuffer := w } := by
  have hU : 0 < U32 := by decide
  have hpos := indexTypeSize_pos (useU16Index mesh.vertexCount)
  have hlt : mesh.polygonCount * 3 * indexTypeSize (useU16Index mesh.vertexCount) < U32 := by
    have : mesh.polygonCount * 3 * indexTypeSize (useU16Index mesh.vertexCount)
        ≤ mesh.polygonCount * 6 * indexTypeSize (useU16Index mesh.vertexCount) :=
      Nat.mul_le_mul_right _ (by omega)
    omega
  have h3 : mesh.polygonCount * 3 < U32 :=
    lt_of_le_of_lt (Nat.le_mul_of_pos_right _ hpos) hlt
  rw [Build_unfold hm hf hcompat hwf]
  rw [FillBuffer_fresh_some (by simpa using Nat.mod_lt _ hU)
    (by rw [length_packedVertices, length_resize]; exact hv)]
  simp only [Option.some_bind]
  rw [FillBuffer_fresh_some (by simpa using Nat.mod_lt _ hU)
    (by rw [length_packedIndices_mesh mesh hwf, length_resize, Nat.mod_eq_of_lt h3,
      Nat.mod_eq_of_lt hlt])]
  simp only [Option.some_bind]
  have hdrop : (resize s.m_indexBuffer (mesh.polygonCount * 3 % U32 *
      indexTypeSize (useU16Index mesh.vertexCount) % U32)).drop
      (packedIndices (useU16Index mesh.vertexCount) mesh.polygons).length = [] := by
    apply List.drop_of_length_le
    rw [length_resize, length_packedIndices_mesh mesh hwf, Nat.mod_eq_of_lt h3,
      Nat.mod_eq_of_lt hlt]
  rw [hdrop, List.append_nil, length_packedVertices]
  obtain ⟨w, hw⟩ := BuildWireframeData_eq
    { s with
      m_currentVertexCount := mesh.vertexCount
      m_currentPolygonCount := mesh.polygonCount
      m_vertexBuffer := packedVertices mesh fmt
        ++ (resize s.m_vertexBuffer ((mesh.vertexCount * fmt.GetStride) % U32)).drop
            (mesh.vertexCount * recordSize fmt)
      m_indexBuffer := packedIndices (useU16Index mesh.vertexCount) mesh.polygons }
    (by simp only; rw [length_packedIndices_mesh mesh hwf]) hi
  exact ⟨w, hw⟩

/-! ## Lemmas: slots of a buffer -/

theorem slot_flatten_map (f : Nat → List Nat) (w : Nat) (hf : ∀ i, (f i).length = w)
    (rest : List Nat) (n a i : Nat) (hi : i < n) :
    slot (((List.range' a n).map f).flatten ++ rest) i w = f (a + i) := by
  induction n generalizing a i with
  | zero => omega
  | succ n ih =>
    simp only [List.range'_succ, List.map_cons, List.flatten_cons, List.append_assoc]
    cases i with
    | zero =>
      simp only [slot, Nat.zero_mul, List.drop_zero, Nat.add_zero]
      rw [List.take_append_of_le_length (by rw [hf]), List.take_of_length_le (by rw [hf])]
    | succ j =>
      have hj := ih (a + 1) j (by omega)
      have e : (j + 1) * w = (f a).length + j * w := by rw [hf]; ring
      simp only [slot] at hj ⊢
      rw [e, List.drop_append, hj]
      congr 1
      omega

theorem length_flatten_map_uniform (f : Nat → List Nat) (w : Nat)
    (hf : ∀ i, (f i).length = w) (l : List Nat) :
    ((l.map f).flatten).length = l.length * w := by
  induction l with
  | nil => simp
  | cons a l ih =>
    simp only [List.map_cons, List.flatten_cons, List.length_append, ih, hf, List.length_cons]
    ring

theorem slot_take (l : List Nat) (n j w : Nat) (h : (j + 1) * w ≤ n) :
    slot (l.take n) j w = slot l j w := by
  have e : (j + 1) * w = j * w + w := by ring
  simp only [slot, List.drop_take, List.take_take]
  congr 1
  omega

/-! ## Lemmas: worked inputs -/

theorem triangleMesh_wellFormed : triangleMesh.WellFormed :=
  ⟨by decide, rfl, by decide, by decide, by decide, by simp [triangleMesh, taggedMesh]⟩

theorem mesh65536_wellFormed : mesh65536.WellFormed :=
  ⟨by decide, rfl, by decide, by decide, by decide, by simp [mesh65536, taggedMesh]⟩

theorem Build_triangle : Build (freshComponent triangleMesh formatPN) = some triangleBuilt :=
  rfl

theorem Build_mesh65536 :
    ∃ s', Build (freshComponent mesh65536 formatP) = some s' ∧
      s'.m_currentVertexCount = 65536 ∧ s'.m_indexBuffer = [0, 0, 1, 0, 255, 255] := by
  obtain ⟨w, hw⟩ := @Build_eq (freshComponent mesh65536 formatP) mesh65536 formatP rfl rfl
    (by decide) mesh65536_wellFormed (by decide) (by decide)
  refine ⟨_, hw, rfl, ?_⟩
  show packedIndices (useU16Index mesh65536.vertexCount) mesh65536.polygons = _
  decide

/-! ## Index width (C1, C2) -/

theorem useU16Index_iff (n : Nat) : useU16Index n = true ↔ n ≤ 65536 := by
  simp [useU16Index, UINT16_MAX, U32]

/-- C1: for every source mesh that `Build` packs successfully, the index element size
chosen is 2 bytes if and only if the vertex count is at most 65536, and 4 bytes
otherwise; the index buffer is the polygon list stored in elements of that size. -/
theorem Build_index_element_size {s s' : StaticMeshComponent} {mesh : Mesh}
    {fmt : VertexFormat} (hm : s.m_pMeshData = some mesh)
    (hf : s.m_pRequiredVertexFormat = some fmt)
    (hcompat : mesh.vertexFormat.IsCompatiableTo fmt = true) (hwf : mesh.WellFormed)
    (h : Build s = some s') :
    (indexTypeSize (useU16Index s'.m_currentVertexCount) = 2 ↔ mesh.vertexCount ≤ 65536) ∧
    (indexTypeSize (useU16Index s'.m_currentVertexCount) = 4 ↔ ¬ mesh.vertexCount ≤ 65536) ∧
    (mesh.vertexCount ≤ 65536 →
      s'.m_indexBuffer = packedIndices true mesh.polygons ∧
      s'.m_indexBuffer.length = mesh.polygonCount * 3 * 2) ∧
    (¬ mesh.vertexCount ≤ 65536 →
      s'.m_indexBuffer = packedIndices false mesh.polygons ∧
      s'.m_indexBuffer.length = mesh.polygonCount * 3 * 4) := by
  obtain ⟨-, -, hs⟩ := Build_some hm hf hcompat hwf h
  have hV : s'.m_currentVertexCount = mesh.vertexCount := by rw [hs]; rfl
  have hI : s'.m_indexBuffer = packedIndices (useU16Index mesh.vertexCount) mesh.polygons := by
    rw [hs]; rfl
  rw [hV]
  by_cases hle : mesh.vertexCount ≤ 65536
  · have hu : useU16Index mesh.vertexCount = true := (useU16Index_iff _).2 hle
    rw [hu] at hI
    refine ⟨by simp [hu, indexTypeSize, hle], by simp [hu, indexTypeSize, hle],
      fun _ => ⟨hI, ?_⟩, fun hn => absurd hle hn⟩
    rw [hI, length_packedIndices_mesh mesh hwf]
    rfl
  · have hu : useU16Index mesh.vertexCount = false := by
      cases hb : useU16Index mesh.vertexCount
      · rfl
      · exact absurd ((useU16Index_iff _).1 hb) hle
    rw [hu] at hI
    refine ⟨by simp [hu, indexTypeSize, hle], by simp [hu, indexTypeSize, hle],
      fun hn => absurd hn hle, fun _ => ⟨hI, ?_⟩⟩
    rw [hI, length_packedIndices_mesh mesh hwf]
    rfl

/-- Witness of C1 on the one-triangle mesh: three vertices, 2-byte indices. -/
theorem Build_index_element_size_witness :
    Build (freshComponent triangleMesh formatPN) = some triangleBuilt ∧
    (indexTypeSize (useU16Index triangleBuilt.m_currentVertexCount) = 2
      ↔ triangleMesh.vertexCount ≤ 65536) ∧
    (indexTypeSize (useU16Index triangleBuilt.m_currentVertexCount) = 4
      ↔ ¬ triangleMesh.vertexCount ≤ 65536) ∧
    (triangleMesh.vertexCount ≤ 65536 →
      triangleBuilt.m_indexBuffer = packedIndices true triangleMesh.polygons ∧
      triangleBuilt.m_indexBuffer.length = triangleMesh.polygonCount * 3 * 2) ∧
    (¬ triangleMesh.vertexCount ≤ 65536 →
      triangleBuilt.m_indexBuffer = packedIndices false triangleMesh.polygons ∧
      triangleBuilt.m_indexBuffer.length = triangleMesh.polygonCount * 3 * 4) :=
  ⟨rfl, @Build_index_element_size (freshComponent triangleMesh formatPN) _ triangleMesh
    formatPN rfl rfl (by decide) triangleMesh_wellFormed rfl⟩

/-- C2, counterexample: `Build` on a mesh with 65536 vertices does not select 32-bit
indices; its one triangle `[0, 1, 65535]` is stored in three 2-byte elements. -/
theorem Build_65536_vertices_not_u32 :
    ∃ s', Build (freshComponent mesh65536 formatP) = some s' ∧
      s'.m_currentVertexCount = 65536 ∧
      indexTypeSize (useU16Index s'.m_currentVertexCount) ≠ 4 ∧
      s'.m_indexBuffer = [0, 0, 1, 0, 255, 255] := by
  obtain ⟨s', h, hV, hI⟩ := Build_mesh65536
  exact ⟨s', h, hV, by rw [hV]; decide, hI⟩

/-- C2, amended: packing a mesh with 65535 or with 65536 vertices selects 16-bit
indices; 32-bit indices start at 65537 vertices. -/
theorem Build_index_width_boundary {s s' : StaticMeshComponent} {mesh : Mesh}
    {fmt : VertexFormat} (hm : s.m_pMeshData = some mesh)
    (hf : s.m_pRequiredVertexFormat = some fmt)
    (hcompat : mesh.vertexFormat.IsCompatiableTo fmt = true) (hwf : mesh.WellFormed)
    (h : Build s = some s') :
    (mesh.vertexCount = 65535 ∨ mesh.vertexCount = 65536 →
      indexTypeSize (useU16Index s'.m_currentVertexCount) = 2 ∧
      s'.m_indexBuffer = packedIndices true mesh.polygons) ∧
    (mesh.vertexCount = 65537 →
      indexTypeSize (useU16Index s'.m_currentVertexCount) = 4 ∧
      s'.m_indexBuffer = packedIndices false mesh.polygons) := by
  obtain ⟨-, -, hs⟩ := Build_some hm hf hcompat hwf h
  have hV : s'.m_currentVertexCount = mesh.vertexCount := by rw [hs]; rfl
  have hI : s'.m_indexBuffer = packedIndices (useU16Index mesh.vertexCount) mesh.polygons := by
    rw [hs]; rfl
  rw [hV]
  constructor
  · intro hv
    have hu : useU16Index mesh.vertexCount = true := by
      rcases hv with hv | hv <;> rw [hv] <;> decide
    rw [hu] at hI ⊢
    exact ⟨rfl, hI⟩
  · intro hv
    have hu : useU16Index mesh.vertexCount = false := by rw [hv]; decide
    rw [hu] at hI ⊢
    exact ⟨rfl, hI⟩

/-- Witness of the amended C2 on the mesh with 65536 vertices. -/
theorem Build_index_width_boundary_witness :
    ∃ s', Build (freshComponent mesh65536 formatP) = some s' ∧
      mesh65536.vertexCount = 65536 ∧
      indexTypeSize (useU16Index s'.m_currentVertexCount) = 2 ∧
      s'.m_indexBuffer = packedIndices true mesh65536.polygons := by
  obtain ⟨s', h, -, -⟩ := Build_mesh65536
  exact ⟨s', h, rfl,
    (@Build_index_width_boundary (freshComponent mesh65536 formatP) _ mesh65536 formatP
      rfl rfl (by decide) mesh65536_wellFormed h).1 (Or.inr rfl)⟩

/-! ## Buffer sizes and layout (C3, C4) -/

theorem Build_vertexBuffer_eq {s s' : StaticMeshComponent} {mesh : Mesh}
    {fmt : VertexFormat} (hm : s.m_pMeshData = some mesh)
    (hf : s.m_pRequiredVertexFormat = some fmt)
    (hcompat : mesh.vertexFormat.IsCompatiableTo fmt = true)
    (h : Build s = some s') :
    mesh.vertexCount * recordSize fmt ≤ (mesh.vertexCount * fmt.GetStride) % U32 ∧
    s'.m_vertexBuffer = packedVertices mesh fmt
      ++ (resize s.m_vertexBuffer ((mesh.vertexCount * fmt.GetStride) % U32)).drop
          (mesh.vertexCount * recordSize fmt) := by
  have hU : 0 < U32 := by decide
  have hlt : (resize s.m_vertexBuffer ((mesh.vertexCount * fmt.GetStride) % U32)).length
      < U32 := by
    rw [length_resize]
    exact Nat.mod_lt _ hU
  simp only [Build, hm, hf, hcompat, Bool.not_true, Bool.false_eq_true, if_false,
    Option.bind_eq_some] at h
  obtain ⟨vc, hvc, ic, -, hw⟩ := h
  have ok1 : Cursor.Ok
      ⟨resize s.m_vertexBuffer ((mesh.vertexCount * fmt.GetStride) % U32), 0⟩ :=
    ⟨Nat.zero_le _, hlt⟩
  rw [fillVertices_eq mesh fmt _ 0 ok1, ← List.range_eq_range'] at hvc
  obtain ⟨hv1, hv2⟩ := FillBuffer_fresh hlt hvc
  have hlp : (((List.range mesh.vertexCount).map (vertexRecord mesh fmt)).flatten).length
      = mesh.vertexCount * recordSize fmt := length_packedVertices mesh fmt
  rw [hlp] at hv1 hv2
  rw [length_resize] at hv1
  refine ⟨hv1, ?_⟩
  rw [BuildWireframeData_frame hw]
  exact hv2

/-- C3, counterexample: with the format `{bone-index}` the vertex buffer of a one-vertex
mesh has 1 x stride = 8 bytes, and the packer has written none of them: its running
size ends at 0 and the bytes are the zeros left by `resize`. -/
theorem Build_boneIndexOnly_unwritten :
    formatBoneIndexOnly.GetStride = 8 ∧
    (Build (freshComponent (pointMesh formatBoneIndexOnly) formatBoneIndexOnly)).map
        (fun s => s.m_vertexBuffer) = some [0, 0, 0, 0, 0, 0, 0, 0] ∧
    writtenVertexBytes (freshComponent (pointMesh formatBoneIndexOnly) formatBoneIndexOnly)
        (pointMesh formatBoneIndexOnly) formatBoneIndexOnly = some 0 ∧
    packedVertices (pointMesh formatBoneIndexOnly) formatBoneIndexOnly = [] := by
  decide

/-- C3, amended: after a successful `Build` of a mesh with V vertices and P triangles,
when bone-index and bone-weight are requested both or neither, the vertex buffer has
exactly V x stride bytes and is the packer's records and nothing else, the stride being
the sum of the byte sizes of the requested attributes; for every format the index buffer
has exactly P x 3 x indexElementSize bytes; a cube (8 vertices, 12 triangles) packed
with `{position, normal}` gives 192 and 72 bytes. -/
theorem Build_buffer_sizes {s s' : StaticMeshComponent} {mesh : Mesh}
    {fmt : VertexFormat} (hm : s.m_pMeshData = some mesh)
    (hf : s.m_pRequiredVertexFormat = some fmt)
    (hcompat : mesh.vertexFormat.IsCompatiableTo fmt = true) (hwf : mesh.WellFormed)
    (h : Build s = some s') :
    (fmt.boneIndex = fmt.boneWeight →
      s'.m_vertexBuffer.length = mesh.vertexCount * fmt.GetStride ∧
      s'.m_vertexBuffer = packedVertices mesh fmt ∧
      writtenVertexBytes s mesh fmt = some s'.m_vertexBuffer.length) ∧
    s'.m_indexBuffer.length
      = mesh.polygonCount * 3 * indexTypeSize (useU16Index mesh.vertexCount) ∧
    (mesh.vertexCount = 8 → mesh.polygonCount = 12 → fmt = formatPN →
      s'.m_vertexBuffer.length = 192 ∧ s'.m_indexBuffer.length = 72) := by
  have hU : 0 < U32 := by decide
  obtain ⟨-, -, hs⟩ := Build_some hm hf hcompat hwf h
  obtain ⟨hv, hvb⟩ := Build_vertexBuffer_eq hm hf hcompat h
  have hI : s'.m_indexBuffer = packedIndices (useU16Index mesh.vertexCount) mesh.polygons := by
    rw [hs]; rfl
  have hIlen : s'.m_indexBuffer.length
      = mesh.polygonCount * 3 * indexTypeSize (useU16Index mesh.vertexCount) := by
    rw [hI, length_packedIndices_mesh mesh hwf]
  have hvert : fmt.boneIndex = fmt.boneWeight →
      s'.m_vertexBuffer.length = mesh.vertexCount * fmt.GetStride ∧
      s'.m_vertexBuffer = packedVertices mesh fmt ∧
      writtenVertexBytes s mesh fmt = some s'.m_vertexBuffer.length := by
    intro hb
    have hst := GetStride_eq_recordSize fmt hb
    rw [hst] at hv hvb ⊢
    have hlt : mesh.vertexCount * recordSize fmt < U32 := lt_of_le_of_lt hv (Nat.mod_lt _ hU)
    rw [Nat.mod_eq_of_lt hlt] at hvb
    rw [List.drop_of_length_le (by simp), List.append_nil] at hvb
    refine ⟨by rw [hvb, length_packedVertices], hvb, ?_⟩
    unfold writtenVertexBytes
    rw [hst, Nat.mod_eq_of_lt hlt, fillVertices_eq mesh fmt _ 0
      ⟨Nat.zero_le _, by simpa using hlt⟩, ← List.range_eq_range']
    rw [show ((List.range mesh.vertexCount).map (vertexRecord mesh fmt)).flatten
      = packedVertices mesh fmt from rfl]
    rw [FillBuffer_fresh_some (by simpa using hlt) (by simp [length_packedVertices])]
    simp [hvb]
  refine ⟨hvert, hIlen, ?_⟩
  intro h8 h12 hfmt
  subst hfmt
  obtain ⟨hl, -, -⟩ := hvert rfl
  rw [hl, hIlen, h8, h12]
  decide

/-- Witness of the amended C3 on the one-triangle mesh. -/
theorem Build_buffer_sizes_witness :
    Build (freshComponent triangleMesh formatPN) = some triangleBuilt ∧
    triangleBuilt.m_vertexBuffer.length = triangleMesh.vertexCount * formatPN.GetStride ∧
    triangleBuilt.m_vertexBuffer = packedVertices triangleMesh formatPN ∧
    writtenVertexBytes (freshComponent triangleMesh formatPN) triangleMesh formatPN
      = some triangleBuilt.m_vertexBuffer.length ∧
    triangleBuilt.m_indexBuffer.length
      = triangleMesh.polygonCount * 3 * indexTypeSize (useU16Index triangleMesh.vertexCount) :=
  have h := @Build_buffer_sizes (freshComponent triangleMesh formatPN) _ triangleMesh
    formatPN rfl rfl (by decide) triangleMesh_wellFormed Build_triangle
  ⟨Build_triangle, (h.1 rfl).1, (h.1 rfl).2.1, (h.1 rfl).2.2, h.2.1⟩

theorem Build_record_at {s s' : StaticMeshComponent} {mesh : Mesh}
    {fmt : VertexFormat} (hm : s.m_pMeshData = some mesh)
    (hf : s.m_pRequiredVertexFormat = some fmt)
    (hcompat : mesh.vertexFormat.IsCompatiableTo fmt = true)
    (h : Build s = some s') (i : Nat) (hi : i < mesh.vertexCount) :
    (s'.m_vertexBuffer.drop (i * recordSize fmt)).take (recordSize fmt)
      = vertexRecord mesh fmt i := by
  obtain ⟨-, hvb⟩ := Build_vertexBuffer_eq hm hf hcompat h
  have := slot_flatten_map (vertexRecord mesh fmt) (recordSize fmt)
    (length_vertexRecord mesh fmt)
    ((resize s.m_vertexBuffer ((mesh.vertexCount * fmt.GetStride) % U32)).drop
        (mesh.vertexCount * recordSize fmt)) mesh.vertexCount 0 i hi
  rw [← List.range_eq_range', Nat.zero_add] at this
  rw [hvb]
  exact this

/-- C4: for every vertex `i` of a successfully packed mesh, the bytes of vertex `i` in
the vertex buffer are its record, the concatenation in the order position, normal,
tangent, bitangent, UV 0, color 0, bone data of the attributes the required format
contains (bone data only with both bone attributes requested); the records follow one
another from offset 0, record `i` starting where record `i - 1` ends. -/
theorem Build_vertex_layout {s s' : StaticMeshComponent} {mesh : Mesh}
    {fmt : VertexFormat} (hm : s.m_pMeshData = some mesh)
    (hf : s.m_pRequiredVertexFormat = some fmt)
    (hcompat : mesh.vertexFormat.IsCompatiableTo fmt = true)
    (h : Build s = some s') :
    (∀ i, i < mesh.vertexCount →
      (s'.m_vertexBuffer.drop (i * recordSize fmt)).take (recordSize fmt)
        = vertexRecord mesh fmt i ∧
      (vertexRecord mesh fmt i).length = recordSize fmt) ∧
    s'.m_vertexBuffer.take (mesh.vertexCount * recordSize fmt)
      = ((List.range mesh.vertexCount).map (vertexRecord mesh fmt)).flatten := by
  refine ⟨fun i hi => ⟨Build_record_at hm hf hcompat h i hi,
    length_vertexRecord mesh fmt i⟩, ?_⟩
  rw [(Build_vertexBuffer_eq hm hf hcompat h).2]
  exact List.take_left' (length_packedVertices mesh fmt)

/-- Witness of C4 on the one-triangle mesh. -/
theorem Build_vertex_layout_witness :
    Build (freshComponent triangleMesh formatPN) = some triangleBuilt ∧
    (∀ i, i < triangleMesh.vertexCount →
      (triangleBuilt.m_vertexBuffer.drop (i * recordSize formatPN)).take (recordSize formatPN)
        = vertexRecord triangleMesh formatPN i ∧
      (vertexRecord triangleMesh formatPN i).length = recordSize formatPN) ∧
    triangleBuilt.m_vertexBuffer.take (triangleMesh.vertexCount * recordSize formatPN)
      = ((List.range triangleMesh.vertexCount).map (vertexRecord triangleMesh formatPN)).flatten :=
  ⟨Build_triangle, @Build_vertex_layout (freshComponent triangleMesh formatPN) _ triangleMesh
    formatPN rfl rfl (by decide) Build_triangle⟩

/-! ## Bone influence slots (C5) -/

theorem window_of_take_eq (l a b : List Nat) (h : l.take (a.length + b.length) = a ++ b) :
    (l.drop a.length).take b.length = b := by
  rw [List.take_drop, h, List.drop_left' rfl]

theorem vertexRecord_bones (mesh : Mesh) (fmt : VertexFormat) (i : Nat)
    (hb : (fmt.Contains .BoneIndex && fmt.Contains .BoneWeight) = true) :
    ∃ pre, vertexRecord mesh fmt i = pre ++ boneData mesh i ∧
      pre.length = recordSize fmt - 24 ∧ pre.length + 24 = recordSize fmt := by
  refine ⟨List.flatten
    [ if fmt.Contains .Position then (mesh.vertexPosition i).val else [],
      if fmt.Contains .Normal then (mesh.vertexNormal i).val else [],
      if fmt.Contains .Tangent then (mesh.vertexTangent i).val else [],
      if fmt.Contains .Bitangent then (mesh.vertexBiTangent i).val else [],
      if fmt.Contains .UV then (mesh.vertexUV0 i).val else [],
      if fmt.Contains .Color then (mesh.vertexColor0 i).val else [] ], ?_, ?_⟩
  · simp only [vertexRecord, hb, if_true, List.flatten_cons, List.flatten_nil,
      List.append_nil, List.append_assoc]
  · have hl := length_vertexRecord mesh fmt i
    simp only [vertexRecord, hb, if_true, List.flatten_cons, List.flatten_nil,
      List.append_nil, List.length_append, length_boneData] at hl
    simp only [List.flatten_cons, List.flatten_nil, List.append_nil, List.length_append]
    omega

theorem boneData_eq (mesh : Mesh) (i : Nat) :
    boneData mesh i
      = ((List.range' 0 4).map (fun k => le16 (slotID mesh i k))).flatten
        ++ ((List.range' 0 4).map (fun k => (slotWeight mesh i k).val)).flatten := by
  simp only [boneData, u16Bytes, weightBytes, vertexBoneIDs, vertexBoneWeights,
    List.range_eq_range', List.map_map]
  rfl

theorem slot_boneData_id (mesh : Mesh) (i k : Nat) (hk : k < 4) :
    slot (boneData mesh i) k 2 = le16 (slotID mesh i k) := by
  rw [boneData_eq]
  have := slot_flatten_map (fun k => le16 (slotID mesh i k)) 2 (fun _ => rfl)
    (((List.range' 0 4).map (fun k => (slotWeight mesh i k).val)).flatten) 4 0 k hk
  simpa using this

theorem slot_boneData_weight (mesh : Mesh) (i k : Nat) (hk : k < 4) :
    slot ((boneData mesh i).drop 8) k 4 = (slotWeight mesh i k).val := by
  have h8 : ((List.range' 0 4).map (fun k => le16 (slotID mesh i k))).flatten.length = 8 :=
    length_flatten_map_uniform (fun k => le16 (slotID mesh i k)) 2 (fun _ => rfl) _
  rw [boneData_eq, List.drop_left' h8]
  have := slot_flatten_map (fun k => (slotWeight mesh i k).val) 4 (fun _ => by simp)
    [] 4 0 k hk
  simpa using this

theorem slotID_eq (mesh : Mesh) (i k : Nat) :
    (∀ d, k < mesh.vertexInfluenceCount → mesh.vertexBoneID k i = some d →
      slotID mesh i k = d % 65536 ∧ slotWeight mesh i k = mesh.vertexWeight k i) ∧
    (¬ (k < mesh.vertexInfluenceCount ∧ (mesh.vertexBoneID k i).isSome = true) →
      slotID mesh i k = 127 ∧ slotWeight mesh i k = zeroWeight) := by
  constructor
  · intro d hk hd
    simp [slotID, slotWeight, slotBoneID, hk, hd]
  · intro hn
    by_cases hk : k < mesh.vertexInfluenceCount
    · cases hd : mesh.vertexBoneID k i with
      | none => simp [slotID, slotWeight, slotBoneID, hk, hd]
      | some d => exact absurd ⟨hk, by simp [hd]⟩ hn
    · simp [slotID, slotWeight, slotBoneID, hk]

/-- C5, counterexample: a valid source bone ID 65537 in influence slot 0 is not what
the slot holds; the two bytes written are `01 00`, bone ID 1. -/
theorem Build_wide_boneID_truncated :
    wideBoneMesh.vertexBoneID 0 0 = some 65537 ∧
    0 < wideBoneMesh.vertexInfluenceCount ∧
    (Build (freshComponent wideBoneMesh formatBones)).map
        (fun s => s.m_vertexBuffer.take 8) = some [1, 0, 3, 0, 127, 0, 127, 0] ∧
    (Build (freshComponent wideBoneMesh formatBones)).map
        (fun s => leValue (slot s.m_vertexBuffer 0 2)) = some 1 := by
  decide

/-- C5, amended: when both bone-index and bone-weight are requested, `Build` ends the
record of every vertex with exactly 4 two-byte bone IDs followed by exactly 4 four-byte
weights; slot `k < 4` holds the source bone ID converted to `uint16_t` (the ID modulo
65536, so the ID itself when it is below 65536) and the source weight when `k` is below
the influence count and the source bone ID is valid, and bone ID 127 with weight 0
otherwise. -/
theorem Build_bone_slots {s s' : StaticMeshComponent} {mesh : Mesh}
    {fmt : VertexFormat} (hm : s.m_pMeshData = some mesh)
    (hf : s.m_pRequiredVertexFormat = some fmt)
    (hcompat : mesh.vertexFormat.IsCompatiableTo fmt = true)
    (hbi : fmt.Contains .BoneIndex = true) (hbw : fmt.Contains .BoneWeight = true)
    (h : Build s = some s') (i k : Nat) (hi : i < mesh.vertexCount) (hk : k < 4) :
    24 ≤ recordSize fmt ∧
    (∀ d, k < mesh.vertexInfluenceCount → mesh.vertexBoneID k i = some d →
      slot (s'.m_vertexBuffer.drop (i * recordSize fmt + (recordSize fmt - 24))) k 2
        = le16 (d % 65536) ∧
      (d < 65536 →
        leValue (slot (s'.m_vertexBuffer.drop (i * recordSize fmt + (recordSize fmt - 24))) k 2)
          = d) ∧
      slot (s'.m_vertexBuffer.drop (i * recordSize fmt + (recordSize fmt - 24) + 8)) k 4
        = (mesh.vertexWeight k i).val) ∧
    (¬ (k < mesh.vertexInfluenceCount ∧ (mesh.vertexBoneID k i).isSome = true) →
      slot (s'.m_vertexBuffer.drop (i * recordSize fmt + (recordSize fmt - 24))) k 2
        = le16 127 ∧
      slot (s'.m_vertexBuffer.drop (i * recordSize fmt + (recordSize fmt - 24) + 8)) k 4
        = [0, 0, 0, 0]) := by
  have hb : (fmt.Contains .BoneIndex && fmt.Contains .BoneWeight) = true := by simp [hbi, hbw]
  obtain ⟨pre, hrec, hpre, hsum⟩ := vertexRecord_bones mesh fmt i hb
  have hslot := Build_record_at hm hf hcompat h i hi
  -- the last 24 bytes of the record are the bone data
  have hwin : (s'.m_vertexBuffer.drop (i * recordSize fmt + (recordSize fmt - 24))).take 24
      = boneData mesh i := by
    have h1 : (s'.m_vertexBuffer.drop (i * recordSize fmt)).take
        (pre.length + (boneData mesh i).length) = pre ++ boneData mesh i := by
      rw [length_boneData, hsum, hslot, hrec]
    have h2 := window_of_take_eq _ _ _ h1
    rw [List.drop_drop, length_boneData, hpre] at h2
    exact h2
  have hid : slot (s'.m_vertexBuffer.drop (i * recordSize fmt + (recordSize fmt - 24))) k 2
      = le16 (slotID mesh i k) := by
    rw [← slot_take _ 24 k 2 (by omega), hwin]
    exact slot_boneData_id mesh i k hk
  have hwt : slot (s'.m_vertexBuffer.drop (i * recordSize fmt + (recordSize fmt - 24) + 8)) k 4
      = (slotWeight mesh i k).val := by
    rw [← slot_take _ 16 k 4 (by omega), ← List.drop_drop, List.take_drop,
      show 8 + 16 = 24 from rfl, hwin]
    exact slot_boneData_weight mesh i k hk
  obtain ⟨hvalid, hpad⟩ := slotID_eq mesh i k
  refine ⟨by omega, ?_, ?_⟩
  · intro d hlt hd
    obtain ⟨e1, e2⟩ := hvalid d hlt hd
    rw [hid, hwt, e1, e2]
    refine ⟨rfl, ?_, rfl⟩
    intro hd16
    simp only [le16, leValue, Nat.mod_eq_of_lt hd16]
    omega
  · intro hn
    obtain ⟨e1, e2⟩ := hpad hn
    rw [hid, hwt, e1, e2]
    exact ⟨rfl, rfl⟩

/-- Witness of the amended C5: vertex 0 of the two-influence mesh, slot 1 (bone 3). -/
theorem Build_bone_slots_witness :
    ∃ s', Build (freshComponent wideBoneMesh formatBones) = some s' ∧
      leValue (slot (s'.m_vertexBuffer.drop (0 * recordSize formatBones
        + (recordSize formatBones - 24))) 1 2) = 3 := by
  have hwf : wideBoneMesh.WellFormed :=
    ⟨by decide, rfl, by decide, by decide, by decide, by
      intro k i d hd
      simp only [wideBoneMesh, taggedMesh] at hd
      split at hd <;> cases hd <;> decide⟩
  obtain ⟨w, hw⟩ := @Build_eq (freshComponent wideBoneMesh formatBones) wideBoneMesh
    formatBones rfl rfl (by decide) hwf (by decide) (by decide)
  exact ⟨_, hw, ((@Build_bone_slots (freshComponent wideBoneMesh formatBones) _ wideBoneMesh
    formatBones rfl rfl (by decide) rfl rfl hw 0 1
    (by decide) (by decide)).2.1 3 (by decide) rfl).2.1 (by decide)⟩

/-! ## Incompatible formats (C6) -/

/-- C6, counterexample: a component that was packed and then given a required format
its mesh does not satisfy keeps its non-empty buffers when `Build` fails. -/
theorem Build_incompatible_keeps_buffers :
    triangleMesh.vertexFormat.IsCompatiableTo formatBones = false ∧
    Build (freshComponent triangleMesh formatPN) = some triangleBuilt ∧
    (Build triangleRetargeted).map (fun s => (s.m_vertexBuffer.length, s.m_indexBuffer))
      = some (72, [0, 0, 1, 0, 2, 0]) := by
  refine ⟨by decide, rfl, by decide⟩

/-- C6, amended: if the source mesh's vertex format is not compatible with the required
format, `Build` returns without changing any field of the component; the vertex buffer
and the index buffer are what they were before the call, hence empty after it when they
were empty before it. -/
theorem Build_incompatible_unchanged {s : StaticMeshComponent} {mesh : Mesh}
    {fmt : VertexFormat} (hm : s.m_pMeshData = some mesh)
    (hf : s.m_pRequiredVertexFormat = some fmt)
    (hcompat : mesh.vertexFormat.IsCompatiableTo fmt = false) :
    Build s = some s ∧
    (s.m_vertexBuffer = [] → s.m_indexBuffer = [] →
      (Build s).map (fun s' => (s'.m_vertexBuffer, s'.m_indexBuffer)) = some ([], [])) := by
  have h : Build s = some s := by
    simp [Build, hm, hf, hcompat]
  refine ⟨h, fun hv hi => ?_⟩
  rw [h, Option.map_some', hv, hi]

/-- Witness of the amended C6 on the retargeted one-triangle component. -/
theorem Build_incompatible_unchanged_witness :
    triangleMesh.vertexFormat.IsCompatiableTo formatBones = false ∧
    Build triangleRetargeted = some triangleRetargeted :=
  ⟨by decide, (@Build_incompatible_unchanged triangleRetargeted triangleMesh formatBones
    rfl rfl (by decide)).1⟩

/-! ## Lemmas: copies into slots -/

theorem getElem?_memcpyAt {buf : List Nat} {off : Nat} {data out : List Nat}
    (h : memcpyAt buf off data = some out) (x : Nat) :
    out[x]? = if x < off then buf[x]?
      else if x < off + data.length then data[x - off]? else buf[x]? := by
  obtain ⟨hle, rfl⟩ := memcpyAt_eq_some.1 h
  have hlt : (List.take off buf).length = off := by simp; omega
  by_cases h1 : x < off
  · rw [if_pos h1, List.append_assoc, List.getElem?_append_left (by omega),
      List.getElem?_take_of_lt h1]
  · rw [if_neg h1, List.append_assoc, List.getElem?_append_right (by omega), hlt]
    by_cases h2 : x < off + data.length
    · rw [if_pos h2, List.getElem?_append_left (by omega)]
    · rw [if_neg h2, List.getElem?_append_right (by omega), List.getElem?_drop]
      congr 1
      omega

theorem getElem?_slot (buf : List Nat) (j w t : Nat) :
    (slot buf j w)[t]? = if t < w then buf[j * w + t]? else none := by
  simp only [slot, List.getElem?_take, List.getElem?_drop]

theorem length_slot (buf : List Nat) (j w : Nat) (h : (j + 1) * w ≤ buf.length) :
    (slot buf j w).length = w := by
  have e : (j + 1) * w = j * w + w := by ring
  simp only [slot, List.length_take, List.length_drop]
  omega

theorem slot_memcpyAt_same {dst rec out : List Nat} {p w : Nat}
    (h : memcpyAt dst (p * w) rec = some out) (hrec : rec.length = w) :
    slot out p w = rec := by
  apply List.ext_getElem?
  intro t
  rw [getElem?_slot, getElem?_memcpyAt h]
  by_cases ht : t < w
  · rw [if_pos ht, if_neg (by omega), if_pos (by omega)]
    congr 1
    omega
  · rw [if_neg ht, List.getElem?_eq_none (by omega)]

theorem slot_memcpyAt_other {dst rec out : List Nat} {p q w : Nat}
    (h : memcpyAt dst (p * w) rec = some out) (hrec : rec.length = w) (hq : q ≠ p) :
    slot out q w = slot dst q w := by
  apply List.ext_getElem?
  intro t
  rw [getElem?_slot, getElem?_slot, getElem?_memcpyAt h]
  by_cases ht : t < w
  · rw [if_pos ht, if_pos ht]
    rcases Nat.lt_or_gt_of_ne hq with hlt | hgt
    · have : (q + 1) * w ≤ p * w := Nat.mul_le_mul_right _ hlt
      have e : (q + 1) * w = q * w + w := by ring
      rw [if_pos (by omega)]
    · have : (p + 1) * w ≤ q * w := Nat.mul_le_mul_right _ hgt
      have e : (p + 1) * w = p * w + w := by ring
      rw [if_neg (by omega), if_neg (by omega)]
  · rw [if_neg ht, if_neg ht]

theorem eq_of_slots (l1 l2 : List Nat) (n w : Nat) (h1 : l1.length = n * w)
    (h2 : l2.length = n * w) (h : ∀ q, q < n → slot l1 q w = slot l2 q w) : l1 = l2 := by
  apply List.ext_getElem?
  intro x
  by_cases hx : x < n * w
  · have hw : 0 < w := by
      rcases Nat.eq_zero_or_pos w with h0 | h0
      · rw [h0] at hx; omega
      · exact h0
    have hq : x / w < n := Nat.div_lt_of_lt_mul (by rw [Nat.mul_comm]; exact hx)
    have ht : x % w < w := Nat.mod_lt _ hw
    have hxe : x / w * w + x % w = x := by rw [Nat.mul_comm]; exact Nat.div_add_mod x w
    have e1 := getElem?_slot l1 (x / w) w (x % w)
    have e2 := getElem?_slot l2 (x / w) w (x % w)
    rw [if_pos ht, hxe] at e1 e2
    rw [← e1, ← e2, h _ hq]
  · rw [List.getElem?_eq_none (by omega), List.getElem?_eq_none (by omega)]

/-! ## Lemmas: the scatter loop -/

theorem readBytes_eq_some {buf : List Nat} {off n : Nat} {out : List Nat} :
    readBytes buf off n = some out ↔ off + n ≤ buf.length ∧ out = (buf.drop off).take n := by
  unfold readBytes
  split
  · simp [*, eq_comm]
  · simp [*]

theorem scatterVertices_spec (perm : List Nat) (w V : Nat) (src : List Nat)
    (hVw : V * w < U32) (hsrc : src.length = V * w)
    (hinj : ∀ j1 j2 p : Nat, perm[j1]? = some p → perm[j2]? = some p → j1 = j2)
    (n i : Nat) (dst out : List Nat) (hin : i + n ≤ V) (hdst : dst.length = V * w)
    (h : scatterVertices perm w V src n i dst = some out) :
    out.length = V * w ∧
    (∀ j p : Nat, i ≤ j → j < i + n → perm[j]? = some p → slot out p w = slot src j w) ∧
    (∀ q : Nat, (∀ j : Nat, i ≤ j → j < i + n → perm[j]? ≠ some q) →
      slot out q w = slot dst q w) := by
  induction n generalizing i dst with
  | zero =>
    simp only [scatterVertices, Option.some.injEq] at h
    subst h
    exact ⟨hdst, fun j p h1 h2 => by omega, fun q _ => rfl⟩
  | succ n ih =>
    simp only [scatterVertices] at h
    cases hp : perm[i]? with
    | none => simp [hp] at h
    | some p =>
      simp only [hp] at h
      by_cases hpV : p < V
      · rw [if_pos hpV] at h
        simp only [Option.bind_eq_some] at h
        obtain ⟨rec, hrec, dst1, hdst1, hrest⟩ := h
        have hiw : i * w ≤ V * w := Nat.mul_le_mul_right _ (by omega)
        have hpw : p * w ≤ V * w := Nat.mul_le_mul_right _ (by omega)
        have hi1 : (i + 1) * w ≤ V * w := Nat.mul_le_mul_right _ (by omega)
        rw [Nat.mod_eq_of_lt (by omega)] at hrec hdst1
        obtain ⟨hrle, hreq⟩ := readBytes_eq_some.1 hrec
        have hrs : rec = slot src i w := hreq
        have hrlen : rec.length = w := by
          rw [hrs]
          exact length_slot src i w (by rw [hsrc]; exact hi1)
        have hlen1 : dst1.length = V * w := by rw [length_memcpyAt hdst1, hdst]
        obtain ⟨hol, hhit, hmiss⟩ := ih (i + 1) dst1 (by omega) hlen1 hrest
        refine ⟨hol, ?_, ?_⟩
        · intro j q hj1 hj2 hjq
          by_cases hji : j = i
          · subst hji
            rw [hp] at hjq
            cases hjq
            rw [hmiss p (fun j' h1 _ hj' => by
              have := hinj j' j p hj' hp
              omega), slot_memcpyAt_same hdst1 hrlen, hrs]
          · exact hhit j q (by omega) (by omega) hjq
        · intro q hq
          have hqp : q ≠ p := fun e => hq i (Nat.le_refl _) (by omega) (by rw [hp, e])
          rw [hmiss q (fun j h1 h2 => hq j (by omega) (by omega)),
            slot_memcpyAt_other hdst1 hrlen hqp]
      · rw [if_neg hpV] at h
        cases h

theorem scatterVertices_some (perm : List Nat) (w V : Nat) (src : List Nat)
    (hVw : V * w < U32) (hsrc : src.length = V * w)
    (n i : Nat) (dst : List Nat) (hin : i + n ≤ V) (hdst : dst.length = V * w)
    (hperm : ∀ j : Nat, i ≤ j → j < i + n → ∃ p, perm[j]? = some p ∧ p < V) :
    ∃ out, scatterVertices perm w V src n i dst = some out := by
  induction n generalizing i dst with
  | zero => exact ⟨dst, rfl⟩
  | succ n ih =>
    obtain ⟨p, hp, hpV⟩ := hperm i (Nat.le_refl _) (by omega)
    have hiw : i * w ≤ V * w := Nat.mul_le_mul_right _ (by omega)
    have hpw : p * w ≤ V * w := Nat.mul_le_mul_right _ (by omega)
    have hi1 : (i + 1) * w ≤ V * w := Nat.mul_le_mul_right _ (by omega)
    have hp1 : (p + 1) * w ≤ V * w := Nat.mul_le_mul_right _ (by omega)
    have e1 : (i + 1) * w = i * w + w := by ring
    have e2 : (p + 1) * w = p * w + w := by ring
    have hrec : readBytes src (i * w) w = some (slot src i w) :=
      readBytes_eq_some.2 ⟨by omega, rfl⟩
    have hrlen : (slot src i w).length = w := length_slot src i w (by rw [hsrc]; exact hi1)
    have hfit : p * w + (slot src i w).length ≤ dst.length := by rw [hrlen, hdst]; omega
    cases hm : memcpyAt dst (p * w) (slot src i w) with
    | none =>
      exfalso
      unfold memcpyAt at hm
      rw [if_pos hfit] at hm
      cases hm
    | some dst1 =>
      have hlen1 : dst1.length = V * w := by rw [length_memcpyAt hm, hdst]
      obtain ⟨out, hout⟩ := ih (i + 1) dst1 (by omega) hlen1
        (fun j h1 h2 => hperm j (by omega) (by omega))
      refine ⟨out, ?_⟩
      simp only [scatterVertices, hp, if_pos hpV, Nat.mod_eq_of_lt (show i * w < U32 by omega),
        Nat.mod_eq_of_lt (show p * w < U32 by omega), hrec, Option.some_bind, hm, hout]

/-! ## Lemmas: permutations as lists -/

theorem lt_length_of_getElem? {l : List Nat} {j p : Nat} (h : l[j]? = some p) :
    j < l.length := by
  obtain ⟨hj, -⟩ := List.getElem?_eq_some.1 h
  exact hj

theorem isPermutation_inj {perm : List Nat} {n : Nat} (h : IsPermutation perm n)
    (j1 j2 p : Nat) (h1 : perm[j1]? = some p) (h2 : perm[j2]? = some p) : j1 = j2 :=
  List.getElem?_inj (lt_length_of_getElem? h1) h.2.2 (h1.trans h2.symm)

theorem isPermutation_get {perm : List Nat} {n : Nat} (h : IsPermutation perm n)
    (j : Nat) (hj : j < n) : ∃ p, perm[j]? = some p ∧ p < n := by
  have hj2 : j < perm.length := by rw [h.1]; exact hj
  exact ⟨perm[j], List.getElem?_eq_getElem hj2, h.2.1 _ (List.getElem_mem hj2)⟩

theorem isPermutation_surj {perm : List Nat} {n : Nat} (h : IsPermutation perm n)
    (p : Nat) (hp : p < n) : ∃ j, j < n ∧ perm[j]? = some p := by
  have hsub : perm ⊆ List.range n := fun v hv => List.mem_range.2 (h.2.1 v hv)
  have hperm : perm.Perm (List.range n) :=
    (List.subperm_of_subset h.2.2 hsub).perm_of_length_le (by rw [List.length_range, h.1])
  have hmem : p ∈ perm := hperm.mem_iff.2 (List.mem_range.2 hp)
  obtain ⟨j, hj⟩ := List.getElem?_of_mem hmem
  exact ⟨j, by rw [← h.1]; exact lt_length_of_getElem? hj, hj⟩

theorem isInverseOf_get {inv perm : List Nat} {n : Nat} (hp : IsPermutation perm n)
    (h : IsInverseOf inv perm n) (j : Nat) (hj : j < n) :
    ∃ i, inv[j]? = some i ∧ i < n ∧ perm[i]? = some j := by
  obtain ⟨i, hi, hij⟩ := isPermutation_surj hp j hj
  obtain ⟨p, hp1, hp2⟩ := h.2 i hi
  rw [hij] at hp1
  cases hp1
  exact ⟨i, hp2, hi, hij⟩

theorem isInverseOf_inj {inv perm : List Nat} {n : Nat} (hp : IsPermutation perm n)
    (h : IsInverseOf inv perm n) (j1 j2 i : Nat) (h1 : inv[j1]? = some i)
    (h2 : inv[j2]? = some i) : j1 = j2 := by
  have hj1 : j1 < n := by rw [← h.1]; exact lt_length_of_getElem? h1
  have hj2 : j2 < n := by rw [← h.1]; exact lt_length_of_getElem? h2
  obtain ⟨i1, e1, -, q1⟩ := isInverseOf_get hp h j1 hj1
  obtain ⟨i2, e2, -, q2⟩ := isInverseOf_get hp h j2 hj2
  rw [h1] at e1
  rw [h2] at e2
  cases e1
  cases e2
  rw [q1] at q2
  cases q2
  rfl

/-! ## Lemmas: BuildProgressiveMeshData -/

theorem BuildProgressiveMeshData_some {b : CollapseBackend} {s s' : StaticMeshComponent}
    {fmt : VertexFormat} (hvalid : IsProgressiveMeshValid s = false)
    (hf : s.m_pRequiredVertexFormat = some fmt)
    (h : BuildProgressiveMeshData b s = some s') :
    (fmt.GetStride * s.m_currentVertexCount) % U32 = s.m_vertexBuffer.length ∧
    ∃ pvb pib,
      reorderVertexBuffer b.permutation fmt.GetStride s.m_currentVertexCount
        s.m_vertexBuffer s.m_progressiveMeshVertexBuffer = some pvb ∧
      rewriteIndices (useU16Index s.m_currentVertexCount) b.permutation
        s.m_currentVertexCount s.m_indexBuffer ((s.m_currentPolygonCount * 3) % U32) 0
        (resize s.m_progressiveMeshIndexBuffer s.m_indexBuffer.length) = some pib ∧
      s' = { s with
        m_permutation := b.permutation
        m_map := b.map
        m_originVertexCount := s.m_currentVertexCount
        m_progressiveMeshTargetVertexCount := s.m_currentVertexCount
        m_originPolygonCount := s.m_currentPolygonCount
        m_progressiveMeshVertexBuffer := pvb
        m_progressiveMeshIndexBuffer := pib
        m_progressiveMeshVertexBufferHandle := b.vertexBufferHandle
        m_progressiveMeshIndexBufferHandle := b.indexBufferHandle } := by
  unfold BuildProgressiveMeshData at h
  rw [hvalid, hf] at h
  cases hm : s.m_pMeshData with
  | none => simp [hm] at h
  | some mesh =>
    simp only [hm, Bool.false_eq_true, if_false] at h
    split at h
    · cases h
    · split at h
      · cases h
      · rename_i hne hlen
        simp only [Option.bind_eq_some, BuildIndexBuffer, SubmitBuffer] at h
        obtain ⟨pvb, hpvb, pib, hpib, vh, hvh, ih, hih, hs⟩ := h
        refine ⟨by simpa using hlen, pvb, pib, hpvb, hpib, ?_⟩
        split at hvh
        · cases hvh
        · split at hih
          · cases hih
          · cases hvh
            cases hih
            cases hs
            rw [hf]

/-! ## Vertex reorder (C7, C9) and idempotence (C10) -/

/-- C7: `BuildProgressiveMeshData` scatters vertices by the permutation. Given a
permutation that is a bijection on `[0, vertexCount)`, the scatter loop runs to
completion; for every original vertex index `i` the stride-sized record at slot
`permutation[i]` of the progressive-LOD vertex buffer equals the record at slot `i` of
the packed vertex buffer, the two buffers have the same length, and the packed buffer
is left as it was. -/
theorem BuildProgressiveMeshData_scatters (b : CollapseBackend)
    (s : StaticMeshComponent) (fmt : VertexFormat)
    (hlen : s.m_vertexBuffer.length = s.m_currentVertexCount * fmt.GetStride)
    (hsize : s.m_currentVertexCount * fmt.GetStride < U32)
    (hperm : IsPermutation b.permutation s.m_currentVertexCount) :
    ∃ pvb,
      reorderVertexBuffer b.permutation fmt.GetStride s.m_currentVertexCount
        s.m_vertexBuffer s.m_progressiveMeshVertexBuffer = some pvb ∧
      pvb.length = s.m_vertexBuffer.length ∧
      (∀ i p : Nat, i < s.m_currentVertexCount → b.permutation[i]? = some p →
        slot pvb p fmt.GetStride = slot s.m_vertexBuffer i fmt.GetStride) ∧
      ∀ s', IsProgressiveMeshValid s = false → s.m_pRequiredVertexFormat = some fmt →
        BuildProgressiveMeshData b s = some s' →
        s'.m_progressiveMeshVertexBuffer = pvb ∧ s'.m_vertexBuffer = s.m_vertexBuffer := by
  obtain ⟨pvb, hpvb⟩ := scatterVertices_some b.permutation fmt.GetStride
    s.m_currentVertexCount s.m_vertexBuffer hsize hlen s.m_currentVertexCount 0
    (resize s.m_progressiveMeshVertexBuffer s.m_vertexBuffer.length) (by omega)
    (by rw [length_resize, hlen]) (fun j _ hj => isPermutation_get hperm j (by omega))
  obtain ⟨hl, hhit, -⟩ := scatterVertices_spec b.permutation fmt.GetStride
    s.m_currentVertexCount s.m_vertexBuffer hsize hlen (isPermutation_inj hperm)
    s.m_currentVertexCount 0
    (resize s.m_progressiveMeshVertexBuffer s.m_vertexBuffer.length) pvb (by omega)
    (by rw [length_resize, hlen]) hpvb
  refine ⟨pvb, hpvb, by rw [hl, hlen],
    fun i p hi hp => hhit i p (Nat.zero_le _) (by omega) hp, ?_⟩
  intro s' hvalid hf h
  obtain ⟨-, pvb2, pib, hpvb2, -, hs⟩ := BuildProgressiveMeshData_some hvalid hf h
  have e : pvb2 = pvb := by
    have h2 : reorderVertexBuffer b.permutation fmt.GetStride s.m_currentVertexCount
        s.m_vertexBuffer s.m_progressiveMeshVertexBuffer = some pvb := hpvb
    rw [hpvb2] at h2
    exact Option.some.inj h2
  rw [hs, e]
  exact ⟨rfl, rfl⟩

theorem BuildProgressiveMeshData_triangle :
    BuildProgressiveMeshData triangleBackend triangleBuilt = some triangleProgressive :=
  rfl

/-- Witness of C7: the one-triangle component and the permutation `[2, 0, 1]`. -/
theorem BuildProgressiveMeshData_scatters_witness :
    IsPermutation triangleBackend.permutation triangleBuilt.m_currentVertexCount ∧
    ∃ pvb,
      reorderVertexBuffer triangleBackend.permutation formatPN.GetStride
        triangleBuilt.m_currentVertexCount triangleBuilt.m_vertexBuffer
        triangleBuilt.m_progressiveMeshVertexBuffer = some pvb ∧
      pvb.length = triangleBuilt.m_vertexBuffer.length ∧
      (∀ i p : Nat, i < triangleBuilt.m_currentVertexCount →
        triangleBackend.permutation[i]? = some p →
        slot pvb p formatPN.GetStride = slot triangleBuilt.m_vertexBuffer i formatPN.GetStride) ∧
      ∀ s', IsProgressiveMeshValid triangleBuilt = false →
        triangleBuilt.m_pRequiredVertexFormat = some formatPN →
        BuildProgressiveMeshData triangleBackend triangleBuilt = some s' →
        s'.m_progressiveMeshVertexBuffer = pvb ∧
        s'.m_vertexBuffer = triangleBuilt.m_vertexBuffer :=
  have hp : IsPermutation triangleBackend.permutation triangleBuilt.m_currentVertexCount :=
    ⟨rfl, by decide, by decide⟩
  ⟨hp, BuildProgressiveMeshData_scatters triangleBackend triangleBuilt formatPN
    (by decide) (by decide) hp⟩

/-- C9: round trip of the reorder. For every packed vertex buffer and every permutation
that is a bijection on `[0, vertexCount)`, reordering the buffer by the permutation as
`BuildProgressiveMeshData` does, and then reordering the result by the inverse
permutation, reproduces the original vertex buffer byte for byte; both reorders run to
completion, whatever the destination buffers held before. -/
theorem reorderVertexBuffer_roundtrip (perm inv : List Nat) (vertexCount stride : Nat)
    (vertexBuffer old1 old2 : List Nat)
    (hlen : vertexBuffer.length = vertexCount * stride)
    (hsize : vertexCount * stride < U32)
    (hperm : IsPermutation perm vertexCount) (hinv : IsInverseOf inv perm vertexCount) :
    ∃ reordered,
      reorderVertexBuffer perm stride vertexCount vertexBuffer old1 = some reordered ∧
      reorderVertexBuffer inv stride vertexCount reordered old2 = some vertexBuffer := by
  obtain ⟨b1, hb1⟩ := scatterVertices_some perm stride vertexCount vertexBuffer hsize hlen
    vertexCount 0 (resize old1 vertexBuffer.length) (by omega) (by rw [length_resize, hlen])
    (fun j _ hj => isPermutation_get hperm j (by omega))
  obtain ⟨hl1, hhit1, -⟩ := scatterVertices_spec perm stride vertexCount vertexBuffer hsize
    hlen (isPermutation_inj hperm) vertexCount 0 (resize old1 vertexBuffer.length) b1 (by omega)
    (by rw [length_resize, hlen]) hb1
  obtain ⟨b2, hb2⟩ := scatterVertices_some inv stride vertexCount b1 hsize hl1
    vertexCount 0 (resize old2 b1.length) (by omega) (by rw [length_resize, hl1])
    (fun j _ hj => by
      obtain ⟨i, hi, hiV, -⟩ := isInverseOf_get hperm hinv j (by omega)
      exact ⟨i, hi, hiV⟩)
  obtain ⟨hl2, hhit2, -⟩ := scatterVertices_spec inv stride vertexCount b1 hsize
    hl1 (isInverseOf_inj hperm hinv) vertexCount 0 (resize old2 b1.length) b2 (by omega)
    (by rw [length_resize, hl1]) hb2
  have hb : b2 = vertexBuffer := by
    apply eq_of_slots b2 vertexBuffer vertexCount stride hl2 hlen
    intro q hq
    obtain ⟨p, hp1, hp2⟩ := hinv.2 q hq
    have hpV : p < vertexCount := by rw [← hinv.1]; exact lt_length_of_getElem? hp2
    rw [hhit2 p q (Nat.zero_le _) (by omega) hp2, hhit1 q p (Nat.zero_le _) (by omega) hp1]
  rw [hb] at hb2
  exact ⟨b1, hb1, hb2⟩

/-- Witness of C9: three 2-byte records, the permutation `[2, 0, 1]` and its inverse
`[1, 2, 0]`. -/
theorem reorderVertexBuffer_roundtrip_witness :
    ∃ reordered,
      reorderVertexBuffer [2, 0, 1] 2 3 [10, 11, 20, 21, 30, 31] [] = some reordered ∧
      reorderVertexBuffer [1, 2, 0] 2 3 reordered [9, 9] = some [10, 11, 20, 21, 30, 31] :=
  reorderVertexBuffer_roundtrip [2, 0, 1] [1, 2, 0] 3 2 [10, 11, 20, 21, 30, 31] [] [9, 9]
    rfl (by decide) ⟨rfl, by decide, by decide⟩ ⟨rfl, by decide⟩

/-- C10: `BuildProgressiveMeshData` is idempotent. When a valid collapse hierarchy
already exists (`IsProgressiveMeshValid` holds) the call changes no field of the
component, so calling it twice leaves the same state as calling it once. -/
theorem BuildProgressiveMeshData_idempotent (b b2 : CollapseBackend)
    (s : StaticMeshComponent) (hvalid : IsProgressiveMeshValid s = true) :
    BuildProgressiveMeshData b s = some s ∧
    (BuildProgressiveMeshData b s).bind (BuildProgressiveMeshData b2)
      = BuildProgressiveMeshData b s := by
  have h : ∀ c, BuildProgressiveMeshData c s = some s := by
    intro c
    simp [BuildProgressiveMeshData, hvalid]
  rw [h b, Option.some_bind, h b2]
  exact ⟨rfl, rfl⟩

/-- Witness of C10 on the one-triangle component with its hierarchy built. -/
theorem BuildProgressiveMeshData_idempotent_witness :
    IsProgressiveMeshValid triangleProgressive = true ∧
    BuildProgressiveMeshData triangleBackend triangleProgressive = some triangleProgressive ∧
    (BuildProgressiveMeshData triangleBackend triangleProgressive).bind
        (BuildProgressiveMeshData triangleBackend)
      = BuildProgressiveMeshData triangleBackend triangleProgressive :=
  ⟨by decide, BuildProgressiveMeshData_idempotent triangleBackend triangleBackend
    triangleProgressive (by decide)⟩

/-! ## Index rewrite (C8) -/

theorem leValue_encodeIndex (u16 : Bool) (p : Nat) (h16 : u16 = true → p < 65536)
    (h32 : p < U32) : leValue (encodeIndex u16 p) = p := by
  cases u16 with
  | true =>
    have hp := h16 rfl
    simp only [encodeIndex, if_true, le16, leValue, Nat.mod_eq_of_lt hp]
    omega
  | false =>
    rw [U32_eq] at h32
    simp only [encodeIndex, Bool.false_eq_true, if_false, le32, leValue, U32_eq,
      Nat.mod_eq_of_lt h32]
    omega

theorem rewriteIndices_spec (u16 : Bool) (perm : List Nat) (V : Nat) (src : List Nat)
    (n k : Nat) (dst out : List Nat)
    (h : rewriteIndices u16 perm V src n k dst = some out) :
    out.length = dst.length ∧
    (∀ j : Nat, k ≤ j → j < k + n → ∃ v p, readIndex u16 src j = some v ∧
      perm[v]? = some p ∧ p < V ∧
      slot out j (indexTypeSize u16) = encodeIndex u16 p ∧
      (j + 1) * indexTypeSize u16 ≤ out.length) ∧
    (∀ q : Nat, q < k → slot out q (indexTypeSize u16) = slot dst q (indexTypeSize u16)) := by
  induction n generalizing k dst with
  | zero =>
    simp only [rewriteIndices, Option.some.injEq] at h
    subst h
    exact ⟨rfl, fun j h1 h2 => by omega, fun q _ => rfl⟩
  | succ n ih =>
    simp only [rewriteIndices, Option.bind_eq_some] at h
    obtain ⟨v, hv, h⟩ := h
    cases hp : perm[v]? with
    | none => simp [hp] at h
    | some p =>
      simp only [hp] at h
      by_cases hpV : p < V
      · rw [if_pos hpV] at h
        simp only [Option.bind_eq_some] at h
        obtain ⟨dst1, hdst1, hrest⟩ := h
        obtain ⟨hol, hhit, hkeep⟩ := ih (k + 1) dst1 hrest
        have hl1 : dst1.length = dst.length := length_memcpyAt hdst1
        have henc := length_encodeIndex u16 p
        obtain ⟨hfit, -⟩ := memcpyAt_eq_some.1 hdst1
        have e : (k + 1) * indexTypeSize u16 = k * indexTypeSize u16 + indexTypeSize u16 := by
          ring
        refine ⟨by rw [hol, hl1], ?_, ?_⟩
        · intro j hj1 hj2
          by_cases hjk : j = k
          · subst hjk
            refine ⟨v, p, hv, hp, hpV, ?_, by rw [hol, hl1]; omega⟩
            rw [hkeep j (by omega), slot_memcpyAt_same hdst1 henc]
          · exact hhit j (by omega) (by omega)
        · intro q hq
          rw [hkeep q (by omega), slot_memcpyAt_other hdst1 henc (by omega)]
      · rw [if_neg hpV] at h
        cases h

theorem rewriteIndices_some (u16 : Bool) (perm : List Nat) (V : Nat) (src : List Nat)
    (n k : Nat) (dst : List Nat) (hdst : dst.length = src.length)
    (hidx : ∀ j : Nat, k ≤ j → j < k + n → ∃ v p, readIndex u16 src j = some v ∧
      perm[v]? = some p ∧ p < V) :
    ∃ out, rewriteIndices u16 perm V src n k dst = some out := by
  induction n generalizing k dst with
  | zero => exact ⟨dst, rfl⟩
  | succ n ih =>
    obtain ⟨v, p, hv, hp, hpV⟩ := hidx k (Nat.le_refl _) (by omega)
    have hin : (k + 1) * indexTypeSize u16 ≤ src.length := by
      unfold readIndex at hv
      split at hv
      · assumption
      · cases hv
    have e : (k + 1) * indexTypeSize u16 = k * indexTypeSize u16 + indexTypeSize u16 := by
      ring
    have hfit : k * indexTypeSize u16 + (encodeIndex u16 p).length ≤ dst.length := by
      rw [length_encodeIndex, hdst]
      omega
    cases hm : memcpyAt dst (k * indexTypeSize u16) (encodeIndex u16 p) with
    | none =>
      exfalso
      unfold memcpyAt at hm
      rw [if_pos hfit] at hm
      cases hm
    | some dst1 =>
      obtain ⟨out, hout⟩ := ih (k + 1) dst1 (by rw [length_memcpyAt hm, hdst])
        (fun j h1 h2 => hidx j (by omega) (by omega))
      refine ⟨out, ?_⟩
      simp only [rewriteIndices, hv, Option.some_bind, hp, if_pos hpV, hm, hout]

/-- C8: `BuildProgressiveMeshData` rewrites indices through the permutation. For every
position `k < 3 x polygonCount` the progressive-LOD index at position `k` equals
`permutation[v]`, where `v` is the packed index at position `k`, so polygon order and
the order of the three indices of each triangle are kept; this holds at the width chosen
from the vertex count, 16-bit or 32-bit, and the two index buffers have the same length.
The rewrite loop runs to completion when every packed index has a permutation entry
below the vertex count. -/
theorem BuildProgressiveMeshData_rewrites_indices (b : CollapseBackend)
    (s : StaticMeshComponent) (fmt : VertexFormat)
    (hV : s.m_currentVertexCount < U32) (hP : s.m_currentPolygonCount * 3 < U32) :
    (∀ s', IsProgressiveMeshValid s = false → s.m_pRequiredVertexFormat = some fmt →
      BuildProgressiveMeshData b s = some s' →
      s'.m_progressiveMeshIndexBuffer.length = s'.m_indexBuffer.length ∧
      s'.m_indexBuffer = s.m_indexBuffer ∧
      ∀ k : Nat, k < 3 * s.m_currentPolygonCount → ∃ v p,
        readIndex (useU16Index s.m_currentVertexCount) s'.m_indexBuffer k = some v ∧
        b.permutation[v]? = some p ∧
        readIndex (useU16Index s.m_currentVertexCount) s'.m_progressiveMeshIndexBuffer k
          = some p) ∧
    ((∀ k : Nat, k < 3 * s.m_currentPolygonCount → ∃ v p,
        readIndex (useU16Index s.m_currentVertexCount) s.m_indexBuffer k = some v ∧
        b.permutation[v]? = some p ∧ p < s.m_currentVertexCount) →
      ∃ pib, BuildIndexBuffer (useU16Index s.m_currentVertexCount)
        { s with m_permutation := b.permutation } = some pib) := by
  constructor
  · intro s' hvalid hf h
    obtain ⟨-, pvb, pib, -, hpib, hs⟩ := BuildProgressiveMeshData_some hvalid hf h
    rw [Nat.mod_eq_of_lt hP] at hpib
    obtain ⟨hl, hhit, -⟩ := rewriteIndices_spec _ _ _ _ _ _ _ _ hpib
    have e1 : s'.m_progressiveMeshIndexBuffer = pib := by rw [hs]
    have e2 : s'.m_indexBuffer = s.m_indexBuffer := by rw [hs]
    rw [e1, e2]
    refine ⟨by rw [hl, length_resize], rfl, ?_⟩
    intro k hk
    obtain ⟨v, p, hv, hp, hpV, hslot, hin⟩ := hhit k (Nat.zero_le _) (by omega)
    refine ⟨v, p, hv, hp, ?_⟩
    unfold readIndex
    rw [if_pos hin, hslot, leValue_encodeIndex _ _ (fun hu => ?_) (by omega)]
    have := (useU16Index_iff _).1 hu
    omega
  · intro hidx
    unfold BuildIndexBuffer
    rw [Nat.mod_eq_of_lt hP]
    exact rewriteIndices_some _ _ _ _ _ _ _ (by simp)
      (fun j _ hj => hidx j (by omega))

/-- Witness of C8: the one-triangle component and the permutation `[2, 0, 1]`. -/
theorem BuildProgressiveMeshData_rewrites_indices_witness :
    triangleBuilt.m_currentVertexCount < U32 ∧
    triangleBuilt.m_currentPolygonCount * 3 < U32 ∧
    BuildProgressiveMeshData triangleBackend triangleBuilt = some triangleProgressive ∧
    triangleProgressive.m_progressiveMeshIndexBuffer.length
      = triangleProgressive.m_indexBuffer.length ∧
    triangleProgressive.m_indexBuffer = triangleBuilt.m_indexBuffer ∧
    ∀ k : Nat, k < 3 * triangleBuilt.m_currentPolygonCount → ∃ v p,
      readIndex (useU16Index triangleBuilt.m_currentVertexCount)
        triangleProgressive.m_indexBuffer k = some v ∧
      triangleBackend.permutation[v]? = some p ∧
      readIndex (useU16Index triangleBuilt.m_currentVertexCount)
        triangleProgressive.m_progressiveMeshIndexBuffer k = some p :=
  ⟨by decide, by decide, BuildProgressiveMeshData_triangle,
    (BuildProgressiveMeshData_rewrites_indices triangleBackend triangleBuilt formatPN
      (by decide) (by decide)).1 triangleProgressive rfl rfl
      BuildProgressiveMeshData_triangle⟩

/-! ## Lemmas: the collapse chase -/

theorem collapseIndex_le (u16 : Bool) (map : List Nat) (T : Nat) (fuel i r : Nat)
    (h : collapseIndex u16 map T fuel i = some r) : r ≤ T := by
  induction fuel generalizing i with
  | zero =>
    simp only [collapseIndex] at h
    split at h
    · cases h
    · cases h; omega
  | succ fuel ih =>
    simp only [collapseIndex] at h
    split at h
    · simp only [Option.bind_eq_some] at h
      obtain ⟨m, -, hm⟩ := h
      exact ih _ hm
    · cases h; omega

theorem collapseIndex_of_le (u16 : Bool) (map : List Nat) (T : Nat) (fuel i : Nat)
    (h : i ≤ T) : collapseIndex u16 map T fuel i = some i := by
  cases fuel <;> simp only [collapseIndex] <;> rw [if_neg (by omega)]

theorem collapseIndex_succ (u16 : Bool) (map : List Nat) (T : Nat) (fuel i r : Nat)
    (h : collapseIndex u16 map T fuel i = some r) :
    collapseIndex u16 map T (fuel + 1) i = some r := by
  induction fuel generalizing i with
  | zero =>
    by_cases hi : i > T
    · simp [collapseIndex, hi] at h
    · rw [collapseIndex_of_le u16 map T _ i (by omega)] at h ⊢
      exact h
  | succ fuel ih =>
    by_cases hi : i > T
    · simp only [collapseIndex, if_pos hi, Option.bind_eq_some] at h
      obtain ⟨m, hm, hrest⟩ := h
      have := ih _ hrest
      rw [collapseIndex, if_pos hi, hm]
      exact this
    · rw [collapseIndex_of_le u16 map T _ i (by omega)] at h ⊢
      exact h

theorem collapseIndex_mono (u16 : Bool) (map : List Nat) (T : Nat) (fuel fuel2 i r : Nat)
    (hle : fuel ≤ fuel2) (h : collapseIndex u16 map T fuel i = some r) :
    collapseIndex u16 map T fuel2 i = some r := by
  induction hle with
  | refl => exact h
  | step _ ih => exact collapseIndex_succ u16 map T _ i r ih

theorem collapseIndex_chain (u16 : Bool) (map : List Nat) (T : Nat) (hfit : MapFits u16 map)
    (fuel i r : Nat) (h : collapseIndex u16 map T fuel i = some r) :
    ∃ n, n ≤ fuel ∧ mapChain map n i = some r ∧
      ∀ m : Nat, m < n → ∃ w, mapChain map m i = some w ∧ T < w := by
  induction fuel generalizing i with
  | zero =>
    simp only [collapseIndex] at h
    split at h
    · cases h
    · cases h
      exact ⟨0, Nat.le_refl _, rfl, fun m hm => by omega⟩
  | succ fuel ih =>
    by_cases hi : i > T
    · simp only [collapseIndex, if_pos hi, Option.bind_eq_some] at h
      obtain ⟨m, hm, hrest⟩ := h
      rw [hfit m (List.getElem?_mem hm)] at hrest
      obtain ⟨n, hn, hch, hpre⟩ := ih m hrest
      refine ⟨n + 1, by omega, by simp only [mapChain, hm, Option.some_bind, hch], ?_⟩
      intro j hj
      cases j with
      | zero => exact ⟨i, rfl, hi⟩
      | succ j =>
        obtain ⟨w, hw1, hw2⟩ := hpre j (by omega)
        exact ⟨w, by simp only [mapChain, hm, Option.some_bind, hw1], hw2⟩
    · rw [collapseIndex_of_le u16 map T _ i (by omega)] at h
      cases h
      exact ⟨0, Nat.zero_le _, rfl, fun m hm => by omega⟩

theorem collapseIndex_some_of_chain (u16 : Bool) (map : List Nat) (T : Nat)
    (hfit : MapFits u16 map) (k i z fuel : Nat) (hch : mapChain map k i = some z)
    (hz : z ≤ T) (hk : k ≤ fuel) : ∃ r, collapseIndex u16 map T fuel i = some r := by
  induction k generalizing i fuel with
  | zero =>
    simp only [mapChain, Option.some.injEq] at hch
    subst hch
    exact ⟨i, collapseIndex_of_le u16 map T fuel i hz⟩
  | succ k ih =>
    by_cases hi : i > T
    · simp only [mapChain, Option.bind_eq_some] at hch
      obtain ⟨m, hm, hrest⟩ := hch
      cases fuel with
      | zero => omega
      | succ fuel =>
        obtain ⟨r, hr⟩ := ih m fuel hrest (by omega)
        refine ⟨r, ?_⟩
        rw [collapseIndex, if_pos hi, hm, Option.some_bind, hfit m (List.getElem?_mem hm)]
        exact hr
    · exact ⟨i, collapseIndex_of_le u16 map T fuel i (by omega)⟩

theorem collapseIndex_range (u16 : Bool) (map : List Nat) (T : Nat) (fuel i r : Nat)
    (h : collapseIndex u16 map T fuel i = some r) :
    r = i ∨ ∃ m ∈ map, r = toIndexType u16 m := by
  induction fuel generalizing i with
  | zero =>
    simp only [collapseIndex] at h
    split at h
    · cases h
    · cases h; exact Or.inl rfl
  | succ fuel ih =>
    by_cases hi : i > T
    · simp only [collapseIndex, if_pos hi, Option.bind_eq_some] at h
      obtain ⟨m, hm, hrest⟩ := h
      rcases ih _ hrest with h1 | h1
      · exact Or.inr ⟨m, List.getElem?_mem hm, h1⟩
      · exact Or.inr h1
    · rw [collapseIndex_of_le u16 map T _ i (by omega)] at h
      cases h
      exact Or.inl rfl

theorem collapseIndex_compose (u16 : Bool) (map : List Nat) (T1 T2 : Nat) (hT : T2 ≤ T1)
    (fuel x r1 r2 : Nat) (h1 : collapseIndex u16 map T1 fuel x = some r1)
    (h2 : collapseIndex u16 map T2 fuel x = some r2) :
    collapseIndex u16 map T2 fuel r1 = some r2 := by
  induction fuel generalizing x with
  | zero =>
    simp only [collapseIndex] at h1
    split at h1
    · cases h1
    · cases h1; exact h2
  | succ fuel ih =>
    by_cases hx : x > T1
    · have hx2 : x > T2 := by omega
      simp only [collapseIndex, if_pos hx, Option.bind_eq_some] at h1
      simp only [collapseIndex, if_pos hx2, Option.bind_eq_some] at h2
      obtain ⟨m, hm, hr1⟩ := h1
      obtain ⟨m2, hm2, hr2⟩ := h2
      rw [hm] at hm2
      cases hm2
      exact collapseIndex_succ u16 map T2 fuel r1 r2 (ih _ hr1 hr2)
    · rw [collapseIndex_of_le u16 map T1 _ x (by omega)] at h1
      cases h1
      exact h2

/-! ## Lemmas: triangles of an index buffer -/

theorem slot_slot (buf : List Nat) (j ii w : Nat) (hii : ii < 3) :
    slot (slot buf j (3 * w)) ii w = slot buf (3 * j + ii) w := by
  apply List.ext_getElem?
  intro t
  rw [getElem?_slot, getElem?_slot, getElem?_slot]
  by_cases ht : t < w
  · have h3 : ii * w + t < 3 * w := by
      have : ii * w ≤ 2 * w := Nat.mul_le_mul_right _ (by omega)
      omega
    rw [if_pos ht, if_pos ht, if_pos h3]
    congr 1
    ring
  · rw [if_neg ht, if_neg ht]

theorem slot_element_congr (buf buf2 : List Nat) (j ii w : Nat) (hii : ii < 3)
    (h : slot buf j (3 * w) = slot buf2 j (3 * w)) :
    slot buf (3 * j + ii) w = slot buf2 (3 * j + ii) w := by
  rw [← slot_slot buf j ii w hii, ← slot_slot buf2 j ii w hii, h]

theorem readIndex_congr (u16 : Bool) (buf buf2 : List Nat) (k : Nat)
    (hlen : buf2.length = buf.length)
    (h : slot buf2 k (indexTypeSize u16) = slot buf k (indexTypeSize u16)) :
    readIndex u16 buf2 k = readIndex u16 buf k := by
  unfold readIndex
  rw [hlen, h]

theorem readIndex_eq_some {u16 : Bool} {buf : List Nat} {k v : Nat} :
    readIndex u16 buf k = some v ↔
      (k + 1) * indexTypeSize u16 ≤ buf.length ∧ v = leValue (slot buf k (indexTypeSize u16)) := by
  unfold readIndex
  split
  · simp [*, eq_comm]
  · simp [*]

theorem slot_polygonArrayBytes (u16 : Bool) (p : Nat × Nat × Nat) :
    slot (polygonArrayBytes u16 p) 0 (indexTypeSize u16) = encodeIndex u16 p.1 ∧
    slot (polygonArrayBytes u16 p) 1 (indexTypeSize u16) = encodeIndex u16 p.2.1 ∧
    slot (polygonArrayBytes u16 p) 2 (indexTypeSize u16) = encodeIndex u16 p.2.2 := by
  have h0 := length_encodeIndex u16 p.1
  have h1 := length_encodeIndex u16 p.2.1
  have h2 := length_encodeIndex u16 p.2.2
  refine ⟨?_, ?_, ?_⟩
  · simp only [slot, polygonArrayBytes, Nat.zero_mul, List.drop_zero, List.append_assoc]
    exact List.take_left' h0
  · simp only [slot, polygonArrayBytes, Nat.one_mul, List.append_assoc]
    rw [List.drop_left' h0]
    exact List.take_left' h1
  · simp only [slot, polygonArrayBytes]
    rw [List.drop_left' (by rw [List.length_append, h0, h1]; ring)]
    exact List.take_of_length_le (by rw [h2])

theorem length_polygonArrayBytes (u16 : Bool) (p : Nat × Nat × Nat) :
    (polygonArrayBytes u16 p).length = 3 * indexTypeSize u16 := by
  simp only [polygonArrayBytes, List.length_append, length_encodeIndex]
  ring

theorem collapsePolygon_eq_some {u16 : Bool} {map : List Nat} {T fuel : Nat}
    {buf : List Nat} {j : Nat} {p : Nat × Nat × Nat} (hj : 3 * j + 2 < U32) :
    collapsePolygon u16 map T fuel buf (3 * j) = some p ↔
      ∃ a b c, readIndex u16 buf (3 * j) = some a ∧ readIndex u16 buf (3 * j + 1) = some b ∧
        readIndex u16 buf (3 * j + 2) = some c ∧
        collapseIndex u16 map T fuel a = some p.1 ∧
        collapseIndex u16 map T fuel b = some p.2.1 ∧
        collapseIndex u16 map T fuel c = some p.2.2 := by
  have e0 : (3 * j + 0) % U32 = 3 * j := Nat.mod_eq_of_lt (by omega)
  have e1 : (3 * j + 1) % U32 = 3 * j + 1 := Nat.mod_eq_of_lt (by omega)
  have e2 : (3 * j + 2) % U32 = 3 * j + 2 := Nat.mod_eq_of_lt (by omega)
  obtain ⟨p0, p1, p2⟩ := p
  simp only [collapsePolygon, e0, e1, e2, Option.bind_eq_some, Option.some.injEq,
    Prod.mk.injEq]
  constructor
  · rintro ⟨a, ha, q0, hq0, b, hb, q1, hq1, c, hc, q2, hq2, rfl, rfl, rfl⟩
    exact ⟨a, b, c, ha, hb, hc, hq0, hq1, hq2⟩
  · rintro ⟨a, b, c, ha, hb, hc, hq0, hq1, hq2⟩
    exact ⟨a, ha, p0, hq0, b, hb, p1, hq1, c, hc, p2, hq2, rfl, rfl, rfl⟩

theorem collapsedPolygon_congr (u16 : Bool) (map : List Nat) (T fuel : Nat)
    (buf buf2 : List Nat) (j : Nat) (hj : 3 * j + 2 < U32) (hlen : buf2.length = buf.length)
    (h : slot buf2 j (3 * indexTypeSize u16) = slot buf j (3 * indexTypeSize u16)) :
    collapsedPolygon u16 map T fuel buf2 j = collapsedPolygon u16 map T fuel buf j := by
  have r : ∀ ii, ii < 3 → readIndex u16 buf2 (3 * j + ii) = readIndex u16 buf (3 * j + ii) :=
    fun ii hii => readIndex_congr u16 buf buf2 _ hlen
      (slot_element_congr buf2 buf j ii _ hii h)
  have r0 := r 0 (by omega)
  have r1 := r 1 (by omega)
  have r2 := r 2 (by omega)
  simp only [Nat.add_zero] at r0
  have e0 : (3 * j + 0) % U32 = 3 * j := Nat.mod_eq_of_lt (by omega)
  have e1 : (3 * j + 1) % U32 = 3 * j + 1 := Nat.mod_eq_of_lt (by omega)
  have e2 : (3 * j + 2) % U32 = 3 * j + 2 := Nat.mod_eq_of_lt (by omega)
  simp only [collapsedPolygon, collapsePolygon, e0, e1, e2, r0, r1, r2]

theorem validAt_congr (u16 : Bool) (map : List Nat) (T fuel : Nat)
    (buf buf2 : List Nat) (j : Nat) (hj : 3 * j + 2 < U32) (hlen : buf2.length = buf.length)
    (h : slot buf2 j (3 * indexTypeSize u16) = slot buf j (3 * indexTypeSize u16)) :
    validAt u16 map T fuel buf2 j = validAt u16 map T fuel buf j := by
  simp only [validAt, collapsedPolygon_congr u16 map T fuel buf buf2 j hj hlen h]

/-! ## Lemmas: the polygon loop of a refinement pass -/

theorem updatePolygon_spec (u16 : Bool) (map : List Nat) (T fuel j : Nat) (buf : List Nat)
    (c : Nat) (out : List Nat × Nat) (hj : 3 * j + 2 < U32)
    (h : updatePolygon u16 map T fuel j (buf, c) = some out) :
    ∃ p, collapsedPolygon u16 map T fuel buf j = some p ∧ out.1.length = buf.length ∧
      (∀ q : Nat, q ≠ j →
        slot out.1 q (3 * indexTypeSize u16) = slot buf q (3 * indexTypeSize u16)) ∧
      slot out.1 j (3 * indexTypeSize u16)
        = (if isPolygonValid p then polygonArrayBytes u16 p
           else slot buf j (3 * indexTypeSize u16)) ∧
      out.2 = if isPolygonValid p then (c + 1) % U32 else c := by
  have e : (j * 3) % U32 = 3 * j := by
    rw [Nat.mul_comm]
    exact Nat.mod_eq_of_lt (by omega)
  simp only [updatePolygon, e, Option.bind_eq_some] at h
  obtain ⟨p, hp, hrest⟩ := h
  refine ⟨p, hp, ?_⟩
  by_cases hv : isPolygonValid p = true
  · rw [if_pos hv] at hrest
    simp only [Option.map_eq_some'] at hrest
    obtain ⟨b, hb, rfl⟩ := hrest
    rw [show 3 * j * indexTypeSize u16 = j * (3 * indexTypeSize u16) by ring] at hb
    have hl := length_polygonArrayBytes u16 p
    rw [if_pos hv, if_pos hv]
    exact ⟨length_memcpyAt hb, fun q hq => slot_memcpyAt_other hb hl hq,
      slot_memcpyAt_same hb hl, rfl⟩
  · rw [if_neg hv] at hrest
    cases hrest
    rw [if_neg hv, if_neg hv]
    exact ⟨rfl, fun q _ => rfl, rfl, rfl⟩

theorem updatePolygons_spec (u16 : Bool) (map : List Nat) (T fuel : Nat) (n j0 : Nat)
    (buf : List Nat) (c : Nat) (out : List Nat × Nat) (hP : (j0 + n) * 3 < U32)
    (hc : c + n < U32)
    (h : updatePolygons u16 map T fuel n j0 (buf, c) = some out) :
    out.1.length = buf.length ∧
    (∀ j : Nat, j0 ≤ j → j < j0 + n → ∃ p, collapsedPolygon u16 map T fuel buf j = some p ∧
      slot out.1 j (3 * indexTypeSize u16)
        = (if isPolygonValid p then polygonArrayBytes u16 p
           else slot buf j (3 * indexTypeSize u16))) ∧
    (∀ q : Nat, q < j0 ∨ j0 + n ≤ q →
      slot out.1 q (3 * indexTypeSize u16) = slot buf q (3 * indexTypeSize u16)) ∧
    out.2 = c + ((List.range' j0 n).filter (validAt u16 map T fuel buf)).length := by
  induction n generalizing j0 buf c with
  | zero =>
    simp only [updatePolygons, Option.some.injEq] at h
    subst h
    exact ⟨rfl, fun j h1 h2 => by omega, fun q _ => rfl, by simp⟩
  | succ n ih =>
    simp only [updatePolygons, Option.bind_eq_some] at h
    obtain ⟨⟨buf1, c1⟩, hstep, hrest⟩ := h
    obtain ⟨p, hp, hl1, hother, hself, hcnt⟩ :=
      updatePolygon_spec u16 map T fuel j0 buf c (buf1, c1) (by omega) hstep
    simp only at hl1 hother hself hcnt
    have hc1 : c1 = c + (if validAt u16 map T fuel buf j0 then 1 else 0) := by
      rw [hcnt]
      simp only [validAt, hp]
      by_cases hv : isPolygonValid p = true
      · simp only [hv, if_true]
        exact Nat.mod_eq_of_lt (by omega)
      · simp only [hv, Bool.false_eq_true, if_false, Nat.add_zero]
    have hc1le : c1 ≤ c + 1 := by
      rw [hc1]
      split <;> omega
    obtain ⟨hol, hhit, hmiss, hcount⟩ := ih (j0 + 1) buf1 c1 (by omega) (by omega) hrest
    have hcongr : ∀ j : Nat, j0 + 1 ≤ j → j < j0 + 1 + n →
        validAt u16 map T fuel buf1 j = validAt u16 map T fuel buf j := fun j h1 h2 =>
      validAt_congr u16 map T fuel buf buf1 j (by omega) hl1 (hother j (by omega))
    refine ⟨by rw [hol, hl1], ?_, ?_, ?_⟩
    · intro j hj1 hj2
      by_cases hj : j = j0
      · subst hj
        exact ⟨p, hp, by rw [hmiss j (Or.inl (by omega)), hself]⟩
      · obtain ⟨p2, hp2, hs2⟩ := hhit j (by omega) (by omega)
        rw [collapsedPolygon_congr u16 map T fuel buf buf1 j (by omega) hl1
          (hother j hj)] at hp2
        exact ⟨p2, hp2, by rw [hs2, hother j hj]⟩
    · intro q hq
      rw [hmiss q (by omega), hother q (by omega)]
    · rw [hcount, hc1, List.range'_succ, List.filter_cons]
      have hf : (List.range' (j0 + 1) n).filter (validAt u16 map T fuel buf1)
          = (List.range' (j0 + 1) n).filter (validAt u16 map T fuel buf) := by
        apply List.filter_congr
        intro x hx
        rw [List.mem_range'_1] at hx
        exact hcongr x hx.1 (by omega)
      rw [hf]
      by_cases hv : validAt u16 map T fuel buf j0 = true
      · simp only [hv, if_true, List.length_cons]
        omega
      · simp only [hv, Bool.false_eq_true, if_false, Nat.add_zero]

theorem updatePolygons_some (u16 : Bool) (map : List Nat) (T fuel : Nat) (n j0 : Nat)
    (buf : List Nat) (c : Nat) (hP : (j0 + n) * 3 < U32)
    (hall : ∀ j : Nat, j0 ≤ j → j < j0 + n →
      ∃ p, collapsedPolygon u16 map T fuel buf j = some p) :
    ∃ out, updatePolygons u16 map T fuel n j0 (buf, c) = some out := by
  induction n generalizing j0 buf c with
  | zero => exact ⟨(buf, c), rfl⟩
  | succ n ih =>
    obtain ⟨p, hp⟩ := hall j0 (Nat.le_refl _) (by omega)
    have e : (j0 * 3) % U32 = 3 * j0 := by
      rw [Nat.mul_comm]
      exact Nat.mod_eq_of_lt (by omega)
    have hstep : ∃ st, updatePolygon u16 map T fuel j0 (buf, c) = some st := by
      simp only [updatePolygon, e]
      have hp' : collapsePolygon u16 map T fuel buf (3 * j0) = some p := hp
      rw [hp', Option.some_bind]
      by_cases hv : isPolygonValid p = true
      · rw [if_pos hv]
        obtain ⟨a, b, c2, -, -, hc2, -⟩ := (collapsePolygon_eq_some (by omega)).1 hp'
        obtain ⟨hin, -⟩ := readIndex_eq_some.1 hc2
        have hfit : 3 * j0 * indexTypeSize u16 + (polygonArrayBytes u16 p).length
            ≤ buf.length := by
          rw [length_polygonArrayBytes]
          have : (3 * j0 + 2 + 1) * indexTypeSize u16
              = 3 * j0 * indexTypeSize u16 + 3 * indexTypeSize u16 := by ring
          omega
        unfold memcpyAt
        rw [if_pos hfit]
        exact ⟨_, rfl⟩
      · rw [if_neg hv]
        exact ⟨_, rfl⟩
    obtain ⟨⟨buf1, c1⟩, hst⟩ := hstep
    obtain ⟨-, -, hl1, hother, -, -⟩ :=
      updatePolygon_spec u16 map T fuel j0 buf c (buf1, c1) (by omega) hst
    simp only at hl1 hother
    obtain ⟨out, hout⟩ := ih (j0 + 1) buf1 c1 (by omega) (fun j h1 h2 => by
      obtain ⟨p2, hp2⟩ := hall j (by omega) (by omega)
      exact ⟨p2, by
        rw [collapsedPolygon_congr u16 map T fuel buf buf1 j (by omega) hl1
          (hother j (by omega))]
        exact hp2⟩)
    exact ⟨out, by simp only [updatePolygons, hst, Option.some_bind, hout]⟩

/-! ## Lemmas: a refinement pass -/

theorem UpdateProgressiveMeshData_eq_some {fuel T : Nat} {s s' : StaticMeshComponent} :
    UpdateProgressiveMeshData fuel T s = some s' ↔
      ∃ out, updatePolygons (useU16Index s.m_originVertexCount) s.m_map T fuel
          s.m_originPolygonCount 0 (s.m_progressiveMeshIndexBuffer, 0) = some out ∧
        s' = { s with
          m_currentVertexCount := T
          m_progressiveMeshIndexBuffer := out.1
          m_currentPolygonCount := out.2 } := by
  simp only [UpdateProgressiveMeshData, UpdateIndexBuffer, Option.map_eq_some']
  constructor
  · rintro ⟨out, hout, rfl⟩
    exact ⟨out, hout, rfl⟩
  · rintro ⟨out, hout, rfl⟩
    exact ⟨out, hout, rfl⟩

/-- What one pass does, triangle by triangle. -/
theorem UpdateProgressiveMeshData_spec {fuel T : Nat} {s s' : StaticMeshComponent}
    (hP : s.m_originPolygonCount * 3 < U32)
    (h : UpdateProgressiveMeshData fuel T s = some s') :
    s' = { s with
      m_currentVertexCount := T
      m_progressiveMeshIndexBuffer := s'.m_progressiveMeshIndexBuffer
      m_currentPolygonCount := s'.m_currentPolygonCount } ∧
    s'.m_progressiveMeshIndexBuffer.length = s.m_progressiveMeshIndexBuffer.length ∧
    (∀ j : Nat, j < s.m_originPolygonCount → ∃ p,
      collapsedPolygon (useU16Index s.m_originVertexCount) s.m_map T fuel
        s.m_progressiveMeshIndexBuffer j = some p ∧
      slot s'.m_progressiveMeshIndexBuffer j (3 * indexTypeSize (useU16Index s.m_originVertexCount))
        = (if isPolygonValid p then polygonArrayBytes (useU16Index s.m_originVertexCount) p
           else slot s.m_progressiveMeshIndexBuffer j
            (3 * indexTypeSize (useU16Index s.m_originVertexCount)))) ∧
    s'.m_currentPolygonCount
      = ((List.range s.m_originPolygonCount).filter
          (validAt (useU16Index s.m_originVertexCount) s.m_map T fuel
            s.m_progressiveMeshIndexBuffer)).length := by
  obtain ⟨out, hout, hs⟩ := UpdateProgressiveMeshData_eq_some.1 h
  obtain ⟨hl, hhit, -, hcount⟩ := updatePolygons_spec _ _ _ _ _ _ _ _ out
    (by omega) (by omega) hout
  have e1 : s'.m_progressiveMeshIndexBuffer = out.1 := by rw [hs]
  have e2 : s'.m_currentPolygonCount = out.2 := by rw [hs]
  rw [e1, e2]
  refine ⟨hs, hl, fun j hj => hhit j (Nat.zero_le _) (by omega), ?_⟩
  rw [hcount, Nat.zero_add, List.range_eq_range']

theorem updatePolygons_invalid (u16 : Bool) (map : List Nat) (T fuel : Nat) (n j0 : Nat)
    (buf : List Nat) (c : Nat) (hP : (j0 + n) * 3 < U32)
    (hall : ∀ j : Nat, j0 ≤ j → j < j0 + n →
      ∃ p, collapsedPolygon u16 map T fuel buf j = some p ∧ isPolygonValid p = false) :
    updatePolygons u16 map T fuel n j0 (buf, c) = some (buf, c) := by
  induction n generalizing j0 with
  | zero => rfl
  | succ n ih =>
    obtain ⟨p, hp, hv⟩ := hall j0 (Nat.le_refl _) (by omega)
    have e : (j0 * 3) % U32 = 3 * j0 := by
      rw [Nat.mul_comm]
      exact Nat.mod_eq_of_lt (by omega)
    have hp' : collapsePolygon u16 map T fuel buf (3 * j0) = some p := hp
    have hstep : updatePolygon u16 map T fuel j0 (buf, c) = some (buf, c) := by
      simp only [updatePolygon, e, hp', Option.some_bind, hv, Bool.false_eq_true, if_false]
    simp only [updatePolygons, hstep, Option.some_bind]
    exact ih (j0 + 1) (by omega) (fun j h1 h2 => hall j (by omega) (by omega))

theorem mapFits_of_lt (map : List Nat) (V : Nat) (hmap : ∀ m ∈ map, m < V) (hV : V < U32) :
    MapFits (useU16Index V) map := by
  intro m hm
  have h1 := hmap m hm
  unfold toIndexType
  by_cases hu : useU16Index V = true
  · rw [if_pos hu]
    have := (useU16Index_iff V).1 hu
    exact Nat.mod_eq_of_lt (by omega)
  · rw [if_neg hu]
    exact Nat.mod_eq_of_lt (by omega)

theorem mapChain_succ_mem (map : List Nat) (n i r : Nat)
    (h : mapChain map (n + 1) i = some r) : r ∈ map := by
  induction n generalizing i with
  | zero =>
    simp only [mapChain, Option.bind_eq_some, Option.some.injEq] at h
    obtain ⟨m, hm, rfl⟩ := h
    exact List.getElem?_mem hm
  | succ n ih =>
    rw [mapChain] at h
    simp only [Option.bind_eq_some] at h
    obtain ⟨m, -, hrest⟩ := h
    exact ih m hrest

/-- On a refinable component every stored index collapses, to a value below the origin
vertex count and not above the target. -/
theorem Refinable.collapse_index {fuel : Nat} {s : StaticMeshComponent}
    (hr : Refinable fuel s) (T v : Nat) (hv : v < s.m_originVertexCount) :
    ∃ r, collapseIndex (useU16Index s.m_originVertexCount) s.m_map T fuel v = some r ∧
      r < s.m_originVertexCount ∧ r ≤ T := by
  have hfit := mapFits_of_lt s.m_map _ hr.map_lt hr.vertices_lt
  obtain ⟨k, hk, hch⟩ := hr.reaches_zero v hv
  obtain ⟨r, hcol⟩ := collapseIndex_some_of_chain _ s.m_map T hfit k v 0 fuel hch
    (Nat.zero_le _) hk
  refine ⟨r, hcol, ?_, collapseIndex_le _ _ _ _ _ _ hcol⟩
  rcases collapseIndex_range _ _ _ _ _ _ hcol with h1 | ⟨m, hm, h1⟩
  · rw [h1]; exact hv
  · rw [h1, hfit m hm]
    exact hr.map_lt m hm

theorem Refinable.read_index {fuel : Nat} {s : StaticMeshComponent}
    (hr : Refinable fuel s) (k : Nat) (hk : k < s.m_originPolygonCount * 3) :
    ∃ v, readIndex (useU16Index s.m_originVertexCount) s.m_progressiveMeshIndexBuffer k
        = some v ∧ v < s.m_originVertexCount := by
  have hle : (k + 1) * indexTypeSize (useU16Index s.m_originVertexCount)
      ≤ s.m_progressiveMeshIndexBuffer.length := by
    have : (k + 1) * indexTypeSize (useU16Index s.m_originVertexCount)
        ≤ s.m_originPolygonCount * 3 * indexTypeSize (useU16Index s.m_originVertexCount) :=
      Nat.mul_le_mul_right _ (by omega)
    exact le_trans this hr.buffer_holds
  have hread : readIndex (useU16Index s.m_originVertexCount)
      s.m_progressiveMeshIndexBuffer k
      = some (leValue (slot s.m_progressiveMeshIndexBuffer k
          (indexTypeSize (useU16Index s.m_originVertexCount)))) :=
    readIndex_eq_some.2 ⟨hle, rfl⟩
  exact ⟨_, hread, hr.indices_lt k _ hk hread⟩

theorem Refinable.collapse_polygon {fuel : Nat} {s : StaticMeshComponent}
    (hr : Refinable fuel s) (T j : Nat) (hj : j < s.m_originPolygonCount) :
    ∃ p, collapsedPolygon (useU16Index s.m_originVertexCount) s.m_map T fuel
        s.m_progressiveMeshIndexBuffer j = some p ∧
      (p.1 < s.m_originVertexCount ∧ p.2.1 < s.m_originVertexCount
        ∧ p.2.2 < s.m_originVertexCount) ∧
      (p.1 ≤ T ∧ p.2.1 ≤ T ∧ p.2.2 ≤ T) := by
  have hP := hr.polygons_lt
  obtain ⟨a, ha, hav⟩ := hr.read_index (3 * j) (by omega)
  obtain ⟨b, hb, hbv⟩ := hr.read_index (3 * j + 1) (by omega)
  obtain ⟨c, hc, hcv⟩ := hr.read_index (3 * j + 2) (by omega)
  obtain ⟨p0, h0, h0v, h0T⟩ := hr.collapse_index T a hav
  obtain ⟨p1, h1, h1v, h1T⟩ := hr.collapse_index T b hbv
  obtain ⟨p2, h2, h2v, h2T⟩ := hr.collapse_index T c hcv
  exact ⟨(p0, p1, p2),
    (collapsePolygon_eq_some (by omega)).2 ⟨a, b, c, ha, hb, hc, h0, h1, h2⟩,
    ⟨h0v, h1v, h2v⟩, ⟨h0T, h1T, h2T⟩⟩

theorem readIndex_of_polygon_slot (u16 : Bool) (buf : List Nat) (j ii : Nat)
    (p : Nat × Nat × Nat) (hii : ii < 3)
    (hlen : (3 * j + 3) * indexTypeSize u16 ≤ buf.length)
    (h : slot buf j (3 * indexTypeSize u16) = polygonArrayBytes u16 p) :
    readIndex u16 buf (3 * j + ii)
      = some (leValue (encodeIndex u16
          (if ii = 0 then p.1 else if ii = 1 then p.2.1 else p.2.2))) := by
  have hle : (3 * j + ii + 1) * indexTypeSize u16 ≤ buf.length := by
    have : (3 * j + ii + 1) * indexTypeSize u16 ≤ (3 * j + 3) * indexTypeSize u16 :=
      Nat.mul_le_mul_right _ (by omega)
    omega
  rw [readIndex_eq_some]
  refine ⟨hle, ?_⟩
  rw [← slot_slot buf j ii _ hii, h]
  obtain ⟨s0, s1, s2⟩ := slot_polygonArrayBytes u16 p
  obtain rfl | rfl | rfl : ii = 0 ∨ ii = 1 ∨ ii = 2 := by omega
  · rw [s0]; rfl
  · rw [s1]; rfl
  · rw [s2]; rfl

/-- The indices fit the index type chosen for `V` vertices. -/
theorem leValue_encodeIndex_of_lt (V p : Nat) (hV : V < U32) (hp : p < V) :
    leValue (encodeIndex (useU16Index V) p) = p :=
  leValue_encodeIndex _ _ (fun hu => by
    have := (useU16Index_iff V).1 hu
    omega) (by omega)

theorem readPolygon_eq_some {u16 : Bool} {buf : List Nat} {j : Nat} {t : Nat × Nat × Nat} :
    readPolygon u16 buf j = some t ↔
      readIndex u16 buf (3 * j) = some t.1 ∧ readIndex u16 buf (3 * j + 1) = some t.2.1 ∧
        readIndex u16 buf (3 * j + 2) = some t.2.2 := by
  obtain ⟨a, b, c⟩ := t
  simp only [readPolygon, Option.bind_eq_some, Option.some.injEq, Prod.mk.injEq]
  constructor
  · rintro ⟨x, hx, y, hy, z, hz, rfl, rfl, rfl⟩
    exact ⟨hx, hy, hz⟩
  · rintro ⟨hx, hy, hz⟩
    exact ⟨a, hx, b, hy, c, hz, rfl, rfl, rfl⟩

theorem readPolygon_congr (u16 : Bool) (buf buf2 : List Nat) (j : Nat)
    (hlen : buf2.length = buf.length)
    (h : slot buf2 j (3 * indexTypeSize u16) = slot buf j (3 * indexTypeSize u16)) :
    readPolygon u16 buf2 j = readPolygon u16 buf j := by
  have r : ∀ ii, ii < 3 → readIndex u16 buf2 (3 * j + ii) = readIndex u16 buf (3 * j + ii) :=
    fun ii hii => readIndex_congr u16 buf buf2 _ hlen
      (slot_element_congr buf2 buf j ii _ hii h)
  have r0 := r 0 (by omega)
  simp only [Nat.add_zero] at r0
  simp only [readPolygon, r0, r 1 (by omega), r 2 (by omega)]

theorem readPolygon_of_polygon_slot (V : Nat) (buf : List Nat) (j : Nat)
    (p : Nat × Nat × Nat) (hV : V < U32)
    (hp : p.1 < V ∧ p.2.1 < V ∧ p.2.2 < V)
    (hlen : (3 * j + 3) * indexTypeSize (useU16Index V) ≤ buf.length)
    (h : slot buf j (3 * indexTypeSize (useU16Index V))
      = polygonArrayBytes (useU16Index V) p) :
    readPolygon (useU16Index V) buf j = some p := by
  rw [readPolygon_eq_some]
  have r0 := readIndex_of_polygon_slot _ buf j 0 p (by omega) hlen h
  have r1 := readIndex_of_polygon_slot _ buf j 1 p (by omega) hlen h
  have r2 := readIndex_of_polygon_slot _ buf j 2 p (by omega) hlen h
  simp only [Nat.add_zero, if_true] at r0
  simp only [Nat.one_ne_zero, if_false, if_true] at r1
  simp only [Nat.succ_ne_zero, if_false, OfNat.ofNat_ne_one] at r2
  rw [r0, r1, r2, leValue_encodeIndex_of_lt V _ hV hp.1,
    leValue_encodeIndex_of_lt V _ hV hp.2.1, leValue_encodeIndex_of_lt V _ hV hp.2.2]
  exact ⟨rfl, rfl, rfl⟩

theorem Refinable.polygon_in_buffer {fuel : Nat} {s : StaticMeshComponent}
    (hr : Refinable fuel s) (j : Nat) (hj : j < s.m_originPolygonCount) :
    (3 * j + 3) * indexTypeSize (useU16Index s.m_originVertexCount)
      ≤ s.m_progressiveMeshIndexBuffer.length := by
  have : (3 * j + 3) * indexTypeSize (useU16Index s.m_originVertexCount)
      ≤ s.m_originPolygonCount * 3 * indexTypeSize (useU16Index s.m_originVertexCount) :=
    Nat.mul_le_mul_right _ (by omega)
  exact le_trans this hr.buffer_holds

/-- A pass on a refinable component runs to completion and leaves it refinable. -/
theorem UpdateProgressiveMeshData_refinable {fuel : Nat} {s : StaticMeshComponent}
    (hr : Refinable fuel s) (T : Nat) :
    ∃ s', UpdateProgressiveMeshData fuel T s = some s' ∧ Refinable fuel s' := by
  have hP := hr.polygons_lt
  obtain ⟨out, hout⟩ := updatePolygons_some (useU16Index s.m_originVertexCount) s.m_map T
    fuel s.m_originPolygonCount 0 s.m_progressiveMeshIndexBuffer 0 (by omega)
    (fun j _ hj => by
      obtain ⟨p, hp, -⟩ := hr.collapse_polygon T j (by omega)
      exact ⟨p, hp⟩)
  obtain ⟨hl, hhit, -, -⟩ := updatePolygons_spec _ _ _ _ _ _ _ _ out
    (by omega) (by omega) hout
  refine ⟨_, UpdateProgressiveMeshData_eq_some.2 ⟨out, hout, rfl⟩, ?_⟩
  refine ⟨hr.polygons_lt, hr.vertices_lt, ?_, ?_, hr.map_length, hr.map_lt, hr.reaches_zero⟩
  · show s.m_originPolygonCount * 3 * indexTypeSize (useU16Index s.m_originVertexCount)
      ≤ out.1.length
    rw [hl]
    exact hr.buffer_holds
  · intro k v hk hread
    change k < s.m_originPolygonCount * 3 at hk
    change readIndex (useU16Index s.m_originVertexCount) out.1 k = some v at hread
    have hj : k / 3 < s.m_originPolygonCount := by omega
    have hk3 : k = 3 * (k / 3) + k % 3 := by omega
    obtain ⟨p, hp, hslot⟩ := hhit (k / 3) (Nat.zero_le _) (by omega)
    obtain ⟨p', hp', hpV, -⟩ := hr.collapse_polygon T (k / 3) hj
    rw [hp] at hp'
    cases hp'
    by_cases hv : isPolygonValid p = true
    · rw [if_pos hv] at hslot
      have hin := hr.polygon_in_buffer (k / 3) hj
      rw [← hl] at hin
      have := readIndex_of_polygon_slot _ out.1 (k / 3) (k % 3) p (by omega) hin hslot
      rw [← hk3, hread] at this
      cases this
      have hlt : (if k % 3 = 0 then p.1 else if k % 3 = 1 then p.2.1 else p.2.2)
          < s.m_originVertexCount := by
        split
        · exact hpV.1
        · split
          · exact hpV.2.1
          · exact hpV.2.2
      rw [leValue_encodeIndex_of_lt _ _ hr.vertices_lt hlt]
      exact hlt
    · rw [if_neg hv] at hslot
      have := readIndex_congr _ s.m_progressiveMeshIndexBuffer out.1 (3 * (k / 3) + k % 3) hl
        (slot_element_congr _ _ (k / 3) (k % 3) _ (by omega) hslot)
      rw [← hk3, hread] at this
      exact hr.indices_lt k v hk this.symm

/-! ## Lemmas: worked refinement inputs -/

theorem Build_fan : Build (freshComponent fanMesh formatP) = some fanBuilt := rfl

theorem BuildProgressiveMeshData_fan :
    BuildProgressiveMeshData fanBackend fanBuilt = some fanProgressive := rfl

theorem UpdateProgressiveMeshData_fan_three :
    UpdateProgressiveMeshData 5 3 fanProgressive = some fanAtThree := rfl

theorem UpdateProgressiveMeshData_fan_two :
    UpdateProgressiveMeshData 5 2 fanProgressive = some fanAtTwo := rfl

theorem fanProgressive_refinable : Refinable 5 fanProgressive := by
  have hread : ∀ k : Nat, k < 9 →
      (readIndex true fanProgressive.m_progressiveMeshIndexBuffer k).all
        (fun v => decide (v < 5)) = true := by decide
  refine ⟨by decide, by decide, by decide, ?_, rfl, by decide, by decide⟩
  intro k v hk hv
  have := hread k hk
  change readIndex true fanProgressive.m_progressiveMeshIndexBuffer k = some v at hv
  rw [hv] at this
  simpa using this

/-! ## The collapse chase and the polygon count (C11, C12) -/

theorem validAt_eq_of_collapsed {u16 : Bool} {map : List Nat} {T fuel : Nat}
    {buf : List Nat} {j : Nat} {p : Nat × Nat × Nat}
    (hp : collapsedPolygon u16 map T fuel buf j = some p) :
    validAt u16 map T fuel buf j = isPolygonValid p := by
  simp only [validAt, hp]

theorem isPolygonValid_iff (p : Nat × Nat × Nat) :
    isPolygonValid p = true ↔ p.1 ≠ p.2.1 ∧ p.1 ≠ p.2.2 ∧ p.2.1 ≠ p.2.2 := by
  simp [isPolygonValid, and_assoc]

/-- C11: in a refinement pass `UpdateProgressiveMeshData(T)` on a component on which
refinement is defined, the pass completes and each examined index `v` is replaced by the
first value on the chain `v, map[v], map[map[v]], ...` that is not greater than `T`: the
collapsed value `r` is element `n` of the chain, `r <= T`, and every earlier element is
above `T`; an index that is already `<= T` is left as it is; the collapsed values of a
valid triangle are what the pass stores at the same positions. -/
theorem UpdateProgressiveMeshData_collapse_chain (fuel T : Nat) (s : StaticMeshComponent)
    (hr : Refinable fuel s) :
    ∃ s', UpdateProgressiveMeshData fuel T s = some s' ∧
    ∀ j ii : Nat, j < s.m_originPolygonCount → ii < 3 → ∃ v r n,
      readIndex (useU16Index s.m_originVertexCount) s.m_progressiveMeshIndexBuffer
        (3 * j + ii) = some v ∧
      collapseIndex (useU16Index s.m_originVertexCount) s.m_map T fuel v = some r ∧
      mapChain s.m_map n v = some r ∧ r ≤ T ∧
      (∀ m : Nat, m < n → ∃ w, mapChain s.m_map m v = some w ∧ T < w) ∧
      (v ≤ T → r = v) ∧
      (validAt (useU16Index s.m_originVertexCount) s.m_map T fuel
          s.m_progressiveMeshIndexBuffer j = true →
        slot s'.m_progressiveMeshIndexBuffer (3 * j + ii)
            (indexTypeSize (useU16Index s.m_originVertexCount))
          = encodeIndex (useU16Index s.m_originVertexCount) r) := by
  obtain ⟨s', h, -⟩ := UpdateProgressiveMeshData_refinable hr T
  refine ⟨s', h, ?_⟩
  have hP := hr.polygons_lt
  intro j ii hj hii
  have hfit := mapFits_of_lt s.m_map _ hr.map_lt hr.vertices_lt
  obtain ⟨-, -, hhit, -⟩ := UpdateProgressiveMeshData_spec hP h
  obtain ⟨p, hp, hslot⟩ := hhit j hj
  obtain ⟨a, b, c, ha, hb, hc, h0, h1, h2⟩ := (collapsePolygon_eq_some (by omega)).1 hp
  obtain ⟨s0, s1, s2⟩ := slot_polygonArrayBytes (useU16Index s.m_originVertexCount) p
  have key : ∀ v r : Nat,
      collapseIndex (useU16Index s.m_originVertexCount) s.m_map T fuel v = some r →
      ∃ n, mapChain s.m_map n v = some r ∧ r ≤ T ∧
        (∀ m : Nat, m < n → ∃ w, mapChain s.m_map m v = some w ∧ T < w) ∧
        (v ≤ T → r = v) := by
    intro v r hcol
    obtain ⟨n, -, hch, hpre⟩ := collapseIndex_chain _ _ _ hfit _ _ _ hcol
    refine ⟨n, hch, collapseIndex_le _ _ _ _ _ _ hcol, hpre, fun hle => ?_⟩
    rw [collapseIndex_of_le _ _ _ _ _ hle] at hcol
    exact (Option.some.inj hcol).symm
  have hwritten : validAt (useU16Index s.m_originVertexCount) s.m_map T fuel
      s.m_progressiveMeshIndexBuffer j = true →
      slot s'.m_progressiveMeshIndexBuffer j
        (3 * indexTypeSize (useU16Index s.m_originVertexCount))
        = polygonArrayBytes (useU16Index s.m_originVertexCount) p := by
    intro hv
    rw [validAt_eq_of_collapsed hp] at hv
    rw [hslot, if_pos hv]
  obtain rfl | rfl | rfl : ii = 0 ∨ ii = 1 ∨ ii = 2 := by omega
  · obtain ⟨n, k1, k2, k3, k4⟩ := key a p.1 h0
    exact ⟨a, p.1, n, ha, h0, k1, k2, k3, k4, fun hv => by
      rw [← slot_slot _ j 0 _ (by omega), hwritten hv, s0]⟩
  · obtain ⟨n, k1, k2, k3, k4⟩ := key b p.2.1 h1
    exact ⟨b, p.2.1, n, hb, h1, k1, k2, k3, k4, fun hv => by
      rw [← slot_slot _ j 1 _ (by omega), hwritten hv, s1]⟩
  · obtain ⟨n, k1, k2, k3, k4⟩ := key c p.2.2 h2
    exact ⟨c, p.2.2, n, hc, h2, k1, k2, k3, k4, fun hv => by
      rw [← slot_slot _ j 2 _ (by omega), hwritten hv, s2]⟩

/-- Witness of C11: the five-vertex fan refined to target 3. -/
theorem UpdateProgressiveMeshData_collapse_chain_witness :
    Refinable 5 fanProgressive ∧
    ∃ s', UpdateProgressiveMeshData 5 3 fanProgressive = some s' ∧
    ∀ j ii : Nat, j < fanProgressive.m_originPolygonCount → ii < 3 → ∃ v r n,
      readIndex (useU16Index fanProgressive.m_originVertexCount)
        fanProgressive.m_progressiveMeshIndexBuffer (3 * j + ii) = some v ∧
      collapseIndex (useU16Index fanProgressive.m_originVertexCount)
        fanProgressive.m_map 3 5 v = some r ∧
      mapChain fanProgressive.m_map n v = some r ∧ r ≤ 3 ∧
      (∀ m : Nat, m < n → ∃ w, mapChain fanProgressive.m_map m v = some w ∧ 3 < w) ∧
      (v ≤ 3 → r = v) ∧
      (validAt (useU16Index fanProgressive.m_originVertexCount) fanProgressive.m_map 3 5
          fanProgressive.m_progressiveMeshIndexBuffer j = true →
        slot s'.m_progressiveMeshIndexBuffer (3 * j + ii)
            (indexTypeSize (useU16Index fanProgressive.m_originVertexCount))
          = encodeIndex (useU16Index fanProgressive.m_originVertexCount) r) :=
  ⟨fanProgressive_refinable,
    UpdateProgressiveMeshData_collapse_chain 5 3 fanProgressive fanProgressive_refinable⟩

/-- C12: on a component on which refinement is defined `UpdateProgressiveMeshData(T)`
completes; afterwards `currentVertexCount` equals `T` and `currentPolygonCount` equals
the number of the `originPolygonCount` examined triangles whose three collapsed indices
are pairwise distinct, hence at most `originPolygonCount`; a triangle with two equal
collapsed indices is not counted. -/
theorem UpdateProgressiveMeshData_counts (fuel T : Nat) (s : StaticMeshComponent)
    (hr : Refinable fuel s) :
    ∃ s', UpdateProgressiveMeshData fuel T s = some s' ∧
    s'.m_currentVertexCount = T ∧
    s'.m_currentPolygonCount
      = ((List.range s.m_originPolygonCount).filter
          (validAt (useU16Index s.m_originVertexCount) s.m_map T fuel
            s.m_progressiveMeshIndexBuffer)).length ∧
    s'.m_currentPolygonCount ≤ s.m_originPolygonCount ∧
    ∀ j : Nat, j < s.m_originPolygonCount → ∃ p,
      collapsedPolygon (useU16Index s.m_originVertexCount) s.m_map T fuel
        s.m_progressiveMeshIndexBuffer j = some p ∧
      (validAt (useU16Index s.m_originVertexCount) s.m_map T fuel
          s.m_progressiveMeshIndexBuffer j = true
        ↔ p.1 ≠ p.2.1 ∧ p.1 ≠ p.2.2 ∧ p.2.1 ≠ p.2.2) := by
  obtain ⟨s', h, -⟩ := UpdateProgressiveMeshData_refinable hr T
  obtain ⟨hs, -, hhit, hcount⟩ := UpdateProgressiveMeshData_spec hr.polygons_lt h
  refine ⟨s', h, by rw [hs], hcount, ?_, ?_⟩
  · rw [hcount]
    exact le_trans (List.length_filter_le _ _) (by rw [List.length_range])
  · intro j hj
    obtain ⟨p, hp, -⟩ := hhit j hj
    exact ⟨p, hp, by rw [validAt_eq_of_collapsed hp, isPolygonValid_iff]⟩

/-- Witness of C12: the five-vertex fan refined to target 2 keeps one triangle of three. -/
theorem UpdateProgressiveMeshData_counts_witness :
    Refinable 5 fanProgressive ∧
    UpdateProgressiveMeshData 5 2 fanProgressive = some fanAtTwo ∧
    fanAtTwo.m_currentVertexCount = 2 ∧ fanAtTwo.m_currentPolygonCount = 1 ∧
    ∃ s', UpdateProgressiveMeshData 5 2 fanProgressive = some s' ∧
      s'.m_currentVertexCount = 2 ∧
      s'.m_currentPolygonCount
        = ((List.range fanProgressive.m_originPolygonCount).filter
            (validAt (useU16Index fanProgressive.m_originVertexCount) fanProgressive.m_map 2 5
              fanProgressive.m_progressiveMeshIndexBuffer)).length :=
  have h := UpdateProgressiveMeshData_counts 5 2 fanProgressive fanProgressive_refinable
  ⟨fanProgressive_refinable, UpdateProgressiveMeshData_fan_two, rfl, rfl, by
    obtain ⟨s', h1, h2, h3, -⟩ := h
    exact ⟨s', h1, h2, h3⟩⟩

/-! ## Target 0 (C14) -/

/-- C14: refining to target vertex count 0 is legal. For every component on which
refinement is defined, with a collapse map whose chains all reach 0,
`UpdateProgressiveMeshData(0)` completes and yields `currentPolygonCount = 0` and
`currentVertexCount = 0`; no triangle is written and `GetIndexCount` is 0. -/
theorem UpdateProgressiveMeshData_zero (fuel : Nat) (s : StaticMeshComponent)
    (hr : Refinable fuel s) :
    UpdateProgressiveMeshData fuel 0 s
      = some { s with m_currentVertexCount := 0, m_currentPolygonCount := 0 } ∧
    (IsProgressiveMeshValid s = true →
      (UpdateProgressiveMeshData fuel 0 s).map GetIndexCount = some 0) := by
  have hP := hr.polygons_lt
  have hout : updatePolygons (useU16Index s.m_originVertexCount) s.m_map 0 fuel
      s.m_originPolygonCount 0 (s.m_progressiveMeshIndexBuffer, 0)
      = some (s.m_progressiveMeshIndexBuffer, 0) := by
    apply updatePolygons_invalid _ _ _ _ _ _ _ _ (by omega)
    intro j _ hj
    obtain ⟨p, hp, -, h0, h1, h2⟩ := hr.collapse_polygon 0 j (by omega)
    refine ⟨p, hp, ?_⟩
    have e0 : p.1 = 0 := by omega
    have e1 : p.2.1 = 0 := by omega
    simp [isPolygonValid, e0, e1]
  have h : UpdateProgressiveMeshData fuel 0 s
      = some { s with m_currentVertexCount := 0, m_currentPolygonCount := 0 } :=
    UpdateProgressiveMeshData_eq_some.2 ⟨_, hout, rfl⟩
  refine ⟨h, fun hvalid => ?_⟩
  rw [h, Option.map_some']
  have hv : IsProgressiveMeshValid
      { s with m_currentVertexCount := 0, m_currentPolygonCount := 0 } = true := hvalid
  simp [GetIndexCount, GetPolygonCount, hv]

/-- Witness of C14: the five-vertex fan refined to target 0. -/
theorem UpdateProgressiveMeshData_zero_witness :
    Refinable 5 fanProgressive ∧
    UpdateProgressiveMeshData 5 0 fanProgressive
      = some { fanProgressive with m_currentVertexCount := 0, m_currentPolygonCount := 0 } :=
  ⟨fanProgressive_refinable,
    (UpdateProgressiveMeshData_zero 5 fanProgressive fanProgressive_refinable).1⟩

/-! ## Placement of the surviving triangles (C13) -/

/-- C13, the code at the failing input: the five-vertex fan `(0,1,3), (0,1,2), (1,2,4)`
with map `[0,0,1,1,3]` refined to target 2. Only the second triangle stays valid, so
`currentPolygonCount` is 1 and `GetIndexCount` is 3 from `GetStartIndex` 0; but the valid
triangle was written back at its own position, and the first triangle of the buffer is
still the dropped `(0,1,3)`, whose collapsed form `(0,1,1)` is degenerate. -/
theorem UpdateProgressiveMeshData_not_compacted :
    ∃ s', UpdateProgressiveMeshData 5 2 fanProgressive = some s' ∧
      s'.m_currentPolygonCount = 1 ∧ GetIndexCount s' = 3 ∧ GetStartIndex s' = 0 ∧
      collapsedPolygon true fanProgressive.m_map 2 5
        fanProgressive.m_progressiveMeshIndexBuffer 0 = some (0, 1, 1) ∧
      collapsedPolygon true fanProgressive.m_map 2 5
        fanProgressive.m_progressiveMeshIndexBuffer 1 = some (0, 1, 2) ∧
      collapsedPolygon true fanProgressive.m_map 2 5
        fanProgressive.m_progressiveMeshIndexBuffer 2 = some (1, 2, 1) ∧
      readPolygon true s'.m_progressiveMeshIndexBuffer 0 = some (0, 1, 3) ∧
      readPolygon true s'.m_progressiveMeshIndexBuffer 1 = some (0, 1, 2) :=
  ⟨fanAtTwo, rfl, rfl, rfl, rfl, rfl, rfl, rfl, rfl, rfl⟩

/-! ## No degenerate triangle in the output (C16) -/

/-- C16: when every triangle of the progressive index buffer has pairwise distinct
indices, `UpdateProgressiveMeshData(T)` completes for every target `T`, and afterwards
every triangle of the buffer, so each of its first `currentPolygonCount` triangles, has
pairwise distinct indices; the property holds again for the next pass. -/
theorem UpdateProgressiveMeshData_no_degenerate (fuel T : Nat) (s : StaticMeshComponent)
    (hr : Refinable fuel s)
    (hdistinct : ∀ j : Nat, j < s.m_originPolygonCount → ∃ t,
      readPolygon (useU16Index s.m_originVertexCount) s.m_progressiveMeshIndexBuffer j
        = some t ∧ isPolygonValid t = true) :
    ∃ s', UpdateProgressiveMeshData fuel T s = some s' ∧
      s'.m_currentPolygonCount ≤ s.m_originPolygonCount ∧
      (∀ j : Nat, j < s'.m_currentPolygonCount → ∃ t,
        readPolygon (useU16Index s.m_originVertexCount) s'.m_progressiveMeshIndexBuffer j
          = some t ∧ t.1 ≠ t.2.1 ∧ t.1 ≠ t.2.2 ∧ t.2.1 ≠ t.2.2) ∧
      (∀ j : Nat, j < s'.m_originPolygonCount → ∃ t,
        readPolygon (useU16Index s'.m_originVertexCount) s'.m_progressiveMeshIndexBuffer j
          = some t ∧ isPolygonValid t = true) := by
  obtain ⟨s', h, -⟩ := UpdateProgressiveMeshData_refinable hr T
  obtain ⟨hs, hl, hhit, hcount⟩ := UpdateProgressiveMeshData_spec hr.polygons_lt h
  have hle : s'.m_currentPolygonCount ≤ s.m_originPolygonCount := by
    rw [hcount]
    exact le_trans (List.length_filter_le _ _) (by rw [List.length_range])
  have hP : s'.m_originPolygonCount = s.m_originPolygonCount := by rw [hs]
  have hV : s'.m_originVertexCount = s.m_originVertexCount := by rw [hs]
  have hall : ∀ j : Nat, j < s.m_originPolygonCount → ∃ t,
      readPolygon (useU16Index s.m_originVertexCount) s'.m_progressiveMeshIndexBuffer j
        = some t ∧ isPolygonValid t = true := by
    intro j hj
    obtain ⟨p, hp, hslot⟩ := hhit j hj
    by_cases hv : isPolygonValid p = true
    · rw [if_pos hv] at hslot
      obtain ⟨p', hp', hpV, -⟩ := hr.collapse_polygon T j hj
      rw [hp] at hp'
      cases hp'
      have hin := hr.polygon_in_buffer j hj
      rw [← hl] at hin
      exact ⟨p, readPolygon_of_polygon_slot _ _ j p hr.vertices_lt hpV hin hslot, hv⟩
    · rw [if_neg hv] at hslot
      obtain ⟨t, ht, htv⟩ := hdistinct j hj
      exact ⟨t, by rw [readPolygon_congr _ _ _ j hl hslot, ht], htv⟩
  refine ⟨s', h, hle, fun j hj => ?_, fun j hj => ?_⟩
  · obtain ⟨t, ht, htv⟩ := hall j (by omega)
    exact ⟨t, ht, (isPolygonValid_iff t).1 htv⟩
  · rw [hV]
    exact hall j (by rw [← hP]; exact hj)

/-- Witness of C16: the five-vertex fan, whose three triangles have distinct corners,
refined to target 3. -/
theorem UpdateProgressiveMeshData_no_degenerate_witness :
    Refinable 5 fanProgressive ∧
    ∃ s', UpdateProgressiveMeshData 5 3 fanProgressive = some s' ∧
      s'.m_currentPolygonCount ≤ fanProgressive.m_originPolygonCount ∧
      (∀ j : Nat, j < s'.m_currentPolygonCount → ∃ t,
        readPolygon (useU16Index fanProgressive.m_originVertexCount)
          s'.m_progressiveMeshIndexBuffer j
          = some t ∧ t.1 ≠ t.2.1 ∧ t.1 ≠ t.2.2 ∧ t.2.1 ≠ t.2.2) ∧
      (∀ j : Nat, j < s'.m_originPolygonCount → ∃ t,
        readPolygon (useU16Index s'.m_originVertexCount) s'.m_progressiveMeshIndexBuffer j
          = some t ∧ isPolygonValid t = true) :=
  ⟨fanProgressive_refinable,
    UpdateProgressiveMeshData_no_degenerate 5 3 fanProgressive fanProgressive_refinable
      (by decide)⟩

/-! ## Reset (C20) -/

/-- C20: after `Reset()`, from every prior state, each of the five GPU handles (base
vertex, base index, wireframe index, progressive vertex, progressive index) is the
invalid sentinel and each of the five byte buffers is empty; `Reset()` applied twice
gives the same state as `Reset()` applied once. -/
theorem Reset_invalidates (s : StaticMeshComponent) :
    (Reset s).m_vertexBufferHandle = UINT16_MAX ∧
    (Reset s).m_indexBufferHandle = UINT16_MAX ∧
    (Reset s).m_wireframeIndexBufferHandle = UINT16_MAX ∧
    (Reset s).m_progressiveMeshVertexBufferHandle = UINT16_MAX ∧
    (Reset s).m_progressiveMeshIndexBufferHandle = UINT16_MAX ∧
    (Reset s).m_vertexBuffer = [] ∧ (Reset s).m_indexBuffer = [] ∧
    (Reset s).m_wireframeIndexBuffer = [] ∧
    (Reset s).m_progressiveMeshVertexBuffer = [] ∧
    (Reset s).m_progressiveMeshIndexBuffer = [] ∧
    IsProgressiveMeshValid (Reset s) = false ∧
    Reset (Reset s) = Reset s :=
  ⟨rfl, rfl, rfl, rfl, rfl, rfl, rfl, rfl, rfl, rfl, rfl, rfl⟩

/-! ## Lemmas: one pass after another -/

theorem collapsedPolygon_compose {u16 : Bool} {map : List Nat} {T1 T2 fuel : Nat}
    {buf : List Nat} {j : Nat} {p1 p2 : Nat × Nat × Nat} (hj : 3 * j + 2 < U32)
    (hT : T2 ≤ T1) (h1 : collapsedPolygon u16 map T1 fuel buf j = some p1)
    (h2 : collapsedPolygon u16 map T2 fuel buf j = some p2) :
    collapseIndex u16 map T2 fuel p1.1 = some p2.1 ∧
    collapseIndex u16 map T2 fuel p1.2.1 = some p2.2.1 ∧
    collapseIndex u16 map T2 fuel p1.2.2 = some p2.2.2 := by
  obtain ⟨a, b, c, ha, hb, hc, a1, b1, c1⟩ := (collapsePolygon_eq_some hj).1 h1
  obtain ⟨a', b', c', ha', hb', hc', a2, b2, c2⟩ := (collapsePolygon_eq_some hj).1 h2
  rw [ha] at ha'
  rw [hb] at hb'
  rw [hc] at hc'
  cases ha'
  cases hb'
  cases hc'
  exact ⟨collapseIndex_compose _ _ _ _ hT _ _ _ _ a1 a2,
    collapseIndex_compose _ _ _ _ hT _ _ _ _ b1 b2,
    collapseIndex_compose _ _ _ _ hT _ _ _ _ c1 c2⟩

/-- Collapsing cannot separate two equal indices. -/
theorem isPolygonValid_of_collapse {u16 : Bool} {map : List Nat} {T fuel : Nat}
    {x y : Nat × Nat × Nat} (h0 : collapseIndex u16 map T fuel x.1 = some y.1)
    (h1 : collapseIndex u16 map T fuel x.2.1 = some y.2.1)
    (h2 : collapseIndex u16 map T fuel x.2.2 = some y.2.2)
    (hy : isPolygonValid y = true) : isPolygonValid x = true := by
  rw [isPolygonValid_iff] at hy ⊢
  obtain ⟨y1, y2, y3⟩ := hy
  refine ⟨fun e => y1 ?_, fun e => y2 ?_, fun e => y3 ?_⟩
  · rw [e, h1] at h0
    exact (Option.some.inj h0).symm
  · rw [e, h2] at h0
    exact (Option.some.inj h0).symm
  · rw [e, h2] at h1
    exact (Option.some.inj h1).symm

/-- A triangle valid at a target is valid at every larger target. -/
theorem Refinable.validAt_mono {fuel : Nat} {s : StaticMeshComponent}
    (hr : Refinable fuel s) (T1 T2 j : Nat) (hT : T2 ≤ T1) (hj : j < s.m_originPolygonCount)
    (h : validAt (useU16Index s.m_originVertexCount) s.m_map T2 fuel
      s.m_progressiveMeshIndexBuffer j = true) :
    validAt (useU16Index s.m_originVertexCount) s.m_map T1 fuel
      s.m_progressiveMeshIndexBuffer j = true := by
  have hP := hr.polygons_lt
  obtain ⟨p1, hp1, -⟩ := hr.collapse_polygon T1 j hj
  obtain ⟨p2, hp2, -⟩ := hr.collapse_polygon T2 j hj
  obtain ⟨c0, c1, c2⟩ := collapsedPolygon_compose (by omega) hT hp1 hp2
  rw [validAt_eq_of_collapsed hp2] at h
  rw [validAt_eq_of_collapsed hp1]
  exact isPolygonValid_of_collapse c0 c1 c2 h

theorem length_filter_le_of_imp (p q : Nat → Bool) (l : List Nat)
    (h : ∀ x ∈ l, p x = true → q x = true) :
    (l.filter p).length ≤ (l.filter q).length := by
  induction l with
  | nil => simp
  | cons a l ih =>
    have ih2 := ih (fun x hx => h x (List.mem_cons_of_mem _ hx))
    have ha := h a (List.mem_cons_self _ _)
    by_cases hpa : p a = true
    · simp only [List.filter_cons, hpa, ha hpa, if_true, List.length_cons]
      omega
    · by_cases hqa : q a = true
      · simp only [List.filter_cons, hpa, hqa, if_true, List.length_cons]
        simp only [Bool.false_eq_true, if_false]
        omega
      · simp only [List.filter_cons, hpa, hqa]
        simpa using ih2

/-! ## Monotonic polygon loss (C15) -/

/-- C15: for every component on which refinement is defined (collapse map with all
chains reaching 0) and all targets `T2 < T1`, the pass `UpdateProgressiveMeshData(T1)`
followed by `UpdateProgressiveMeshData(T2)` both complete, and `currentPolygonCount`
after the second pass is not greater than after the first. -/
theorem UpdateProgressiveMeshData_polygon_loss (fuel T1 T2 : Nat) (s : StaticMeshComponent)
    (hr : Refinable fuel s) (hT : T2 < T1) :
    ∃ s1 s2, UpdateProgressiveMeshData fuel T1 s = some s1 ∧
      UpdateProgressiveMeshData fuel T2 s1 = some s2 ∧
      s2.m_currentPolygonCount ≤ s1.m_currentPolygonCount := by
  obtain ⟨s1, h1, hr1⟩ := UpdateProgressiveMeshData_refinable hr T1
  obtain ⟨s2, h2, -⟩ := UpdateProgressiveMeshData_refinable hr1 T2
  refine ⟨s1, s2, h1, h2, ?_⟩
  obtain ⟨hs1, hl1, hhit1, hcount1⟩ := UpdateProgressiveMeshData_spec hr.polygons_lt h1
  obtain ⟨-, -, -, hcount2⟩ := UpdateProgressiveMeshData_spec hr1.polygons_lt h2
  have eP : s1.m_originPolygonCount = s.m_originPolygonCount := by rw [hs1]
  have eV : s1.m_originVertexCount = s.m_originVertexCount := by rw [hs1]
  have eM : s1.m_map = s.m_map := by rw [hs1]
  rw [hcount1, hcount2, eP, eV, eM]
  apply length_filter_le_of_imp
  intro j hj h
  have hj : j < s.m_originPolygonCount := List.mem_range.1 hj
  have hP := hr.polygons_lt
  by_cases hv : validAt (useU16Index s.m_originVertexCount) s.m_map T1 fuel
      s.m_progressiveMeshIndexBuffer j = true
  · exact hv
  · obtain ⟨p, hp, hslot⟩ := hhit1 j hj
    rw [validAt_eq_of_collapsed hp] at hv
    rw [if_neg hv] at hslot
    rw [validAt_congr _ _ _ _ _ _ j (by omega) hl1 hslot] at h
    have := hr.validAt_mono T1 T2 j (by omega) hj h
    rw [validAt_eq_of_collapsed hp] at this
    exact absurd this hv

/-- Witness of C15: the five-vertex fan refined to 3 and then to 2 goes from three
triangles to one. -/
theorem UpdateProgressiveMeshData_polygon_loss_witness :
    Refinable 5 fanProgressive ∧ 2 < 3 ∧
    ∃ s1 s2, UpdateProgressiveMeshData 5 3 fanProgressive = some s1 ∧
      UpdateProgressiveMeshData 5 2 s1 = some s2 ∧
      s2.m_currentPolygonCount ≤ s1.m_currentPolygonCount :=
  ⟨fanProgressive_refinable, by decide,
    UpdateProgressiveMeshData_polygon_loss 5 3 2 fanProgressive fanProgressive_refinable
      (by decide)⟩

/-! ## Lemmas: the buffer after earlier passes -/

theorem collapsedPolygon_of_bytes (V : Nat) (map : List Nat) (T fuel : Nat) (buf : List Nat)
    (j : Nat) (p q : Nat × Nat × Nat) (hj : 3 * j + 2 < U32) (hV : V < U32)
    (hp : p.1 < V ∧ p.2.1 < V ∧ p.2.2 < V)
    (hlen : (3 * j + 3) * indexTypeSize (useU16Index V) ≤ buf.length)
    (h : slot buf j (3 * indexTypeSize (useU16Index V)) = polygonArrayBytes (useU16Index V) p)
    (h0 : collapseIndex (useU16Index V) map T fuel p.1 = some q.1)
    (h1 : collapseIndex (useU16Index V) map T fuel p.2.1 = some q.2.1)
    (h2 : collapseIndex (useU16Index V) map T fuel p.2.2 = some q.2.2) :
    collapsedPolygon (useU16Index V) map T fuel buf j = some q := by
  obtain ⟨r0, r1, r2⟩ := readPolygon_eq_some.1
    (readPolygon_of_polygon_slot V buf j p hV hp hlen h)
  exact (collapsePolygon_eq_some hj).2 ⟨_, _, _, r0, r1, r2, h0, h1, h2⟩

theorem RefinedFrom.refl (fuel : Nat) (s : StaticMeshComponent) : RefinedFrom fuel s s :=
  ⟨rfl, rfl, rfl, rfl, fun _ _ => Or.inl rfl⟩

/-- What a pass computes for a triangle of a buffer that earlier passes have rewritten:
it is valid exactly when the triangle of the first buffer is valid at this target, and
a valid result is a collapsed form of that first triangle. -/
theorem RefinedFrom.collapse {fuel : Nat} {s c : StaticMeshComponent}
    (hr : Refinable fuel s) (hc : RefinedFrom fuel s c) (T j : Nat)
    (hj : j < s.m_originPolygonCount) :
    ∃ q, collapsedPolygon (useU16Index s.m_originVertexCount) s.m_map T fuel
        c.m_progressiveMeshIndexBuffer j = some q ∧
      isPolygonValid q = validAt (useU16Index s.m_originVertexCount) s.m_map T fuel
        s.m_progressiveMeshIndexBuffer j ∧
      (isPolygonValid q = true → ∃ T2,
        collapsedPolygon (useU16Index s.m_originVertexCount) s.m_map T2 fuel
          s.m_progressiveMeshIndexBuffer j = some q) := by
  have hP := hr.polygons_lt
  have h3 : 3 * j + 2 < U32 := by omega
  obtain ⟨r, hcr, -, -⟩ := hr.collapse_polygon T j hj
  rcases hc.triangles j hj with hsame | ⟨T1, p, hp, hpv, hbytes⟩
  · have e := collapsedPolygon_congr (useU16Index s.m_originVertexCount) s.m_map T fuel
      s.m_progressiveMeshIndexBuffer c.m_progressiveMeshIndexBuffer j h3 hc.length_eq hsame
    exact ⟨r, by rw [e, hcr], (validAt_eq_of_collapsed hcr).symm, fun _ => ⟨T, hcr⟩⟩
  · obtain ⟨p', hp', hpV, hpT⟩ := hr.collapse_polygon T1 j hj
    rw [hp] at hp'
    cases hp'
    have hin := hr.polygon_in_buffer j hj
    rw [← hc.length_eq] at hin
    by_cases hT : T ≤ T1
    · obtain ⟨c0, c1, c2⟩ := collapsedPolygon_compose h3 hT hp hcr
      exact ⟨r, collapsedPolygon_of_bytes _ _ _ _ _ j p r h3 hr.vertices_lt hpV hin hbytes
        c0 c1 c2, (validAt_eq_of_collapsed hcr).symm, fun _ => ⟨T, hcr⟩⟩
    · have k0 := collapseIndex_of_le (useU16Index s.m_originVertexCount) s.m_map T fuel p.1
        (by omega)
      have k1 := collapseIndex_of_le (useU16Index s.m_originVertexCount) s.m_map T fuel p.2.1
        (by omega)
      have k2 := collapseIndex_of_le (useU16Index s.m_originVertexCount) s.m_map T fuel p.2.2
        (by omega)
      obtain ⟨c0, c1, c2⟩ := collapsedPolygon_compose h3 (by omega : T1 ≤ T) hcr hp
      refine ⟨p, collapsedPolygon_of_bytes _ _ _ _ _ j p p h3 hr.vertices_lt hpV hin hbytes
        k0 k1 k2, ?_, fun _ => ⟨T1, hp⟩⟩
      rw [validAt_eq_of_collapsed hcr, hpv, isPolygonValid_of_collapse c0 c1 c2 hpv]

/-- One more pass keeps the link to the first buffer, and counts the triangles that a
pass with the same target counts on the first buffer. -/
theorem RefinedFrom.step {fuel : Nat} {s c c' : StaticMeshComponent}
    (hr : Refinable fuel s) (hc : RefinedFrom fuel s c) (T : Nat)
    (h : UpdateProgressiveMeshData fuel T c = some c') :
    RefinedFrom fuel s c' ∧
    c'.m_currentPolygonCount
      = ((List.range s.m_originPolygonCount).filter
          (validAt (useU16Index s.m_originVertexCount) s.m_map T fuel
            s.m_progressiveMeshIndexBuffer)).length := by
  have hPc : c.m_originPolygonCount * 3 < U32 := by
    rw [hc.polygons_eq]
    exact hr.polygons_lt
  obtain ⟨hs, hl, hhit, hcount⟩ := UpdateProgressiveMeshData_spec hPc h
  rw [hc.polygons_eq, hc.vertices_eq, hc.map_eq] at hhit hcount
  have eP : c'.m_originPolygonCount = c.m_originPolygonCount := by rw [hs]
  have eV : c'.m_originVertexCount = c.m_originVertexCount := by rw [hs]
  have eM : c'.m_map = c.m_map := by rw [hs]
  refine ⟨⟨eM.trans hc.map_eq, eV.trans hc.vertices_eq, eP.trans hc.polygons_eq,
    hl.trans hc.length_eq, fun j hj => ?_⟩, ?_⟩
  · obtain ⟨q, hq, hslot⟩ := hhit j hj
    obtain ⟨q', hq', -, hfrom⟩ := hc.collapse hr T j hj
    rw [hq] at hq'
    cases hq'
    by_cases hv : isPolygonValid q = true
    · rw [if_pos hv] at hslot
      obtain ⟨T2, hT2⟩ := hfrom hv
      exact Or.inr ⟨T2, q, hT2, hv, hslot⟩
    · rw [if_neg hv] at hslot
      rw [hslot]
      exact hc.triangles j hj
  · rw [hcount]
    congr 1
    apply List.filter_congr
    intro j hj
    have hj : j < s.m_originPolygonCount := List.mem_range.1 hj
    obtain ⟨q, hq, hval, -⟩ := hc.collapse hr T j hj
    rw [validAt_eq_of_collapsed hq, hval]

theorem refinePasses_refinedFrom {fuel : Nat} {s : StaticMeshComponent}
    (hr : Refinable fuel s) (Ts : List Nat) (c : StaticMeshComponent)
    (hc : RefinedFrom fuel s c) (hrc : Refinable fuel c) :
    ∃ c', refinePasses fuel Ts c = some c' ∧ RefinedFrom fuel s c' ∧ Refinable fuel c' := by
  induction Ts generalizing c with
  | nil => exact ⟨c, rfl, hc, hrc⟩
  | cons T rest ih =>
    obtain ⟨c1, h1, hr1⟩ := UpdateProgressiveMeshData_refinable hrc T
    obtain ⟨c', h', k⟩ := ih c1 (hc.step hr T h1).1 hr1
    exact ⟨c', by simp only [refinePasses, h1, Option.some_bind, h'], k⟩

/-- With a target not below the origin vertex count nothing collapses: a pass on the
first buffer counts the triangles stored with pairwise distinct indices. -/
theorem Refinable.collapse_full {fuel : Nat} {s : StaticMeshComponent}
    (hr : Refinable fuel s) (T j : Nat) (hT : s.m_originVertexCount ≤ T)
    (hj : j < s.m_originPolygonCount) (t : Nat × Nat × Nat)
    (ht : readPolygon (useU16Index s.m_originVertexCount) s.m_progressiveMeshIndexBuffer j
      = some t) :
    collapsedPolygon (useU16Index s.m_originVertexCount) s.m_map T fuel
      s.m_progressiveMeshIndexBuffer j = some t := by
  have hP := hr.polygons_lt
  obtain ⟨r0, r1, r2⟩ := readPolygon_eq_some.1 ht
  have b0 := hr.indices_lt (3 * j) _ (by omega) r0
  have b1 := hr.indices_lt (3 * j + 1) _ (by omega) r1
  have b2 := hr.indices_lt (3 * j + 2) _ (by omega) r2
  exact (collapsePolygon_eq_some (by omega)).2 ⟨_, _, _, r0, r1, r2,
    collapseIndex_of_le _ _ _ _ _ (by omega), collapseIndex_of_le _ _ _ _ _ (by omega),
    collapseIndex_of_le _ _ _ _ _ (by omega)⟩

/-! ## A pass overwrites the buffer it reads (C17) -/

/-- C17, the code at the failing input: on the five-vertex fan (origin vertex count 5),
refining to 3 and then back to 5 leaves the third triangle as `(1,2,3)`, while refining
directly to 5 leaves it as the original `(1,2,4)`. The pass to 3 has written the
collapsed triangle over the only copy of the full-resolution indices, so the pass back
to the origin vertex count cannot recompute from them. -/
theorem UpdateProgressiveMeshData_depends_on_earlier_pass :
    ∃ c d, refinePasses 5 [3, 5] fanProgressive = some c ∧
      UpdateProgressiveMeshData 5 5 fanProgressive = some d ∧
      fanProgressive.m_originVertexCount = 5 ∧
      readPolygon true c.m_progressiveMeshIndexBuffer 2 = some (1, 2, 3) ∧
      readPolygon true d.m_progressiveMeshIndexBuffer 2 = some (1, 2, 4) ∧
      c.m_progressiveMeshIndexBuffer ≠ d.m_progressiveMeshIndexBuffer :=
  ⟨{ fanAtThree with m_currentVertexCount := 5 },
    { fanProgressive with m_currentVertexCount := 5, m_currentPolygonCount := 3 },
    rfl, rfl, rfl, rfl, rfl, by decide⟩

/-- What survives the overwriting: after any earlier passes `Ts` on a refinable
component `s`, the pass
`UpdateProgressiveMeshData(T)` completes and gives the `currentPolygonCount` and
`currentVertexCount` that the same pass gives directly on `s`; each stored triangle is
the one `s` holds or a valid collapsed form of it; with `T` not below the origin vertex
count and all triangles of `s` pairwise distinct the count is `originPolygonCount`
again; and after one earlier pass to `T1 <= T` every triangle valid at `T1` is stored
with its `T1`-collapsed indices. -/
theorem UpdateProgressiveMeshData_in_place (fuel : Nat) (s : StaticMeshComponent)
    (hr : Refinable fuel s) (Ts : List Nat) (T : Nat) :
    ∃ c c' d, refinePasses fuel Ts s = some c ∧
      UpdateProgressiveMeshData fuel T c = some c' ∧
      UpdateProgressiveMeshData fuel T s = some d ∧
      c'.m_currentPolygonCount = d.m_currentPolygonCount ∧
      c'.m_currentVertexCount = d.m_currentVertexCount ∧
      RefinedFrom fuel s c' ∧
      (s.m_originVertexCount ≤ T →
        (∀ j : Nat, j < s.m_originPolygonCount → ∃ t,
          readPolygon (useU16Index s.m_originVertexCount) s.m_progressiveMeshIndexBuffer j
            = some t ∧ isPolygonValid t = true) →
        c'.m_currentPolygonCount = s.m_originPolygonCount) ∧
      (∀ T1 : Nat, Ts = [T1] → T1 ≤ T → ∀ (j : Nat) (p : Nat × Nat × Nat),
        j < s.m_originPolygonCount →
        collapsedPolygon (useU16Index s.m_originVertexCount) s.m_map T1 fuel
          s.m_progressiveMeshIndexBuffer j = some p →
        isPolygonValid p = true →
        slot c'.m_progressiveMeshIndexBuffer j
            (3 * indexTypeSize (useU16Index s.m_originVertexCount))
          = polygonArrayBytes (useU16Index s.m_originVertexCount) p) := by
  have hP := hr.polygons_lt
  obtain ⟨c, hc, hfrom, hrc⟩ := refinePasses_refinedFrom hr Ts s (RefinedFrom.refl fuel s) hr
  obtain ⟨c', hc', -⟩ := UpdateProgressiveMeshData_refinable hrc T
  obtain ⟨d, hd, -⟩ := UpdateProgressiveMeshData_refinable hr T
  obtain ⟨hfrom', hcount'⟩ := hfrom.step hr T hc'
  obtain ⟨hsd, -, -, hcountd⟩ := UpdateProgressiveMeshData_spec hP hd
  have hPc : c.m_originPolygonCount * 3 < U32 := hrc.polygons_lt
  obtain ⟨hsc, -, hhit, -⟩ := UpdateProgressiveMeshData_spec hPc hc'
  refine ⟨c, c', d, hc, hc', hd, by rw [hcount', hcountd], ?_, hfrom', ?_, ?_⟩
  · have e1 : c'.m_currentVertexCount = T := by rw [hsc]
    have e2 : d.m_currentVertexCount = T := by rw [hsd]
    rw [e1, e2]
  · intro hT hall
    rw [hcount']
    have hfilter : (List.range s.m_originPolygonCount).filter
        (validAt (useU16Index s.m_originVertexCount) s.m_map T fuel
          s.m_progressiveMeshIndexBuffer) = List.range s.m_originPolygonCount := by
      rw [List.filter_eq_self]
      intro j hj
      have hj : j < s.m_originPolygonCount := List.mem_range.1 hj
      obtain ⟨t, ht, htv⟩ := hall j hj
      rw [validAt_eq_of_collapsed (hr.collapse_full T j hT hj t ht)]
      exact htv
    rw [hfilter, List.length_range]
  · intro T1 hTs hT j p hj hp hpv
    subst hTs
    have h1 : UpdateProgressiveMeshData fuel T1 s = some c := by
      cases hu : UpdateProgressiveMeshData fuel T1 s with
      | none => simp [refinePasses, hu] at hc
      | some u =>
        simp only [refinePasses, hu, Option.some_bind, Option.some.injEq] at hc
        rw [hc]
    obtain ⟨-, hl1, hhit1, -⟩ := UpdateProgressiveMeshData_spec hP h1
    obtain ⟨p1, hp1, hslot1⟩ := hhit1 j hj
    rw [hp] at hp1
    cases hp1
    rw [if_pos hpv] at hslot1
    obtain ⟨p', hp', hpV, hpT⟩ := hr.collapse_polygon T1 j hj
    rw [hp] at hp'
    cases hp'
    have hin := hr.polygon_in_buffer j hj
    rw [← hl1] at hin
    have hq := collapsedPolygon_of_bytes s.m_originVertexCount s.m_map T fuel
      c.m_progressiveMeshIndexBuffer j p p (by omega) hr.vertices_lt hpV hin hslot1
      (collapseIndex_of_le _ _ _ _ _ (by omega)) (collapseIndex_of_le _ _ _ _ _ (by omega))
      (collapseIndex_of_le _ _ _ _ _ (by omega))
    have hjc : j < c.m_originPolygonCount := by rw [hfrom.polygons_eq]; exact hj
    obtain ⟨q, hq', hslot⟩ := hhit j hjc
    rw [hfrom.vertices_eq, hfrom.map_eq] at hq'
    rw [hfrom.vertices_eq] at hslot
    rw [hq] at hq'
    cases hq'
    rw [hslot, if_pos hpv]

/-- The five-vertex fan refined to 3 and then back to 5 counts three triangles, as a
direct pass to 5 does. -/
theorem UpdateProgressiveMeshData_in_place_witness :
    Refinable 5 fanProgressive ∧
    ∃ c c' d, refinePasses 5 [3] fanProgressive = some c ∧
      UpdateProgressiveMeshData 5 5 c = some c' ∧
      UpdateProgressiveMeshData 5 5 fanProgressive = some d ∧
      c'.m_currentPolygonCount = d.m_currentPolygonCount ∧
      c'.m_currentVertexCount = d.m_currentVertexCount :=
  have h := UpdateProgressiveMeshData_in_place 5 fanProgressive fanProgressive_refinable
    [3] 5
  ⟨fanProgressive_refinable, by
    obtain ⟨c, c', d, h1, h2, h3, h4, h5, -⟩ := h
    exact ⟨c, c', d, h1, h2, h3, h4, h5⟩⟩

/-! ## Lemmas: from Build to the first refinement pass -/

/-- The method `BuildProgressiveMeshData` runs to completion on a packed component
whose permutation entries and packed indices are vertex indices. -/
theorem BuildProgressiveMeshData_succeeds (b : CollapseBackend) (s : StaticMeshComponent)
    (mesh : Mesh) (fmt : VertexFormat)
    (hvalid : IsProgressiveMeshValid s = false) (hm : s.m_pMeshData = some mesh)
    (hf : s.m_pRequiredVertexFormat = some fmt)
    (hne : s.m_vertexBuffer.isEmpty = false)
    (hlen : s.m_vertexBuffer.length = s.m_currentVertexCount * fmt.GetStride)
    (hsize : s.m_currentVertexCount * fmt.GetStride < U32)
    (hP : s.m_currentPolygonCount * 3 < U32)
    (hperm : ∀ j : Nat, j < s.m_currentVertexCount →
      ∃ p, b.permutation[j]? = some p ∧ p < s.m_currentVertexCount)
    (hidx : ∀ k : Nat, k < s.m_currentPolygonCount * 3 → ∃ v,
      readIndex (useU16Index s.m_currentVertexCount) s.m_indexBuffer k = some v ∧
      v < s.m_currentVertexCount)
    (hvh : b.vertexBufferHandle ≠ UINT16_MAX) (hih : b.indexBufferHandle ≠ UINT16_MAX) :
    ∃ s', BuildProgressiveMeshData b s = some s' := by
  obtain ⟨pvb, hpvb⟩ := scatterVertices_some b.permutation fmt.GetStride
    s.m_currentVertexCount s.m_vertexBuffer hsize hlen s.m_currentVertexCount 0
    (resize s.m_progressiveMeshVertexBuffer s.m_vertexBuffer.length) (by omega)
    (by rw [length_resize, hlen]) (fun j _ hj => hperm j (by omega))
  obtain ⟨pib, hpib⟩ := rewriteIndices_some (useU16Index s.m_currentVertexCount)
    b.permutation s.m_currentVertexCount s.m_indexBuffer (s.m_currentPolygonCount * 3) 0
    (resize s.m_progressiveMeshIndexBuffer s.m_indexBuffer.length) (length_resize _ _)
    (fun j _ hj => by
      obtain ⟨v, hv, hvV⟩ := hidx j (by omega)
      obtain ⟨p, hp, hpV⟩ := hperm v hvV
      exact ⟨v, p, hv, hp, hpV⟩)
  have e1 : (fmt.GetStride * s.m_currentVertexCount) % U32 = s.m_vertexBuffer.length := by
    rw [Nat.mul_comm, Nat.mod_eq_of_lt hsize, hlen]
  apply Option.isSome_iff_exists.1
  unfold BuildProgressiveMeshData
  simp only [hvalid, hm, hf, hne, e1, Bool.false_eq_true, if_false, ne_eq, not_true_eq_false,
    reorderVertexBuffer, BuildIndexBuffer, Nat.mod_eq_of_lt hP, hpvb, hpib, Option.some_bind,
    SubmitBuffer, if_neg hvh, if_neg hih, Option.isSome_some]

/-- After `BuildProgressiveMeshData` with a collapse map whose chains reach 0, refinement
is defined on the component. -/
theorem BuildProgressiveMeshData_refinable {b : CollapseBackend} {s s' : StaticMeshComponent}
    {fmt : VertexFormat} (fuel : Nat)
    (hvalid : IsProgressiveMeshValid s = false)
    (hf : s.m_pRequiredVertexFormat = some fmt)
    (hV : s.m_currentVertexCount < U32) (hP : s.m_currentPolygonCount * 3 < U32)
    (hmapl : b.map.length = s.m_currentVertexCount)
    (hmaplt : ∀ m ∈ b.map, m < s.m_currentVertexCount)
    (hreach : ∀ i : Nat, i < s.m_currentVertexCount →
      ∃ k, k ≤ fuel ∧ mapChain b.map k i = some 0)
    (h : BuildProgressiveMeshData b s = some s') : Refinable fuel s' := by
  obtain ⟨-, pvb, pib, -, hpib, hs⟩ := BuildProgressiveMeshData_some hvalid hf h
  rw [Nat.mod_eq_of_lt hP] at hpib
  obtain ⟨hl, hhit, -⟩ := rewriteIndices_spec _ _ _ _ _ _ _ _ hpib
  subst hs
  refine ⟨hP, hV, ?_, ?_, hmapl, hmaplt, hreach⟩
  · show s.m_currentPolygonCount * 3 * indexTypeSize (useU16Index s.m_currentVertexCount)
      ≤ pib.length
    by_cases h0 : s.m_currentPolygonCount * 3 = 0
    · rw [h0]; omega
    · obtain ⟨-, -, -, -, -, -, hin⟩ := hhit (s.m_currentPolygonCount * 3 - 1)
        (Nat.zero_le _) (by omega)
      rw [Nat.sub_add_cancel (by omega)] at hin
      exact hin
  · intro k v hk hread
    change k < s.m_currentPolygonCount * 3 at hk
    change readIndex (useU16Index s.m_currentVertexCount) pib k = some v at hread
    obtain ⟨-, p, -, -, hpV, hslot, hin⟩ := hhit k (Nat.zero_le _) (by omega)
    obtain ⟨-, hv⟩ := readIndex_eq_some.1 hread
    rw [hv, hslot, leValue_encodeIndex_of_lt _ _ hV hpV]
    exact hpV

theorem wideMesh_wellFormed : wideMesh.WellFormed :=
  ⟨by decide, rfl, by decide, by decide, by decide, by simp [wideMesh, taggedMesh]⟩

theorem Submit_eq_some (b : SubmitBackend) (s : StaticMeshComponent) (fmt : VertexFormat)
    (hf : s.m_pRequiredVertexFormat = some fmt)
    (hv : b.vertexBufferHandle ≠ UINT16_MAX) (hi : b.indexBufferHandle ≠ UINT16_MAX)
    (hw : b.wireframeIndexBufferHandle ≠ UINT16_MAX) :
    Submit b s = some ({ s with
        m_vertexBufferHandle := b.vertexBufferHandle
        m_indexBufferHandle := b.indexBufferHandle
        m_wireframeIndexBufferHandle := b.wireframeIndexBufferHandle },
      useU16Index s.m_currentVertexCount) := by
  simp only [Submit, hf, SubmitBuffer, if_neg hv, if_neg hi, if_neg hw, Option.some_bind,
    submitUseU16Index]

/-! ## Index width after refinement (C19) -/

/-- C19, the code at the failing input: a mesh of 65537 vertices is packed by `Build`
with 32-bit indices, and `BuildProgressiveMeshData` and the refinement pass
`UpdateProgressiveMeshData(100)` use the 32-bit width of the origin vertex count; the
pass lowers `currentVertexCount` to 100, and a `Submit` after it hands the unchanged
32-bit index buffer to the backend flagged as 16-bit, the width `BuildWireframeData`
would compute too. Read as 16-bit the second index of the buffer is 0, not 1. -/
theorem Submit_width_after_refinement :
    ∃ built prog refined submitted,
      Build (freshComponent wideMesh formatP) = some built ∧
      useU16Index built.m_currentVertexCount = false ∧
      built.m_indexBuffer = [0, 0, 0, 0, 1, 0, 0, 0, 2, 0, 0, 0] ∧
      BuildProgressiveMeshData wideBackend built = some prog ∧
      useU16Index prog.m_originVertexCount = false ∧
      UpdateProgressiveMeshData 1 100 prog = some refined ∧
      useU16Index refined.m_originVertexCount = false ∧
      refined.m_indexBuffer = built.m_indexBuffer ∧
      Submit workedSubmitBackend refined = some (submitted, true) ∧
      submitted.m_indexBuffer = built.m_indexBuffer ∧
      useU16Index refined.m_currentVertexCount = true ∧
      readIndex false built.m_indexBuffer 1 = some 1 ∧
      readIndex true submitted.m_indexBuffer 1 = some 0 := by
  obtain ⟨w, hw⟩ := @Build_eq (freshComponent wideMesh formatP) wideMesh formatP rfl rfl
    (by decide) wideMesh_wellFormed (by decide) (by decide)
  have hib : packedIndices (useU16Index wideMesh.vertexCount) wideMesh.polygons
      = [0, 0, 0, 0, 1, 0, 0, 0, 2, 0, 0, 0] := by decide
  have hvl : (packedVertices wideMesh formatP
      ++ (resize [] ((wideMesh.vertexCount * formatP.GetStride) % U32)).drop
        (wideMesh.vertexCount * recordSize formatP)).length = 65537 * formatP.GetStride := by
    rw [List.length_append, length_packedVertices, List.length_drop, length_resize]
    decide
  have hidx : ∀ k : Nat, k < 3 →
      (readIndex false [0, 0, 0, 0, 1, 0, 0, 0, 2, 0, 0, 0] k).any
        (fun v => decide (v < 65537)) = true := by decide
  generalize hb : ({ builtState (freshComponent wideMesh formatP) wideMesh formatP with
    m_wireframeIndexBuffer := w } : StaticMeshComponent) = built at hw
  have b1 : built.m_currentVertexCount = 65537 := by rw [← hb]; rfl
  have b2 : built.m_currentPolygonCount = 1 := by rw [← hb]; rfl
  have b3 : built.m_indexBuffer = [0, 0, 0, 0, 1, 0, 0, 0, 2, 0, 0, 0] := by
    rw [← hb]; exact hib
  have b4 : built.m_vertexBuffer.length = 65537 * formatP.GetStride := by
    rw [← hb]; exact hvl
  have b5 : built.m_pRequiredVertexFormat = some formatP := by rw [← hb]; rfl
  have b6 : IsProgressiveMeshValid built = false := by rw [← hb]; rfl
  have b7 : built.m_pMeshData = some wideMesh := by rw [← hb]; rfl
  have b8 : built.m_vertexBuffer.isEmpty = false := by
    cases hvb : built.m_vertexBuffer with
    | nil =>
      rw [hvb] at b4
      exact absurd b4 (by decide)
    | cons a l => rfl
  have hu : useU16Index 65537 = false := by decide
  have hperm : wideBackend.permutation = List.range 65537 := by simp only [wideBackend]
  have hmap : wideBackend.map = List.replicate 65537 0 := by simp only [wideBackend]
  obtain ⟨prog, hprog⟩ := BuildProgressiveMeshData_succeeds wideBackend built wideMesh formatP
    b6 b7 b5 b8 (by rw [b4, b1]) (by rw [b1]; decide) (by rw [b2]; decide)
    (fun j hj => by
      rw [b1] at hj ⊢
      rw [hperm]
      exact ⟨j, List.getElem?_range hj, hj⟩)
    (fun k hk => by
      rw [b2] at hk
      rw [b1, b3, hu]
      have := hidx k (by omega)
      cases hr : readIndex false [0, 0, 0, 0, 1, 0, 0, 0, 2, 0, 0, 0] k with
      | none => rw [hr] at this; cases this
      | some v =>
        rw [hr] at this
        exact ⟨v, rfl, by simpa using this⟩)
    (by decide) (by decide)
  have hr : Refinable 1 prog := BuildProgressiveMeshData_refinable 1 b6 b5
    (by rw [b1]; decide) (by rw [b2]; decide)
    (by rw [b1, hmap, List.length_replicate])
    (fun m hm => by
      rw [hmap] at hm
      rw [b1, List.eq_of_mem_replicate hm]
      decide)
    (fun i hi => by
      rw [b1] at hi
      refine ⟨1, Nat.le_refl _, ?_⟩
      rw [hmap]
      show ((List.replicate 65537 0)[i]?).bind (mapChain (List.replicate 65537 0) 0) = some 0
      rw [List.getElem?_replicate, if_pos hi]
      rfl)
    hprog
  obtain ⟨-, pvb, pib, -, -, hsp⟩ := BuildProgressiveMeshData_some b6 b5 hprog
  obtain ⟨refined, href, -⟩ := UpdateProgressiveMeshData_refinable hr 100
  obtain ⟨hsr, -, -, -⟩ := UpdateProgressiveMeshData_spec hr.polygons_lt href
  have p1 : prog.m_originVertexCount = 65537 := by rw [hsp]; exact b1
  have p2 : prog.m_indexBuffer = built.m_indexBuffer := by rw [hsp]
  have p3 : prog.m_pRequiredVertexFormat = some formatP := by rw [hsp]; exact b5
  have r1 : refined.m_originVertexCount = 65537 := by rw [hsr]; exact p1
  have r2 : refined.m_indexBuffer = built.m_indexBuffer := by rw [hsr]; exact p2
  have r3 : refined.m_pRequiredVertexFormat = some formatP := by rw [hsr]; exact p3
  have r4 : refined.m_currentVertexCount = 100 := by rw [hsr]
  have hsub := Submit_eq_some workedSubmitBackend refined formatP r3 (by decide) (by decide)
    (by decide)
  rw [r4] at hsub
  refine ⟨built, prog, refined, _, hw, by rw [b1]; decide, b3, hprog, by rw [p1]; decide,
    href, by rw [r1]; decide, r2, hsub, r2, by rw [r4]; decide, by rw [b3]; decide, ?_⟩
  show readIndex true refined.m_indexBuffer 1 = some 0
  rw [r2, b3]
  decide

/-! ## Reset and the LOD state (C21) -/

/-- C21, the code at the failing input: `Reset()` assigns the two origin counts, the
two current counts and the reduction percent, but not the target vertex count. After
`Reset()` the target vertex count is the one the component had before: 5 on the fan
component and 3 on the one-triangle component, whose hierarchies were built from 5 and
3 vertices; the other five fields of the LOD state hold `UINT32_MAX` or 1. -/
theorem Reset_keeps_targetVertexCount :
    (Reset fanProgressive).m_progressiveMeshTargetVertexCount = 5 ∧
    (Reset triangleProgressive).m_progressiveMeshTargetVertexCount = 3 ∧
    (∀ s : StaticMeshComponent,
      (Reset s).m_progressiveMeshTargetVertexCount = s.m_progressiveMeshTargetVertexCount) ∧
    ∀ s : StaticMeshComponent,
      (Reset s).m_originVertexCount = UINT32_MAX ∧
      (Reset s).m_originPolygonCount = UINT32_MAX ∧
      (Reset s).m_progressiveMeshReductionPercent = 1 ∧
      (Reset s).m_currentVertexCount = UINT32_MAX ∧
      (Reset s).m_currentPolygonCount = UINT32_MAX :=
  ⟨rfl, rfl, fun _ => rfl, fun _ => ⟨rfl, rfl, rfl, rfl, rfl⟩⟩

/-! ## The percent-driven entry point (C23) -/

/-- C23: with the reduction percent in `[0, 1]`, `UpdateProgressiveMeshData()` computes
the target `min(targetVertexCount, percentVertexCount)`; when this equals
`currentVertexCount` the component is returned as it is, every field unchanged, and
otherwise the result is that of the refinement pass to this target. -/
theorem UpdateProgressiveMeshDataPercent_guard (fuel percentVertexCount : Nat)
    (s : StaticMeshComponent)
    (hpercent : 0 ≤ s.m_progressiveMeshReductionPercent ∧
      s.m_progressiveMeshReductionPercent ≤ 1) :
    (min s.m_progressiveMeshTargetVertexCount percentVertexCount = s.m_currentVertexCount →
      UpdateProgressiveMeshDataPercent fuel percentVertexCount s = some s) ∧
    (min s.m_progressiveMeshTargetVertexCount percentVertexCount ≠ s.m_currentVertexCount →
      UpdateProgressiveMeshDataPercent fuel percentVertexCount s
        = UpdateProgressiveMeshData fuel
            (min s.m_progressiveMeshTargetVertexCount percentVertexCount) s) := by
  constructor
  · intro h
    simp only [UpdateProgressiveMeshDataPercent, if_pos hpercent, h, ne_eq, not_true_eq_false,
      if_false]
  · intro h
    simp only [UpdateProgressiveMeshDataPercent, if_pos hpercent, ne_eq, h, not_false_eq_true,
      if_true]

/-- Witness of C23: on the fan component (5 of 5 vertices current, percent 1) a computed
count of 5 changes nothing, and a computed count of 3 runs the pass to 3. -/
theorem UpdateProgressiveMeshDataPercent_guard_witness :
    (0 ≤ fanProgressive.m_progressiveMeshReductionPercent ∧
      fanProgressive.m_progressiveMeshReductionPercent ≤ 1) ∧
    UpdateProgressiveMeshDataPercent 5 5 fanProgressive = some fanProgressive ∧
    UpdateProgressiveMeshDataPercent 5 3 fanProgressive = some fanAtThree :=
  have hp : 0 ≤ fanProgressive.m_progressiveMeshReductionPercent ∧
      fanProgressive.m_progressiveMeshReductionPercent ≤ 1 := by
    constructor <;> decide
  ⟨hp, (UpdateProgressiveMeshDataPercent_guard 5 5 fanProgressive hp).1 (by decide),
    ((UpdateProgressiveMeshDataPercent_guard 5 3 fanProgressive hp).2 (by decide)).trans
      UpdateProgressiveMeshData_fan_three⟩

/-! ## What a refinement pass leaves alone (C24) -/

theorem updatePolygon_length (u16 : Bool) (map : List Nat) (T fuel j : Nat)
    (st out : List Nat × Nat) (h : updatePolygon u16 map T fuel j st = some out) :
    out.1.length = st.1.length := by
  simp only [updatePolygon, Option.bind_eq_some] at h
  obtain ⟨p, -, hrest⟩ := h
  by_cases hv : isPolygonValid p = true
  · rw [if_pos hv] at hrest
    simp only [Option.map_eq_some'] at hrest
    obtain ⟨b, hb, rfl⟩ := hrest
    exact length_memcpyAt hb
  · rw [if_neg hv] at hrest
    cases hrest
    rfl

theorem updatePolygons_length (u16 : Bool) (map : List Nat) (T fuel : Nat) (n j0 : Nat)
    (st out : List Nat × Nat) (h : updatePolygons u16 map T fuel n j0 st = some out) :
    out.1.length = st.1.length := by
  induction n generalizing j0 st with
  | zero =>
    simp only [updatePolygons, Option.some.injEq] at h
    rw [← h]
  | succ n ih =>
    simp only [updatePolygons, Option.bind_eq_some] at h
    obtain ⟨st1, hstep, hrest⟩ := h
    rw [ih _ _ hrest, updatePolygon_length _ _ _ _ _ _ _ hstep]

/-- C24: a refinement pass `UpdateProgressiveMeshData(T)` changes only the progressive
index buffer, `currentVertexCount` and `currentPolygonCount`. Whenever the pass
completes, the base vertex and index buffers, the progressive vertex buffer, the
wireframe index buffer, the permutation, the collapse map, the two origin counts and
the length of the progressive index buffer are as before; and the pass completes on
every component on which refinement is defined. -/
theorem UpdateProgressiveMeshData_frame (fuel T : Nat) (s : StaticMeshComponent) :
    (∀ s', UpdateProgressiveMeshData fuel T s = some s' →
      s' = { s with
        m_currentVertexCount := T
        m_progressiveMeshIndexBuffer := s'.m_progressiveMeshIndexBuffer
        m_currentPolygonCount := s'.m_currentPolygonCount } ∧
      s'.m_vertexBuffer = s.m_vertexBuffer ∧ s'.m_indexBuffer = s.m_indexBuffer ∧
      s'.m_progressiveMeshVertexBuffer = s.m_progressiveMeshVertexBuffer ∧
      s'.m_wireframeIndexBuffer = s.m_wireframeIndexBuffer ∧
      s'.m_permutation = s.m_permutation ∧ s'.m_map = s.m_map ∧
      s'.m_originVertexCount = s.m_originVertexCount ∧
      s'.m_originPolygonCount = s.m_originPolygonCount ∧
      s'.m_progressiveMeshIndexBuffer.length = s.m_progressiveMeshIndexBuffer.length) ∧
    (Refinable fuel s → ∃ s', UpdateProgressiveMeshData fuel T s = some s') := by
  constructor
  · intro s' h
    obtain ⟨out, hout, hs⟩ := UpdateProgressiveMeshData_eq_some.1 h
    have hl := updatePolygons_length _ _ _ _ _ _ _ _ hout
    subst hs
    exact ⟨rfl, rfl, rfl, rfl, rfl, rfl, rfl, rfl, rfl, hl⟩
  · intro hr
    obtain ⟨s', h, -⟩ := UpdateProgressiveMeshData_refinable hr T
    exact ⟨s', h⟩

/-- Witness of C24: the pass to target 3 on the fan component. -/
theorem UpdateProgressiveMeshData_frame_witness :
    UpdateProgressiveMeshData 5 3 fanProgressive = some fanAtThree ∧
    fanAtThree.m_vertexBuffer = fanProgressive.m_vertexBuffer ∧
    fanAtThree.m_indexBuffer = fanProgressive.m_indexBuffer ∧
    fanAtThree.m_map = fanProgressive.m_map ∧
    fanAtThree.m_progressiveMeshIndexBuffer.length
      = fanProgressive.m_progressiveMeshIndexBuffer.length ∧
    ∃ s', UpdateProgressiveMeshData 5 3 fanProgressive = some s' :=
  have h := UpdateProgressiveMeshData_frame 5 3 fanProgressive
  have k := h.1 fanAtThree UpdateProgressiveMeshData_fan_three
  ⟨UpdateProgressiveMeshData_fan_three, k.2.1, k.2.2.1, k.2.2.2.2.2.2.1,
    k.2.2.2.2.2.2.2.2.2, h.2 fanProgressive_refinable⟩

/-! ## An index equal to the target (C28) -/

/-- C28: the chase collapses only indices strictly greater than `T`, so an index equal
to `T` is kept. On the five-vertex fan with target 3 (and `0 < 3 < 5`) the pass leaves
`GetVertexCount() = 3`, while the first triangle, counted as valid, is stored as
`(0, 1, 3)` and references index 3, outside `[0, 3)`. -/
theorem UpdateProgressiveMeshData_keeps_index_at_target :
    (∀ (u16 : Bool) (map : List Nat) (T fuel : Nat),
      collapseIndex u16 map T fuel T = some T) ∧
    ∃ s', 0 < 3 ∧ 3 < fanProgressive.m_originVertexCount ∧
      UpdateProgressiveMeshData 5 3 fanProgressive = some s' ∧
      GetVertexCount s' = 3 ∧ GetPolygonCount s' = 3 ∧
      validAt true fanProgressive.m_map 3 5 fanProgressive.m_progressiveMeshIndexBuffer 0
        = true ∧
      readPolygon true s'.m_progressiveMeshIndexBuffer 0 = some (0, 1, 3) ∧
      ¬ (3 < GetVertexCount s') :=
  ⟨fun u16 map T fuel => collapseIndex_of_le u16 map T fuel T (Nat.le_refl _),
    fanAtThree, by decide, by decide, rfl, rfl, rfl, rfl, rfl, by decide⟩

/-! ## Termination of the collapse chase (C25) -/

/-- On a map whose entries strictly descend, the chase from `i` stops within `i` steps. -/
theorem collapseIndex_descending (u16 : Bool) (map : List Nat) (T : Nat)
    (hfit : u16 = true → map.length ≤ 65536) (hU : map.length < U32)
    (hdesc : ∀ i m : Nat, 0 < i → map[i]? = some m → m < i)
    (fuel i : Nat) (hi : i ≤ fuel) (hlt : i < map.length) :
    ∃ n r, n ≤ i ∧ mapChain map n i = some r ∧ r ≤ T ∧
      (∀ m : Nat, m < n → ∃ w, mapChain map m i = some w ∧ T < w) ∧
      collapseIndex u16 map T fuel i = some r := by
  induction fuel generalizing i with
  | zero =>
    have h0 : i = 0 := by omega
    subst h0
    exact ⟨0, 0, Nat.le_refl _, rfl, Nat.zero_le _, fun m hm => by omega,
      collapseIndex_of_le u16 map T 0 0 (Nat.zero_le _)⟩
  | succ fuel ih =>
    by_cases hT : i > T
    · have hget : map[i]? = some (map.get ⟨i, hlt⟩) := List.getElem?_eq_getElem hlt
      generalize map.get ⟨i, hlt⟩ = m at hget
      have hm : m < i := hdesc i m (by omega) hget
      have hmfit : toIndexType u16 m = m := by
        unfold toIndexType
        by_cases hu : u16 = true
        · rw [if_pos hu]
          have := hfit hu
          exact Nat.mod_eq_of_lt (by omega)
        · rw [if_neg hu]
          exact Nat.mod_eq_of_lt (by omega)
      obtain ⟨n, r, hn, hch, hr, hpre, hcol⟩ := ih m (by omega) (by omega)
      refine ⟨n + 1, r, by omega, ?_, hr, ?_, ?_⟩
      · simp only [mapChain, hget, Option.some_bind, hch]
      · intro k hk
        cases k with
        | zero => exact ⟨i, rfl, hT⟩
        | succ k =>
          obtain ⟨w, hw, hwT⟩ := hpre k (by omega)
          exact ⟨w, by simp only [mapChain, hget, Option.some_bind, hw], hwT⟩
      · simp only [collapseIndex, if_pos hT, hget, Option.some_bind, hmfit, hcol]
    · exact ⟨0, i, Nat.zero_le _, rfl, by omega, fun m hm => by omega,
        collapseIndex_of_le u16 map T _ i (by omega)⟩

/-- C25: the collapse chase terminates. If `map[i] < i` for every `i > 0`, then for
every start index `i < originVertexCount` and every target `T` the chase stops after
`n <= originVertexCount` lookups with a value `r <= T`, every earlier value being above
`T`; and a refinement pass over a buffer of `3 x originPolygonCount` indices below
`originVertexCount` completes for every `T`, with fuel `originVertexCount`. -/
theorem UpdateProgressiveMeshData_terminates (T : Nat) (s : StaticMeshComponent)
    (hV : s.m_originVertexCount < U32) (hP : s.m_originPolygonCount * 3 < U32)
    (hlen : s.m_map.length = s.m_originVertexCount)
    (hdesc : ∀ i m : Nat, 0 < i → s.m_map[i]? = some m → m < i)
    (hbuf : s.m_originPolygonCount * 3 * indexTypeSize (useU16Index s.m_originVertexCount)
      ≤ s.m_progressiveMeshIndexBuffer.length)
    (hidx : ∀ k v : Nat, k < s.m_originPolygonCount * 3 →
      readIndex (useU16Index s.m_originVertexCount) s.m_progressiveMeshIndexBuffer k = some v →
      v < s.m_originVertexCount) :
    (∀ i : Nat, i < s.m_originVertexCount → ∃ n r, n ≤ s.m_originVertexCount ∧
      mapChain s.m_map n i = some r ∧ r ≤ T ∧
      (∀ m : Nat, m < n → ∃ w, mapChain s.m_map m i = some w ∧ T < w) ∧
      collapseIndex (useU16Index s.m_originVertexCount) s.m_map T s.m_originVertexCount i
        = some r) ∧
    ∃ s', UpdateProgressiveMeshData s.m_originVertexCount T s = some s' := by
  have hfit : useU16Index s.m_originVertexCount = true → s.m_map.length ≤ 65536 := by
    intro hu
    rw [hlen]
    exact (useU16Index_iff _).1 hu
  have hchase : ∀ i : Nat, i < s.m_originVertexCount → ∃ n r, n ≤ s.m_originVertexCount ∧
      mapChain s.m_map n i = some r ∧ r ≤ T ∧
      (∀ m : Nat, m < n → ∃ w, mapChain s.m_map m i = some w ∧ T < w) ∧
      collapseIndex (useU16Index s.m_originVertexCount) s.m_map T s.m_originVertexCount i
        = some r := by
    intro i hi
    obtain ⟨n, r, hn, hch, hr, hpre, hcol⟩ := collapseIndex_descending
      (useU16Index s.m_originVertexCount) s.m_map T hfit (by omega) hdesc
      s.m_originVertexCount i (by omega) (by omega)
    exact ⟨n, r, by omega, hch, hr, hpre, hcol⟩
  refine ⟨hchase, ?_⟩
  have hread : ∀ k : Nat, k < s.m_originPolygonCount * 3 → ∃ v r,
      readIndex (useU16Index s.m_originVertexCount) s.m_progressiveMeshIndexBuffer k = some v ∧
      collapseIndex (useU16Index s.m_originVertexCount) s.m_map T s.m_originVertexCount v
        = some r := by
    intro k hk
    have hle : (k + 1) * indexTypeSize (useU16Index s.m_originVertexCount)
        ≤ s.m_progressiveMeshIndexBuffer.length := by
      have : (k + 1) * indexTypeSize (useU16Index s.m_originVertexCount)
          ≤ s.m_originPolygonCount * 3 * indexTypeSize (useU16Index s.m_originVertexCount) :=
        Nat.mul_le_mul_right _ (by omega)
      exact le_trans this hbuf
    have hr := readIndex_eq_some.2 ⟨hle, rfl⟩
    obtain ⟨n, r, -, -, -, -, hcol⟩ := hchase _ (hidx k _ hk hr)
    exact ⟨_, r, hr, hcol⟩
  obtain ⟨out, hout⟩ := updatePolygons_some (useU16Index s.m_originVertexCount) s.m_map T
    s.m_originVertexCount s.m_originPolygonCount 0 s.m_progressiveMeshIndexBuffer 0
    (by omega)
    (fun j _ hj => by
      obtain ⟨a, p0, ha, h0⟩ := hread (3 * j) (by omega)
      obtain ⟨b, p1, hb, h1⟩ := hread (3 * j + 1) (by omega)
      obtain ⟨c, p2, hc, h2⟩ := hread (3 * j + 2) (by omega)
      exact ⟨(p0, p1, p2),
        (collapsePolygon_eq_some (by omega)).2 ⟨a, b, c, ha, hb, hc, h0, h1, h2⟩⟩)
  exact ⟨_, UpdateProgressiveMeshData_eq_some.2 ⟨out, hout, rfl⟩⟩

/-- Witness of C25: the map `[0, 0, 1, 1, 3]` of the fan component descends. -/
theorem UpdateProgressiveMeshData_terminates_witness :
    (∀ i m : Nat, 0 < i → fanProgressive.m_map[i]? = some m → m < i) ∧
    (∀ i : Nat, i < fanProgressive.m_originVertexCount → ∃ n r,
      n ≤ fanProgressive.m_originVertexCount ∧
      mapChain fanProgressive.m_map n i = some r ∧ r ≤ 2 ∧
      (∀ m : Nat, m < n → ∃ w, mapChain fanProgressive.m_map m i = some w ∧ 2 < w) ∧
      collapseIndex (useU16Index fanProgressive.m_originVertexCount) fanProgressive.m_map 2
        fanProgressive.m_originVertexCount i = some r) ∧
    ∃ s', UpdateProgressiveMeshData fanProgressive.m_originVertexCount 2 fanProgressive
      = some s' :=
  have hdesc : ∀ i m : Nat, 0 < i → fanProgressive.m_map[i]? = some m → m < i := by
    intro i m hi hm
    have hlt : i < 5 := lt_length_of_getElem? hm
    have hall : ∀ k : Nat, k < 5 → 0 < k →
        (fanProgressive.m_map[k]?).all (fun v => decide (v < k)) = true := by decide
    have := hall i hlt hi
    rw [hm] at this
    simpa using this
  ⟨hdesc, UpdateProgressiveMeshData_terminates 2 fanProgressive (by decide) (by decide) rfl
    hdesc (by decide) fanProgressive_refinable.indices_lt⟩

/-! ## Lemmas: a pass that rewrites what is already there -/

theorem memcpyAt_slot_self (buf : List Nat) (j w : Nat) (h : (j + 1) * w ≤ buf.length) :
    memcpyAt buf (j * w) (slot buf j w) = some buf := by
  have hl := length_slot buf j w h
  have e : (j + 1) * w = j * w + w := by ring
  unfold memcpyAt
  rw [hl, if_pos (by omega)]
  congr 1
  unfold slot
  rw [List.append_assoc, ← List.drop_drop, List.take_append_drop, List.take_append_drop]

theorem updatePolygons_fixed (u16 : Bool) (map : List Nat) (T fuel : Nat) (n j0 : Nat)
    (buf : List Nat) (c : Nat) (hP : (j0 + n) * 3 < U32)
    (hall : ∀ j : Nat, j0 ≤ j → j < j0 + n →
      (j + 1) * (3 * indexTypeSize u16) ≤ buf.length ∧
      ∃ p, collapsedPolygon u16 map T fuel buf j = some p ∧
        (isPolygonValid p = true →
          slot buf j (3 * indexTypeSize u16) = polygonArrayBytes u16 p)) :
    ∃ c', updatePolygons u16 map T fuel n j0 (buf, c) = some (buf, c') := by
  induction n generalizing j0 c with
  | zero => exact ⟨c, rfl⟩
  | succ n ih =>
    obtain ⟨hin, p, hp, hv⟩ := hall j0 (Nat.le_refl _) (by omega)
    have e : (j0 * 3) % U32 = 3 * j0 := by
      rw [Nat.mul_comm]
      exact Nat.mod_eq_of_lt (by omega)
    have hp' : collapsePolygon u16 map T fuel buf (3 * j0) = some p := hp
    have hstep : ∃ c1, updatePolygon u16 map T fuel j0 (buf, c) = some (buf, c1) := by
      by_cases hval : isPolygonValid p = true
      · refine ⟨(c + 1) % U32, ?_⟩
        have hcopy := memcpyAt_slot_self buf j0 (3 * indexTypeSize u16) hin
        rw [hv hval, show j0 * (3 * indexTypeSize u16) = 3 * j0 * indexTypeSize u16 by ring]
          at hcopy
        simp only [updatePolygon, e, hp', Option.some_bind, hval, if_true, hcopy,
          Option.map_some']
      · refine ⟨c, ?_⟩
        simp only [updatePolygon, e, hp', Option.some_bind, hval, Bool.false_eq_true, if_false]
    obtain ⟨c1, hc1⟩ := hstep
    obtain ⟨c', hc'⟩ := ih (j0 + 1) c1 (by omega)
      (fun j h1 h2 => hall j (by omega) (by omega))
    exact ⟨c', by simp only [updatePolygons, hc1, Option.some_bind, hc']⟩

/-! ## Idempotence of a refinement pass (C26) -/

/-- C26: refinement is idempotent. On every component on which refinement is defined and
for every target `T`, `UpdateProgressiveMeshData(T)` completes, and running it again on
the result completes and returns that same result: the same progressive index buffer,
`currentVertexCount` and `currentPolygonCount`, and every other field. -/
theorem UpdateProgressiveMeshData_twice (fuel T : Nat) (s : StaticMeshComponent)
    (hr : Refinable fuel s) :
    ∃ s1, UpdateProgressiveMeshData fuel T s = some s1 ∧
      UpdateProgressiveMeshData fuel T s1 = some s1 := by
  have hP := hr.polygons_lt
  obtain ⟨s1, h1, hr1⟩ := UpdateProgressiveMeshData_refinable hr T
  refine ⟨s1, h1, ?_⟩
  obtain ⟨hs1, hl1, hhit1, -⟩ := UpdateProgressiveMeshData_spec hP h1
  obtain ⟨hfrom1, hcount1⟩ := (RefinedFrom.refl fuel s).step hr T h1
  have eT : s1.m_currentVertexCount = T := by rw [hs1]
  have hfix : ∃ c', updatePolygons (useU16Index s.m_originVertexCount) s.m_map T fuel
      s.m_originPolygonCount 0 (s1.m_progressiveMeshIndexBuffer, 0)
      = some (s1.m_progressiveMeshIndexBuffer, c') := by
    apply updatePolygons_fixed _ _ _ _ _ _ _ _ (by omega)
    intro j _ hj
    have hj : j < s.m_originPolygonCount := by omega
    have hin := hr.polygon_in_buffer j hj
    rw [← hl1] at hin
    refine ⟨by rw [show (j + 1) * (3 * indexTypeSize (useU16Index s.m_originVertexCount))
      = (3 * j + 3) * indexTypeSize (useU16Index s.m_originVertexCount) by ring]; exact hin, ?_⟩
    obtain ⟨p, hp, hslot⟩ := hhit1 j hj
    obtain ⟨p', hp', hpV, hpT⟩ := hr.collapse_polygon T j hj
    rw [hp] at hp'
    cases hp'
    by_cases hv : isPolygonValid p = true
    · rw [if_pos hv] at hslot
      exact ⟨p, collapsedPolygon_of_bytes _ _ _ _ _ j p p (by omega) hr.vertices_lt hpV hin
        hslot (collapseIndex_of_le _ _ _ _ _ hpT.1) (collapseIndex_of_le _ _ _ _ _ hpT.2.1)
        (collapseIndex_of_le _ _ _ _ _ hpT.2.2), fun _ => hslot⟩
    · rw [if_neg hv] at hslot
      refine ⟨p, ?_, fun h => absurd h hv⟩
      rw [collapsedPolygon_congr _ _ _ _ _ _ j (by omega) hl1 hslot, hp]
  obtain ⟨c', hc'⟩ := hfix
  have h2 : UpdateProgressiveMeshData fuel T s1 = some
      { s1 with
        m_currentVertexCount := T
        m_progressiveMeshIndexBuffer := s1.m_progressiveMeshIndexBuffer
        m_currentPolygonCount := c' } := by
    apply UpdateProgressiveMeshData_eq_some.2
    refine ⟨(s1.m_progressiveMeshIndexBuffer, c'), ?_, rfl⟩
    rw [hfrom1.map_eq, hfrom1.vertices_eq, hfrom1.polygons_eq]
    exact hc'
  obtain ⟨-, hcount2⟩ := hfrom1.step hr T h2
  have ec : c' = s1.m_currentPolygonCount := by
    rw [hcount1]
    exact hcount2
  rw [h2, ec]
  congr 1
  cases s1
  simp only at eT
  subst eT
  rfl

/-- Witness of C26: the pass to target 2 on the fan component, run twice. -/
theorem UpdateProgressiveMeshData_twice_witness :
    Refinable 5 fanProgressive ∧
    ∃ s1, UpdateProgressiveMeshData 5 2 fanProgressive = some s1 ∧
      UpdateProgressiveMeshData 5 2 s1 = some s1 :=
  ⟨fanProgressive_refinable,
    UpdateProgressiveMeshData_twice 5 2 fanProgressive fanProgressive_refinable⟩

/-! ## Accesses stay in range (C27) -/

theorem mapChain_lt (map : List Nat) (V : Nat) (hmap : ∀ m ∈ map, m < V) (n v w : Nat)
    (hv : v < V) (h : mapChain map n v = some w) : w < V := by
  cases n with
  | zero =>
    simp only [mapChain, Option.some.injEq] at h
    omega
  | succ n => exact hmap w (mapChain_succ_mem map n v w h)

/-- C27: refinement never reads out of range. If the progressive index buffer holds
`3 x originPolygonCount` indices below `originVertexCount`, the collapse map has
`originVertexCount` entries below `originVertexCount` and every chain reaches 0, then
every sequence of refinement passes runs to completion (in the model an access outside
the buffer or the map stops the run), the buffer keeps its length and still holds
`3 x originPolygonCount` readable indices, every stored index is below
`originVertexCount`, and so is every value on the chain of a stored index, which is
therefore a position of the map. -/
theorem refinePasses_in_range (fuel : Nat) (s : StaticMeshComponent)
    (hr : Refinable fuel s) (Ts : List Nat) :
    ∃ c, refinePasses fuel Ts s = some c ∧
      c.m_map = s.m_map ∧ c.m_originVertexCount = s.m_originVertexCount ∧
      c.m_originPolygonCount = s.m_originPolygonCount ∧
      c.m_progressiveMeshIndexBuffer.length = s.m_progressiveMeshIndexBuffer.length ∧
      ∀ k : Nat, k < s.m_originPolygonCount * 3 → ∃ v,
        readIndex (useU16Index s.m_originVertexCount) c.m_progressiveMeshIndexBuffer k
          = some v ∧ v < s.m_originVertexCount ∧
        ∀ n w : Nat, mapChain s.m_map n v = some w →
          w < s.m_originVertexCount ∧ w < s.m_map.length := by
  obtain ⟨c, hc, hfrom, hrc⟩ := refinePasses_refinedFrom hr Ts s (RefinedFrom.refl fuel s) hr
  refine ⟨c, hc, hfrom.map_eq, hfrom.vertices_eq, hfrom.polygons_eq, hfrom.length_eq, ?_⟩
  intro k hk
  obtain ⟨v, hv, hvV⟩ := hrc.read_index k (by rw [hfrom.polygons_eq]; exact hk)
  rw [hfrom.vertices_eq] at hv hvV
  refine ⟨v, hv, hvV, fun n w hw => ?_⟩
  have := mapChain_lt s.m_map _ hr.map_lt n v w hvV hw
  exact ⟨this, by rw [hr.map_length]; exact this⟩

/-- Witness of C27: the passes to 3, 2, 5 and 0 on the fan component. -/
theorem refinePasses_in_range_witness :
    Refinable 5 fanProgressive ∧
    ∃ c, refinePasses 5 [3, 2, 5, 0] fanProgressive = some c ∧
      c.m_progressiveMeshIndexBuffer.length
        = fanProgressive.m_progressiveMeshIndexBuffer.length :=
  ⟨fanProgressive_refinable, by
    obtain ⟨c, h1, -, -, -, h2, -⟩ :=
      refinePasses_in_range 5 fanProgressive fanProgressive_refinable [3, 2, 5, 0]
    exact ⟨c, h1, h2⟩⟩

/-! ## Lemmas: the line list of a triangle list -/

theorem triListToLineList_window (m : Nat) (l : List Nat) (h : l.length = m * 3) (j : Nat)
    (hj : j < m) :
    ∃ a b c, (l.drop (3 * j)).take 3 = [a, b, c] ∧
      ((triListToLineList l).drop (6 * j)).take 6 = [a, b, b, c, c, a] := by
  induction j generalizing m l with
  | zero =>
    match l, h with
    | [], h => simp only [List.length_nil] at h; omega
    | [_], h => simp only [List.length_cons, List.length_nil] at h; omega
    | [_, _], h => simp only [List.length_cons, List.length_nil] at h; omega
    | a :: b :: c :: rest, _ => exact ⟨a, b, c, rfl, rfl⟩
  | succ j ih =>
    match l, h with
    | [], h => simp only [List.length_nil] at h; omega
    | [_], h => simp only [List.length_cons, List.length_nil] at h; omega
    | [_, _], h => simp only [List.length_cons, List.length_nil] at h; omega
    | a :: b :: c :: rest, h =>
      simp only [List.length_cons] at h
      obtain ⟨x, y, z, h1, h2⟩ := ih (m - 1) rest (by omega) (by omega)
      refine ⟨x, y, z, ?_, ?_⟩
      · rw [show 3 * (j + 1) = 3 * j + 1 + 1 + 1 by ring]
        exact h1
      · rw [show 6 * (j + 1) = 6 * j + 1 + 1 + 1 + 1 + 1 + 1 by ring]
        exact h2

theorem memcpyAt_whole (dst data : List Nat) (h : data.length = dst.length) :
    memcpyAt dst 0 data = some data := by
  unfold memcpyAt
  rw [if_pos (by omega), List.take_zero, List.nil_append, Nat.zero_add,
    List.drop_of_length_le (by omega), List.append_nil]

theorem topologyConvert_lines (u16 : Bool) (ib dst : List Nat) (p : Nat) (vs : List Nat)
    (hvs : readIndices u16 ib (p * 3) = some vs) (hlen : vs.length = p * 3)
    (h3 : p * 6 < U32) (hd : dst.length = p * 6 * indexTypeSize u16) :
    topologyConvert (some dst) ib (p * 3) (!u16)
      = some (p * 6, some ((triListToLineList vs).map (encodeIndex u16)).flatten) := by
  have hl := length_triListToLineList p vs hlen
  have hcopy := memcpyAt_whole dst ((triListToLineList vs).map (encodeIndex u16)).flatten
    (by rw [length_flatten_encodeIndex, hl, hd])
  simp only [topologyConvert, Bool.not_not, hvs, Option.some_bind, hcopy, Option.map_some', hl]
  rw [Nat.mod_eq_of_lt h3]

/-- The wireframe index buffer that `BuildWireframeData` leaves: the encoded line list
of the `3 x currentPolygonCount` indices read from the index buffer. -/
theorem BuildWireframeData_lines (s : StaticMeshComponent)
    (h2 : s.m_currentPolygonCount * 3 * indexTypeSize (useU16Index s.m_currentVertexCount)
      ≤ s.m_indexBuffer.length)
    (h3 : s.m_currentPolygonCount * 6 * indexTypeSize (useU16Index s.m_currentVertexCount)
      < U32) :
    ∃ vs, readIndices (useU16Index s.m_currentVertexCount) s.m_indexBuffer
        (s.m_currentPolygonCount * 3) = some vs ∧
      vs.length = s.m_currentPolygonCount * 3 ∧
      BuildWireframeData s = some { s with
        m_wireframeIndexBuffer :=
          ((triListToLineList vs).map
            (encodeIndex (useU16Index s.m_currentVertexCount))).flatten } := by
  have hpos := indexTypeSize_pos (useU16Index s.m_currentVertexCount)
  have h6 : s.m_currentPolygonCount * 6 < U32 :=
    lt_of_le_of_lt (Nat.le_mul_of_pos_right _ hpos) h3
  have h3m : s.m_currentPolygonCount * 3 % U32 = s.m_currentPolygonCount * 3 :=
    Nat.mod_eq_of_lt (by omega)
  obtain ⟨vs, hvs, hlen⟩ := readIndicesFrom_some (useU16Index s.m_currentVertexCount)
    s.m_indexBuffer (s.m_currentPolygonCount * 3) 0 (by simpa using h2)
  refine ⟨vs, hvs, hlen, ?_⟩
  have hfill := topologyConvert_lines (useU16Index s.m_currentVertexCount) s.m_indexBuffer
    (resize s.m_wireframeIndexBuffer
      (s.m_currentPolygonCount * 6 * indexTypeSize (useU16Index s.m_currentVertexCount)))
    s.m_currentPolygonCount vs hvs hlen h6 (by simp)
  simp only [BuildWireframeData, h3m,
    topologyConvert_count (useU16Index s.m_currentVertexCount) s.m_indexBuffer
      s.m_currentPolygonCount h2 h6, Option.some_bind, Nat.mod_eq_of_lt h3, hfill,
    Option.map_some']

/-- The last step of a successful `Build` is `BuildWireframeData` on the packed state. -/
theorem Build_wireframe_step {s s' : StaticMeshComponent} {mesh : Mesh} {fmt : VertexFormat}
    (hm : s.m_pMeshData = some mesh) (hf : s.m_pRequiredVertexFormat = some fmt)
    (hcompat : mesh.vertexFormat.IsCompatiableTo fmt = true) (hwf : mesh.WellFormed)
    (h : Build s = some s') :
    BuildWireframeData (builtState s mesh fmt) = some s' := by
  have hU : 0 < U32 := by decide
  rw [Build_unfold hm hf hcompat hwf] at h
  simp only [Option.bind_eq_some] at h
  obtain ⟨vc, hvc, ic, hic, hw⟩ := h
  obtain ⟨hv1, hv2⟩ := FillBuffer_fresh (by simpa using Nat.mod_lt _ hU) hvc
  obtain ⟨hi1, hi2⟩ := FillBuffer_fresh (by simpa using Nat.mod_lt _ hU) hic
  rw [length_packedVertices] at hv2
  rw [length_packedIndices_mesh mesh hwf, length_resize] at hi1
  have hpos := indexTypeSize_pos (useU16Index mesh.vertexCount)
  have hlt : mesh.polygonCount * 3 * indexTypeSize (useU16Index mesh.vertexCount) < U32 :=
    lt_of_le_of_lt hi1 (Nat.mod_lt _ hU)
  have h3 : mesh.polygonCount * 3 < U32 :=
    lt_of_le_of_lt (Nat.le_mul_of_pos_right _ hpos) hlt
  have hdrop : ic.buf = packedIndices (useU16Index mesh.vertexCount) mesh.polygons := by
    rw [hi2, List.drop_of_length_le, List.append_nil]
    rw [length_resize, length_packedIndices_mesh mesh hwf, Nat.mod_eq_of_lt h3,
      Nat.mod_eq_of_lt hlt]
  rw [hv2, hdrop] at hw
  exact hw

/-! ## Wireframe derivation (C22) -/

/-- C22, counterexample: the wireframe index buffer that `Build` derives from the single
triangle `[0, 1, 2]` holds the six indices `0,1, 1,2, 2,0`; it is 12 bytes long with
16-bit indices (3 vertices) and 24 bytes long with 32-bit indices (65537 vertices), not
6 and 12 bytes. -/
theorem BuildWireframeData_triangle_bytes :
    (∃ built, Build (freshComponent triangleMesh formatPN) = some built ∧
      useU16Index built.m_currentVertexCount = true ∧
      built.m_indexBuffer = [0, 0, 1, 0, 2, 0] ∧
      built.m_wireframeIndexBuffer = [0, 0, 1, 0, 1, 0, 2, 0, 2, 0, 0, 0] ∧
      built.m_wireframeIndexBuffer.length = 12) ∧
    ∃ built, Build (freshComponent wideMesh formatP) = some built ∧
      useU16Index built.m_currentVertexCount = false ∧
      built.m_indexBuffer = [0, 0, 0, 0, 1, 0, 0, 0, 2, 0, 0, 0] ∧
      built.m_wireframeIndexBuffer
        = [0, 0, 0, 0, 1, 0, 0, 0, 1, 0, 0, 0, 2, 0, 0, 0, 2, 0, 0, 0, 0, 0, 0, 0] ∧
      built.m_wireframeIndexBuffer.length = 24 := by
  refine ⟨⟨triangleBuilt, rfl, by decide, rfl, rfl, rfl⟩, ?_⟩
  obtain ⟨w, hw⟩ := @Build_eq (freshComponent wideMesh formatP) wideMesh formatP rfl rfl
    (by decide) wideMesh_wellFormed (by decide) (by decide)
  have hstep := Build_wireframe_step rfl rfl (by decide) wideMesh_wellFormed hw
  obtain ⟨vs, hvs, -, hlines⟩ := BuildWireframeData_lines
    (builtState (freshComponent wideMesh formatP) wideMesh formatP) (by decide) (by decide)
  have hread : readIndices
      (useU16Index (builtState (freshComponent wideMesh formatP) wideMesh
        formatP).m_currentVertexCount)
      (builtState (freshComponent wideMesh formatP) wideMesh formatP).m_indexBuffer
      ((builtState (freshComponent wideMesh formatP) wideMesh formatP).m_currentPolygonCount
        * 3) = some [0, 1, 2] := by decide
  rw [hread] at hvs
  cases hvs
  rw [hstep] at hlines
  have hwf := congrArg (Option.map (fun s => s.m_wireframeIndexBuffer)) hlines
  simp only [Option.map_some', Option.some.injEq] at hwf
  have hu : useU16Index (builtState (freshComponent wideMesh formatP) wideMesh
      formatP).m_currentVertexCount = false := by decide
  rw [hu] at hwf
  have hval : ((triListToLineList [0, 1, 2]).map (encodeIndex false)).flatten
      = [0, 0, 0, 0, 1, 0, 0, 0, 1, 0, 0, 0, 2, 0, 0, 0, 2, 0, 0, 0, 0, 0, 0, 0] := by decide
  rw [hval] at hwf
  have hw2 : w = [0, 0, 0, 0, 1, 0, 0, 0, 1, 0, 0, 0, 2, 0, 0, 0, 2, 0, 0, 0, 0, 0, 0, 0] :=
    hwf
  have hib : (builtState (freshComponent wideMesh formatP) wideMesh formatP).m_indexBuffer
      = [0, 0, 0, 0, 1, 0, 0, 0, 2, 0, 0, 0] := by decide
  refine ⟨_, hw, hu, hib, hw2, ?_⟩
  show w.length = 24
  rw [hw2]
  rfl

/-- C22, amended: `BuildWireframeData` reads the `3 x currentPolygonCount` indices of the
index buffer at the width chosen from `currentVertexCount` and stores their line list at
the same width: every triangle `(a, b, c)` gives the six indices `a,b, b,c, c,a`, in
triangle order and without deduplication, so the wireframe index buffer is
`currentPolygonCount x 6 x indexTypeSize` bytes long: for one triangle 12 bytes with
16-bit indices and 24 bytes with 32-bit indices. -/
theorem BuildWireframeData_edges (s : StaticMeshComponent)
    (h2 : s.m_currentPolygonCount * 3 * indexTypeSize (useU16Index s.m_currentVertexCount)
      ≤ s.m_indexBuffer.length)
    (h3 : s.m_currentPolygonCount * 6 * indexTypeSize (useU16Index s.m_currentVertexCount)
      < U32) :
    ∃ vs s', readIndices (useU16Index s.m_currentVertexCount) s.m_indexBuffer
        (s.m_currentPolygonCount * 3) = some vs ∧
      vs.length = s.m_currentPolygonCount * 3 ∧
      BuildWireframeData s = some s' ∧
      s' = { s with m_wireframeIndexBuffer := s'.m_wireframeIndexBuffer } ∧
      s'.m_wireframeIndexBuffer = ((triListToLineList vs).map
        (encodeIndex (useU16Index s.m_currentVertexCount))).flatten ∧
      s'.m_wireframeIndexBuffer.length
        = s.m_currentPolygonCount * 6 * indexTypeSize (useU16Index s.m_currentVertexCount) ∧
      (s.m_currentPolygonCount = 1 →
        (useU16Index s.m_currentVertexCount = true → s'.m_wireframeIndexBuffer.length = 12) ∧
        (useU16Index s.m_currentVertexCount = false →
          s'.m_wireframeIndexBuffer.length = 24)) ∧
      ∀ j : Nat, j < s.m_currentPolygonCount → ∃ a b c,
        (vs.drop (3 * j)).take 3 = [a, b, c] ∧
        ((triListToLineList vs).drop (6 * j)).take 6 = [a, b, b, c, c, a] := by
  obtain ⟨vs, hvs, hlen, hlines⟩ := BuildWireframeData_lines s h2 h3
  have hl : (((triListToLineList vs).map
      (encodeIndex (useU16Index s.m_currentVertexCount))).flatten).length
      = s.m_currentPolygonCount * 6 * indexTypeSize (useU16Index s.m_currentVertexCount) := by
    rw [length_flatten_encodeIndex, length_triListToLineList _ vs hlen]
  refine ⟨vs, _, hvs, hlen, hlines, rfl, rfl, hl, ?_,
    fun j hj => triListToLineList_window _ vs hlen j hj⟩
  intro h1
  constructor
  · intro hu
    show (((triListToLineList vs).map
      (encodeIndex (useU16Index s.m_currentVertexCount))).flatten).length = 12
    rw [hl, h1, hu]
    rfl
  · intro hu
    show (((triListToLineList vs).map
      (encodeIndex (useU16Index s.m_currentVertexCount))).flatten).length = 24
    rw [hl, h1, hu]
    rfl

/-- Witness of C22 (amended): the packed one-triangle component. -/
theorem BuildWireframeData_edges_witness :
    ∃ vs s', readIndices (useU16Index triangleBuilt.m_currentVertexCount)
        triangleBuilt.m_indexBuffer (triangleBuilt.m_currentPolygonCount * 3) = some vs ∧
      vs = [0, 1, 2] ∧ BuildWireframeData triangleBuilt = some s' ∧
      s'.m_wireframeIndexBuffer.length = 12 := by
  obtain ⟨vs, s', h1, -, h3, -, -, -, h7, -⟩ :=
    BuildWireframeData_edges triangleBuilt (by decide) (by decide)
  have hread : readIndices (useU16Index triangleBuilt.m_currentVertexCount)
      triangleBuilt.m_indexBuffer (triangleBuilt.m_currentPolygonCount * 3)
      = some [0, 1, 2] := by decide
  have e : some vs = some [0, 1, 2] := h1.symm.trans hread
  exact ⟨vs, s', h1, Option.some.inj e, h3, (h7 rfl).1 (by decide)⟩

/-! ## Lemmas: rounding to `float` -/

theorem roundHalfEven_near (y : ℚ) (n : Int) (h1 : (n : ℚ) - 1 / 2 < y)
    (h2 : y < (n : ℚ) + 1 / 2) : roundHalfEven y = n := by
  unfold roundHalfEven
  by_cases hy : (n : ℚ) ≤ y
  · have hf : ⌊y⌋ = n := Int.floor_eq_iff.2 ⟨hy, by linarith⟩
    simp only [hf]
    rw [if_pos (by linarith)]
  · have hf : ⌊y⌋ = n - 1 := Int.floor_eq_iff.2 ⟨by push_cast; linarith, by push_cast; linarith⟩
    simp only [hf]
    rw [if_neg (by push_cast; linarith), if_pos (by push_cast; linarith)]
    ring

theorem roundHalfEven_intCast (n : Int) : roundHalfEven (n : ℚ) = n :=
  roundHalfEven_near _ n (by linarith) (by linarith)

theorem roundHalfEven_tie (m : Int) (y : ℚ) (h : y = (m : ℚ) + 1 / 2) :
    roundHalfEven y = if m % 2 = 0 then m else m + 1 := by
  unfold roundHalfEven
  have hf : ⌊y⌋ = m := Int.floor_eq_iff.2 ⟨by linarith, by linarith⟩
  simp only [hf]
  have hr : y - (m : ℚ) = 1 / 2 := by linarith
  rw [hr, if_neg (lt_irrefl _), if_neg (lt_irrefl _)]

theorem roundHalfEven_le (y : ℚ) (M : Int) (h : y ≤ (M : ℚ)) : roundHalfEven y ≤ M := by
  unfold roundHalfEven
  have hf : ⌊y⌋ ≤ M := Int.floor_le_iff.2 (by linarith [Int.floor_le y])
  have hfl := Int.floor_le y
  rcases lt_or_eq_of_le hf with hlt | heq
  · simp only
    split
    · exact hf
    · split
      · omega
      · split
        · exact hf
        · omega
  · simp only
    have : y - (⌊y⌋ : ℚ) < 1 / 2 := by
      rw [heq]
      linarith
    rw [if_pos this]
    exact hf

theorem roundHalfEven_nonneg (y : ℚ) (h : 0 ≤ y) : 0 ≤ roundHalfEven y := by
  unfold roundHalfEven
  have hf : 0 ≤ ⌊y⌋ := Int.floor_nonneg.2 h
  simp only
  split
  · exact hf
  · split
    · omega
    · split
      · exact hf
      · omega

theorem log_two_eq (x : ℚ) (k : Int) (hx : 0 < x) (hlo : (2 : ℚ) ^ k ≤ x)
    (hhi : x < (2 : ℚ) ^ (k + 1)) : Int.log 2 x = k := by
  have h1 : k ≤ Int.log 2 x :=
    (Int.zpow_le_iff_le_log (by norm_num) hx).1 (by simpa using hlo)
  have h2 : Int.log 2 x < k + 1 :=
    (Int.lt_zpow_iff_log_lt (by norm_num) hx).1 (by simpa using hhi)
  omega

theorem float32Round_eq (x : ℚ) (k n : Int) (hx : 0 < x) (hlo : (2 : ℚ) ^ k ≤ x)
    (hhi : x < (2 : ℚ) ^ (k + 1)) (hk : -126 ≤ k)
    (hn : roundHalfEven (x / (2 : ℚ) ^ (k - 23)) = n) :
    float32Round x = (n : ℚ) * (2 : ℚ) ^ (k - 23) := by
  have hu : float32Ulp x = k - 23 := by
    unfold float32Ulp
    rw [log_two_eq x k hx hlo hhi]
    omega
  unfold float32Round
  rw [hu, hn]

theorem float32Round_zero : float32Round 0 = 0 := by
  unfold float32Round
  rw [zero_div, show ((0 : ℚ)) = ((0 : Int) : ℚ) by norm_num, roundHalfEven_intCast]
  simp


theorem float32Round_nonneg (x : ℚ) (hx : 0 ≤ x) : 0 ≤ float32Round x := by
  unfold float32Round
  have hp : (0 : ℚ) < (2 : ℚ) ^ float32Ulp x := zpow_pos (by norm_num) _
  have hr := roundHalfEven_nonneg (x / (2 : ℚ) ^ float32Ulp x) (div_nonneg hx hp.le)
  exact mul_nonneg (by exact_mod_cast hr) hp.le

theorem float32Ulp_mono (x B : ℚ) (hx : 0 < x) (hxB : x ≤ B) :
    float32Ulp x ≤ float32Ulp B := by
  unfold float32Ulp
  have := @Int.log_mono_right ℚ _ _ 2 x B hx hxB
  omega

/-- Rounding never crosses a representable value. -/
theorem float32Round_le (x B : ℚ) (hx : 0 ≤ x) (hxB : x ≤ B) (hB : IsFloat32 B) :
    float32Round x ≤ B := by
  rcases eq_or_lt_of_le hx with h0 | hpos
  · rw [← h0, float32Round_zero]
    linarith
  · have hle := float32Ulp_mono x B hpos hxB
    have hpx : (0 : ℚ) < (2 : ℚ) ^ float32Ulp x := zpow_pos (by norm_num) _
    obtain ⟨d, hd⟩ : ∃ d : Nat, float32Ulp B = float32Ulp x + d :=
      ⟨(float32Ulp B - float32Ulp x).toNat, by omega⟩
    have hBeq : B = ((roundHalfEven (B / (2 : ℚ) ^ float32Ulp B) * 2 ^ d : Int) : ℚ)
        * (2 : ℚ) ^ float32Ulp x := by
      have h := hB
      unfold IsFloat32 float32Round at h
      rw [hd] at h ⊢
      rw [zpow_add₀ (by norm_num : (2 : ℚ) ≠ 0), zpow_natCast] at h ⊢
      push_cast
      rw [mul_assoc, mul_comm ((2 : ℚ) ^ d)]
      exact h.symm
    have hdiv : x / (2 : ℚ) ^ float32Ulp x
        ≤ ((roundHalfEven (B / (2 : ℚ) ^ float32Ulp B) * 2 ^ d : Int) : ℚ) := by
      rw [div_le_iff₀ hpx, ← hBeq]
      exact hxB
    have hr := roundHalfEven_le _ _ hdiv
    unfold float32Round
    calc (roundHalfEven (x / (2 : ℚ) ^ float32Ulp x) : ℚ) * (2 : ℚ) ^ float32Ulp x
        ≤ ((roundHalfEven (B / (2 : ℚ) ^ float32Ulp B) * 2 ^ d : Int) : ℚ)
          * (2 : ℚ) ^ float32Ulp x :=
          mul_le_mul_of_nonneg_right (by exact_mod_cast hr) hpx.le
      _ = B := hBeq.symm

theorem isFloat32_two_pow_31 : IsFloat32 2147483648 := by
  unfold IsFloat32
  rw [float32Round_eq _ 31 8388608 (by norm_num) (by norm_num) (by norm_num) (by norm_num)
    (roundHalfEven_near _ _ (by norm_num) (by norm_num))]
  norm_num

/-- Every count up to `2 ^ 24` is a binary32 value. -/
theorem isFloat32_natCast (V : Nat) (hV : V ≤ 16777216) : IsFloat32 (V : ℚ) := by
  unfold IsFloat32
  rcases Nat.eq_zero_or_pos V with h0 | hpos
  · rw [h0, Nat.cast_zero, float32Round_zero]
  · have hq : (0 : ℚ) < (V : ℚ) := by exact_mod_cast hpos
    have h1 : (0 : Int) ≤ Int.log 2 (V : ℚ) :=
      (Int.zpow_le_iff_le_log (by norm_num) hq).1 (by
        rw [zpow_zero]
        exact_mod_cast hpos)
    have h2 : Int.log 2 (V : ℚ) < 25 :=
      (Int.lt_zpow_iff_log_lt (by norm_num) hq).1 (by
        have : (V : ℚ) ≤ 16777216 := by exact_mod_cast hV
        norm_num
        linarith)
    have hlo : ((2 : Nat) : ℚ) ^ Int.log 2 (V : ℚ) ≤ (V : ℚ) :=
      Int.zpow_log_le_self (by norm_num) hq
    have hu : float32Ulp (V : ℚ) = Int.log 2 (V : ℚ) - 23 := by
      unfold float32Ulp
      omega
    unfold float32Round
    rw [hu]
    generalize Int.log 2 (V : ℚ) = k at h1 h2 hlo
    by_cases hk : k = 24
    · subst hk
      have hVeq : (V : ℚ) = 16777216 := by
        have : (16777216 : ℚ) ≤ (V : ℚ) := by
          norm_num at hlo
          exact_mod_cast hlo
        have : (V : ℚ) ≤ 16777216 := by exact_mod_cast hV
        linarith
      rw [hVeq, roundHalfEven_near _ 8388608 (by norm_num) (by norm_num)]
      norm_num
    · obtain ⟨d, hd⟩ : ∃ d : Nat, k - 23 = -(d : Int) := ⟨(23 - k).toNat, by omega⟩
      rw [hd, zpow_neg, zpow_natCast, div_inv_eq_mul,
        show (V : ℚ) * (2 : ℚ) ^ d = ((V * 2 ^ d : Int) : ℚ) by push_cast; rfl,
        roundHalfEven_intCast]
      push_cast
      rw [mul_assoc, mul_inv_cancel₀ (pow_ne_zero _ (by norm_num)), mul_one]

/-! ## Lemmas: the ten-vertex component -/

set_option maxRecDepth 8000 in
theorem Build_ten : Build (freshComponent tenMesh formatP) = some tenBuilt := rfl

set_option maxRecDepth 8000 in
theorem BuildProgressiveMeshData_ten :
    BuildProgressiveMeshData tenBackend tenBuilt = some tenProgressive := rfl

theorem percentVertexCount_eq (s : StaticMeshComponent) (v : ℚ)
    (hv : float32Round (s.m_progressiveMeshReductionPercent
      * float32Round (s.m_originVertexCount : ℚ)) = v) (hlt : v < (U32 : ℚ)) :
    percentVertexCount s = some ⌊v⌋₊ := by
  unfold percentVertexCount
  simp only [hv, if_pos hlt]

theorem float32Round_seventy_percent_of_ten :
    float32Round ((11744051 / 16777216 : ℚ) * float32Round ((10 : Nat) : ℚ)) = 7 := by
  have h10 : float32Round ((10 : Nat) : ℚ) = ((10 : Nat) : ℚ) :=
    isFloat32_natCast 10 (by norm_num)
  rw [h10, float32Round_eq _ 2 14680064 (by norm_num) (by norm_num) (by norm_num)
    (by norm_num) (roundHalfEven_near _ _ (by norm_num) (by norm_num))]
  norm_num

theorem float32Round_16777219 : float32Round ((16777219 : Nat) : ℚ) = 16777220 := by
  rw [float32Round_eq _ 24 8388610 (by norm_num) (by norm_num) (by norm_num) (by norm_num)
    ((roundHalfEven_tie 8388609 _ (by norm_num)).trans (by decide))]
  norm_num

theorem isFloat32_16777220 : float32Round (16777220 : ℚ) = 16777220 := by
  rw [float32Round_eq _ 24 8388610 (by norm_num) (by norm_num) (by norm_num) (by norm_num)
    (roundHalfEven_near _ _ (by norm_num) (by norm_num))]
  norm_num

/-! ## The target computed from the percent (C18) -/

/-- C18, counterexample: the ten-vertex component (origin vertex count 10, ceiling 10)
with the reduction percent 0.7f = 11744051 / 2^24. The exact product is below 7, so
`floor(percent x originVertexCount)` is 6, but the `float` product rounds to 7.0f and
`UpdateProgressiveMeshData()` runs the pass with target 7. And with origin vertex count
16777219, percent 1 and a ceiling of `UINT32_MAX`, the count converted to `float` is
16777220, and so is the target: above the origin vertex count. -/
theorem finalVertexCount_not_floor :
    (Build (freshComponent tenMesh formatP)).bind (BuildProgressiveMeshData tenBackend)
      = some tenProgressive ∧
    tenSeventyPercent.m_originVertexCount = 10 ∧
    tenSeventyPercent.m_progressiveMeshTargetVertexCount = 10 ∧
    (0 ≤ tenSeventyPercent.m_progressiveMeshReductionPercent ∧
      tenSeventyPercent.m_progressiveMeshReductionPercent ≤ 1) ∧
    IsFloat32 tenSeventyPercent.m_progressiveMeshReductionPercent ∧
    ⌊tenSeventyPercent.m_progressiveMeshReductionPercent
      * (tenSeventyPercent.m_originVertexCount : ℚ)⌋₊ = 6 ∧
    percentVertexCount tenSeventyPercent = some 7 ∧
    finalVertexCount tenSeventyPercent = some 7 ∧
    UpdateProgressiveMeshDataFloat 10 tenSeventyPercent
      = some { tenSeventyPercent with m_currentVertexCount := 7 } ∧
    percentVertexCount (lodState 16777219 UINT32_MAX 1) = some 16777220 ∧
    finalVertexCount (lodState 16777219 UINT32_MAX 1) = some 16777220 := by
  have hp : (0 : ℚ) ≤ 11744051 / 16777216 ∧ (11744051 / 16777216 : ℚ) ≤ 1 := by
    constructor <;> norm_num
  have hfloat : IsFloat32 (11744051 / 16777216 : ℚ) := by
    unfold IsFloat32
    rw [float32Round_eq _ (-1) 11744051 (by norm_num) (by norm_num) (by norm_num)
      (by norm_num) (roundHalfEven_near _ _ (by norm_num) (by norm_num))]
    norm_num
  have hfloor : ⌊(11744051 / 16777216 : ℚ) * ((10 : Nat) : ℚ)⌋₊ = 6 := by
    rw [Nat.floor_eq_iff (by norm_num)]
    constructor <;> norm_num
  have hpvc : percentVertexCount tenSeventyPercent = some 7 := by
    have h := percentVertexCount_eq tenSeventyPercent 7
      float32Round_seventy_percent_of_ten (by norm_num [U32])
    rw [h]
    norm_num
  have hfinal : finalVertexCount tenSeventyPercent = some 7 := by
    unfold finalVertexCount
    rw [hpvc]
    rfl
  have hrun : UpdateProgressiveMeshDataFloat 10 tenSeventyPercent
      = some { tenSeventyPercent with m_currentVertexCount := 7 } := by
    unfold UpdateProgressiveMeshDataFloat
    rw [hpvc, Option.some_bind]
    have hguard : UpdateProgressiveMeshDataPercent 10 7 tenSeventyPercent
        = UpdateProgressiveMeshData 10 7 tenSeventyPercent := by
      have hp2 : 0 ≤ tenSeventyPercent.m_progressiveMeshReductionPercent ∧
          tenSeventyPercent.m_progressiveMeshReductionPercent ≤ 1 := hp
      unfold UpdateProgressiveMeshDataPercent
      rw [if_pos hp2]
      rfl
    rw [hguard]
    rfl
  have hwide : percentVertexCount (lodState 16777219 UINT32_MAX 1) = some 16777220 := by
    have hv : float32Round ((1 : ℚ) * float32Round ((16777219 : Nat) : ℚ)) = 16777220 := by
      rw [float32Round_16777219, one_mul, isFloat32_16777220]
    have h := percentVertexCount_eq (lodState 16777219 UINT32_MAX 1) 16777220 hv
      (by norm_num [U32])
    rw [h]
    norm_num
  have hchain : (Build (freshComponent tenMesh formatP)).bind
      (BuildProgressiveMeshData tenBackend) = some tenProgressive := by
    rw [Build_ten, Option.some_bind, BuildProgressiveMeshData_ten]
  refine ⟨hchain, rfl, rfl, hp, hfloat, hfloor, hpvc, hfinal, hrun, hwide, ?_⟩
  unfold finalVertexCount
  rw [hwide]
  show some (min UINT32_MAX 16777220) = some 16777220
  norm_num [UINT32_MAX]

/-- C18, amended: for every reduction percent in `[0, 1]` (and an origin vertex count up
to `2^31`) the `float` product is converted to a `uint32_t`, and the target that
`UpdateProgressiveMeshData()` passes to the refinement pass is
`min(ceiling, trunc(fl(percent x fl(originVertexCount))))`, `fl` rounding to `float`. It is
never above the ceiling; it is never above the origin vertex count when the ceiling is
not, and the percent-derived count itself is not above the origin vertex count when that
count is at most `2^24`; it is `min(ceiling, floor(percent x originVertexCount))` when the
origin vertex count is at most `2^24` and the exact product is a `float`. -/
theorem finalVertexCount_bounds (s : StaticMeshComponent)
    (hpercent : 0 ≤ s.m_progressiveMeshReductionPercent ∧
      s.m_progressiveMeshReductionPercent ≤ 1)
    (hV : s.m_originVertexCount ≤ 2147483648) :
    ∃ pvc, percentVertexCount s = some pvc ∧
      pvc = ⌊float32Round (s.m_progressiveMeshReductionPercent
        * float32Round (s.m_originVertexCount : ℚ))⌋₊ ∧
      finalVertexCount s = some (min s.m_progressiveMeshTargetVertexCount pvc) ∧
      (∀ fuel : Nat, UpdateProgressiveMeshDataFloat fuel s
        = UpdateProgressiveMeshDataPercent fuel pvc s) ∧
      min s.m_progressiveMeshTargetVertexCount pvc ≤ s.m_progressiveMeshTargetVertexCount ∧
      (s.m_progressiveMeshTargetVertexCount ≤ s.m_originVertexCount →
        min s.m_progressiveMeshTargetVertexCount pvc ≤ s.m_originVertexCount) ∧
      (s.m_originVertexCount ≤ 16777216 → pvc ≤ s.m_originVertexCount) ∧
      (s.m_originVertexCount ≤ 16777216 →
        IsFloat32 (s.m_progressiveMeshReductionPercent * (s.m_originVertexCount : ℚ)) →
        pvc = ⌊s.m_progressiveMeshReductionPercent * (s.m_originVertexCount : ℚ)⌋₊) := by
  obtain ⟨hp0, hp1⟩ := hpercent
  have hVq : (s.m_originVertexCount : ℚ) ≤ 2147483648 := by exact_mod_cast hV
  have hV0 : (0 : ℚ) ≤ (s.m_originVertexCount : ℚ) := Nat.cast_nonneg _
  have hf0 := float32Round_nonneg _ hV0
  have hfV : float32Round (s.m_originVertexCount : ℚ) ≤ 2147483648 :=
    float32Round_le _ _ hV0 hVq isFloat32_two_pow_31
  have hprod0 : 0 ≤ s.m_progressiveMeshReductionPercent
      * float32Round (s.m_originVertexCount : ℚ) := mul_nonneg hp0 hf0
  have hprodle : s.m_progressiveMeshReductionPercent
      * float32Round (s.m_originVertexCount : ℚ)
      ≤ float32Round (s.m_originVertexCount : ℚ) := by
    have := mul_le_mul_of_nonneg_right hp1 hf0
    linarith
  have hv0 := float32Round_nonneg _ hprod0
  have hv : float32Round (s.m_progressiveMeshReductionPercent
      * float32Round (s.m_originVertexCount : ℚ)) ≤ 2147483648 :=
    float32Round_le _ _ hprod0 (le_trans hprodle hfV) isFloat32_two_pow_31
  have hlt : float32Round (s.m_progressiveMeshReductionPercent
      * float32Round (s.m_originVertexCount : ℚ)) < (U32 : ℚ) := by
    have : (2147483648 : ℚ) < (U32 : ℚ) := by norm_num [U32]
    linarith
  have hpvc := percentVertexCount_eq s _ rfl hlt
  refine ⟨_, hpvc, rfl, by rw [finalVertexCount, hpvc]; rfl,
    fun fuel => by rw [UpdateProgressiveMeshDataFloat, hpvc]; rfl,
    Nat.min_le_left _ _, fun h => le_trans (Nat.min_le_left _ _) h, ?_, ?_⟩
  · intro h24
    have hrep := isFloat32_natCast s.m_originVertexCount h24
    have hle : float32Round (s.m_progressiveMeshReductionPercent
        * float32Round (s.m_originVertexCount : ℚ)) ≤ (s.m_originVertexCount : ℚ) := by
      apply float32Round_le _ _ hprod0 _ hrep
      have e : float32Round (s.m_originVertexCount : ℚ) = (s.m_originVertexCount : ℚ) := hrep
      exact le_trans hprodle (le_of_eq e)
    have hfl := Nat.floor_le hv0
    have : ((⌊float32Round (s.m_progressiveMeshReductionPercent
        * float32Round (s.m_originVertexCount : ℚ))⌋₊ : Nat) : ℚ)
        ≤ (s.m_originVertexCount : ℚ) := le_trans hfl hle
    exact_mod_cast this
  · intro h24 hexact
    have e : float32Round (s.m_originVertexCount : ℚ) = (s.m_originVertexCount : ℚ) :=
      isFloat32_natCast s.m_originVertexCount h24
    have e2 : float32Round (s.m_progressiveMeshReductionPercent * (s.m_originVertexCount : ℚ))
        = s.m_progressiveMeshReductionPercent * (s.m_originVertexCount : ℚ) := hexact
    rw [e, e2]

/-- Witness of C18 (amended): the ten-vertex component at percent 0.7f gets the target
7, which is not above its ceiling 10 nor above its origin vertex count 10. -/
theorem finalVertexCount_bounds_witness :
    (0 ≤ tenSeventyPercent.m_progressiveMeshReductionPercent ∧
      tenSeventyPercent.m_progressiveMeshReductionPercent ≤ 1) ∧
    tenSeventyPercent.m_originVertexCount ≤ 2147483648 ∧
    ∃ pvc, percentVertexCount tenSeventyPercent = some pvc ∧
      finalVertexCount tenSeventyPercent
        = some (min tenSeventyPercent.m_progressiveMeshTargetVertexCount pvc) ∧
      min tenSeventyPercent.m_progressiveMeshTargetVertexCount pvc
        ≤ tenSeventyPercent.m_progressiveMeshTargetVertexCount ∧
      pvc ≤ tenSeventyPercent.m_originVertexCount := by
  have hp : 0 ≤ tenSeventyPercent.m_progressiveMeshReductionPercent ∧
      tenSeventyPercent.m_progressiveMeshReductionPercent ≤ 1 := by
    show (0 : ℚ) ≤ 11744051 / 16777216 ∧ (11744051 / 16777216 : ℚ) ≤ 1
    constructor <;> norm_num
  have hV : tenSeventyPercent.m_originVertexCount ≤ 2147483648 := by
    show 10 ≤ 2147483648
    norm_num
  obtain ⟨pvc, h1, -, h3, -, h5, -, h7, -⟩ := finalVertexCount_bounds tenSeventyPercent hp hV
  exact ⟨hp, hV, pvc, h1, h3, h5, h7 (by show 10 ≤ 16777216; norm_num)⟩

end CatDog
